import Mathlib

/-!
Verification development for the OpenProject data-pipeline repository.

The embedding models the normalization pipeline of
`backend/app/transformations/normalize.py` together with the schema
registry (`schema.py`), the CSV export adapter (`exporters/powerbi.py`),
the CSV re-ingestion path and bundle filtering of `dashboard/app.py`.

Modelling conventions:
- A pandas cell is a `Value` (null / string / integer / boolean /
  calendar date / timestamp).  Floats only occur in the source as
  transient results of `pd.to_numeric`; they are tracked through the
  `NumParse.fracVal` tag, whose only pipeline-visible effect is the
  `astype("Int64")` failure on non-integral values.
- A raw record is an association list (python dict, first binding wins).
- A `DataFrame` is a column-name list plus row lists aligned with it.
- `pd.to_datetime(..., errors="coerce")` is modelled for ISO-format
  inputs (`YYYY-MM-DD`, optionally followed by `HH:MM:SS`, `T` or space
  separated, optional trailing `Z`); any other scalar coerces to null,
  and dates outside the pandas `Timestamp` year range coerce to null,
  mirroring the out-of-bounds NaT coercion.
- `pd.to_numeric(..., errors="coerce")` is modelled for decimal
  literals; `astype("Int64")` raises on non-integral numeric values and
  this is modelled by `Except.error`.
- `DataFrame.to_csv` / `pd.read_csv` are modelled by `formatCell` and
  per-column type inference (`inferColumn`): a column whose non-missing
  entries are all decimal numeric literals becomes numeric (integral
  values are identified with integers, matching the identification of
  the float dtype pandas gives an integer column with missing entries;
  properly fractional values become `Value.float`), the default pandas
  NA tokens (`NA`, `None`, `null`, `nan`, ...) read back as missing,
  `True`/`False` columns without missing entries become boolean, and
  everything else stays a string column with empty fields missing.
- `Value.float num exp` represents the decimal number `num / 10 ^ exp`
  in the canonical form produced by `canonFloat` (no trailing zero
  fraction digits); exotic numeric spellings (scientific notation,
  `inf`) are not modelled and are excluded from the round-trip
  theorem's safe free strings, which reject any string whose characters
  all come from the numeric alphabet.
-/

/-- A calendar date, as `datetime.date`. -/
structure YMD where
  year : Nat
  month : Nat
  day : Nat
deriving DecidableEq

/-- A timestamp, as `pandas.Timestamp` truncated to seconds. -/
structure TS where
  date : YMD
  hour : Nat
  minute : Nat
  second : Nat
deriving DecidableEq

/-- A pandas cell value.  `float num exp` is the decimal `num / 10 ^ exp`
(the float dtype `read_csv` infers for fractional literals). -/
inductive Value where
  | null : Value
  | str : String → Value
  | int : Int → Value
  | bool : Bool → Value
  | date : YMD → Value
  | timestamp : TS → Value
  | float : Int → Nat → Value
deriving DecidableEq

/-- A raw record: a python dict from field name to scalar. -/
abbrev Record := List (String × Value)

/-- A pandas DataFrame: ordered columns and rows aligned with them. -/
structure DataFrame where
  columns : List String
  rows : List (List Value)
deriving DecidableEq

/-- Leap year test of the Gregorian calendar. -/
def isLeap (y : Nat) : Bool :=
  (y % 4 == 0 && y % 100 != 0) || (y % 400 == 0)

def daysInMonth (y m : Nat) : Nat :=
  if m = 2 then (if isLeap y then 29 else 28)
  else if m = 4 ∨ m = 6 ∨ m = 9 ∨ m = 11 then 30
  else 31

/-- Dates representable as pandas nanosecond timestamps (year range
slightly narrowed to whole years). -/
def validYMD (d : YMD) : Bool :=
  decide (1678 ≤ d.year) && decide (d.year ≤ 2261) &&
  decide (1 ≤ d.month) && decide (d.month ≤ 12) &&
  decide (1 ≤ d.day) && decide (d.day ≤ daysInMonth d.year d.month)

def validTS (t : TS) : Bool :=
  validYMD t.date && decide (t.hour < 24) && decide (t.minute < 60) && decide (t.second < 60)

/-- Strict `<` on `datetime.date`. -/
def ymdLtB (a b : YMD) : Bool :=
  decide (a.year < b.year) ||
  (a.year == b.year &&
    (decide (a.month < b.month) ||
     (a.month == b.month && decide (a.day < b.day))))

/-- Decimal digit to character. -/
def toDigitChar (n : Nat) : Char :=
  match n with
  | 0 => '0' | 1 => '1' | 2 => '2' | 3 => '3' | 4 => '4'
  | 5 => '5' | 6 => '6' | 7 => '7' | 8 => '8' | _ => '9'

def digitVal (c : Char) : Nat := c.toNat - 48

/-- Big-endian decimal digits of `n`, with explicit fuel (the fuel is
always instantiated with `n` itself, which bounds the digit count). -/
def natToCharsAux : Nat → Nat → List Char
  | 0, _ => []
  | _, 0 => []
  | fuel+1, n+1 => natToCharsAux fuel ((n+1)/10) ++ [toDigitChar ((n+1)%10)]

/-- Decimal rendering of a natural number. -/
def natChars (n : Nat) : List Char := if n = 0 then ['0'] else natToCharsAux n n

/-- Parse a digit string (no sign) as a natural number. -/
def parseNatChars (l : List Char) : Nat :=
  l.foldl (fun a c => a * 10 + digitVal c) 0

/-- Decimal rendering of an integer. -/
def intChars (n : Int) : List Char :=
  if n < 0 then '-' :: natChars n.natAbs else natChars n.natAbs

/-- Decimal rendering of `num / 10 ^ exp` with exactly `exp` digits
after the point (how `to_csv` writes a float cell). -/
def floatChars (num : Int) (exp : Nat) : List Char :=
  if exp = 0 then intChars num
  else
    let ds := natChars num.natAbs
    let pad := if ds.length < exp + 1 then List.replicate (exp + 1 - ds.length) '0' ++ ds else ds
    let ip := pad.take (pad.length - exp)
    let fp := pad.drop (pad.length - exp)
    (if num < 0 then '-' :: ip else ip) ++ '.' :: fp

def isIntChars (l : List Char) : Bool :=
  match l with
  | [] => false
  | c :: t => if c = '-' then !t.isEmpty && t.all Char.isDigit else (c :: t).all Char.isDigit

def parseIntChars (l : List Char) : Int :=
  match l with
  | [] => 0
  | c :: t => if c = '-' then - (parseNatChars t : Int) else (parseNatChars (c :: t) : Int)

/-- Result of `pd.to_numeric` on a string: an integral value, or a
numeric value with a non-zero fractional part (tracked without its
fraction, which the pipeline never observes). -/
inductive NumParse where
  | intVal : Int → NumParse
  | fracVal : Int → NumParse
deriving DecidableEq

/-- Split a character list on a separator; always returns at least one
(possibly empty) component. -/
def splitOnChar (sep : Char) : List Char → List (List Char)
  | [] => [[]]
  | c :: t =>
    let r := splitOnChar sep t
    if c = sep then [] :: r else (c :: r.headD []) :: r.tail

/-- `pd.to_numeric(·, errors="coerce")` on a string: decimal integer or
decimal fraction literals, optional leading minus. -/
def parseNumericChars (l : List Char) : Option NumParse :=
  let core : List Char → Option NumParse := fun m =>
    match splitOnChar '.' m with
    | [ip] =>
      if !ip.isEmpty && ip.all Char.isDigit then some (.intVal (parseNatChars ip)) else none
    | [ip, fp] =>
      if !ip.isEmpty && ip.all Char.isDigit && fp.all Char.isDigit then
        (if fp.all (fun c => c = '0') then some (.intVal (parseNatChars ip))
         else some (.fracVal (parseNatChars ip)))
      else none
    | _ => none
  match l with
  | '-' :: t =>
    (core t).map (fun r =>
      match r with
      | .intVal n => .intVal (-n)
      | .fracVal n => .fracVal (-n))
  | _ => core l

/-- Parse `YYYY-MM-DD` (digit groups separated by dashes) with calendar
validation, as `pd.to_datetime` does for ISO dates. -/
def parseDateChars (l : List Char) : Option YMD :=
  match splitOnChar '-' l with
  | [yc, mc, dc] =>
    if !yc.isEmpty && yc.all Char.isDigit && !mc.isEmpty && mc.all Char.isDigit &&
       !dc.isEmpty && dc.all Char.isDigit then
      (if validYMD ⟨parseNatChars yc, parseNatChars mc, parseNatChars dc⟩ then
        some ⟨parseNatChars yc, parseNatChars mc, parseNatChars dc⟩
      else none)
    else none
  | _ => none

/-- Parse `HH:MM:SS`. -/
def parseTimeChars (l : List Char) : Option (Nat × Nat × Nat) :=
  match splitOnChar ':' l with
  | [hc, mc, sc] =>
    if !hc.isEmpty && hc.all Char.isDigit && !mc.isEmpty && mc.all Char.isDigit &&
       !sc.isEmpty && sc.all Char.isDigit then
      (if parseNatChars hc < 24 && parseNatChars mc < 60 && parseNatChars sc < 60 then
        some (parseNatChars hc, parseNatChars mc, parseNatChars sc)
      else none)
    else none
  | _ => none

/-- Drop one trailing `Z` (UTC marker) if present. -/
def stripZ (l : List Char) : List Char :=
  if l.getLast? = some 'Z' then l.dropLast else l

/-- Combine a date component and a time component. -/
def parseDateTimePair (dc tc : List Char) : Option TS :=
  match parseDateChars dc, parseTimeChars tc with
  | some d, some (h, m, s) => some ⟨d, h, m, s⟩
  | _, _ => none

/-- Parse an ISO-like timestamp: a date, optionally followed by a time
separated by a space or `T`, optional trailing `Z`. -/
def parseTSChars (l0 : List Char) : Option TS :=
  match splitOnChar ' ' (stripZ l0) with
  | [dc] =>
    (match splitOnChar 'T' dc with
     | [d1] => (parseDateChars d1).map (fun d => ⟨d, 0, 0, 0⟩)
     | [d1, tc] => parseDateTimePair d1 tc
     | _ => none)
  | [dc, tc] => parseDateTimePair dc tc
  | _ => none

/-- One cell of `pd.to_datetime(col, errors="coerce")`. -/
def toDatetimeCell : Value → Value
  | .null => .null
  | .str s =>
    (match parseTSChars s.data with
     | some t => .timestamp t
     | none => .null)
  | .date d => if validYMD d then .timestamp ⟨d, 0, 0, 0⟩ else .null
  | .timestamp t => if validTS t then .timestamp t else .null
  | .int _ => .null
  | .bool _ => .null
  | .float _ _ => .null

/-- One cell of `pd.to_datetime(col, errors="coerce").dt.date`. -/
def toDateCell (v : Value) : Value :=
  match toDatetimeCell v with
  | .timestamp t => .date t.date
  | _ => .null

/-- Whether `astype("Int64")` succeeds on the `pd.to_numeric` result of
this cell (it raises on numeric values with a fractional part). -/
def intCoercible : Value → Bool
  | .str s =>
    (match parseNumericChars s.data with
     | some (.fracVal _) => false
     | _ => true)
  | .float num exp => num % ((10 : Int) ^ exp) == 0
  | _ => true

/-- One cell of `pd.to_numeric(col, errors="coerce").astype("Int64")`,
totalized (the fractional case, which raises, is checked separately). -/
def toIntCellD : Value → Value
  | .null => .null
  | .int n => .int n
  | .bool b => .int (if b then 1 else 0)
  | .str s =>
    (match parseNumericChars s.data with
     | some (.intVal n) => .int n
     | some (.fracVal _) => .null
     | none => .null)
  | .float num exp =>
    if num % ((10 : Int) ^ exp) = 0 then .int (num / (10 : Int) ^ exp) else .null
  | .date _ => .null
  | .timestamp _ => .null

/-- One cell of the bare `pd.to_numeric(·, errors="coerce")` used in the
`is_late` computation. -/
def toNumOpt : Value → Option Int
  | .int n => some n
  | .bool b => some (if b then 1 else 0)
  | .str s =>
    (match parseNumericChars s.data with
     | some (.intVal n) => some n
     | some (.fracVal n) => some n
     | none => none)
  | .float num exp => some (Int.fdiv num ((10 : Int) ^ exp))
  | _ => none

/-- Python dict lookup (first binding wins), missing key reads as null. -/
def lookupKey : Record → String → Value
  | [], _ => .null
  | (k, v) :: t, c => if k = c then v else lookupKey t c

/-- Keys of `r` not yet in `acc`, appended in order of appearance. -/
def addKeys (acc : List String) (r : Record) : List String :=
  r.foldl (fun a kv => if kv.1 ∈ a then a else a ++ [kv.1]) acc

/-- Union of keys over all records in order of first appearance: the
column set `pd.DataFrame.from_records` produces. -/
def unionKeys (records : List Record) : List String :=
  records.foldl addKeys []

/-- `pd.DataFrame.from_records`. -/
def fromRecords (records : List Record) : DataFrame :=
  ⟨unionKeys records, records.map (fun r => (unionKeys records).map (fun c => lookupKey r c))⟩

/-- `df.empty`: true when either axis has length zero. -/
def dfEmpty (df : DataFrame) : Bool := df.rows.isEmpty || df.columns.isEmpty

/-- Read the cell of a row at a named column. -/
def getCell : List String → List Value → String → Value
  | [], _, _ => .null
  | _ :: _, [], _ => .null
  | c0 :: cs, v :: vs, c => if c0 = c then v else getCell cs vs c

/-- Apply `f` to the cells of the named column within one row. -/
def mapCellRow : List String → List Value → String → (Value → Value) → List Value
  | [], row, _, _ => row
  | _ :: _, [], _, _ => []
  | c0 :: cs, v :: vs, c, f => (if c0 = c then f v else v) :: mapCellRow cs vs c f

/-- `df[col] = f(df[col])`; no-op when the column is absent, mirroring
the `if col in df.columns` guards of the source. -/
def mapCol (df : DataFrame) (c : String) (f : Value → Value) : DataFrame :=
  ⟨df.columns, df.rows.map (fun r => mapCellRow df.columns r c f)⟩

/-- `_coerce_dates` / `_coerce_datetimes`: apply a cell coercion to each
listed column that is present. -/
def coerceCols (df : DataFrame) (f : Value → Value) (cols : List String) : DataFrame :=
  cols.foldl (fun d c => mapCol d c f) df

/-- All cells of the listed columns survive `astype("Int64")`. -/
def allCellsCoercible (df : DataFrame) (cols : List String) : Bool :=
  cols.all (fun c => df.rows.all (fun row => intCoercible (getCell df.columns row c)))

/-- `_coerce_int`: `pd.to_numeric(col, errors="coerce").astype("Int64")`
per listed column; raises when some numeric value is non-integral. -/
def coerceIntCols (df : DataFrame) (cols : List String) : Except String DataFrame :=
  if allCellsCoercible df cols then
    .ok (cols.foldl (fun d c => mapCol d c toIntCellD) df)
  else
    .error "TypeError: cannot safely cast non-equivalent float64 to int64"

/-- `df[c] = g(row)` per row: overwrite the column if present, else
append it. -/
def setColFrom (df : DataFrame) (c : String) (g : List Value → Value) : DataFrame :=
  if c ∈ df.columns then
    ⟨df.columns, df.rows.map (fun r => mapCellRow df.columns r c (fun _ => g r))⟩
  else
    ⟨df.columns ++ [c], df.rows.map (fun r => r ++ [g r])⟩

/-- Per-row `is_late` flag: `due.notna() & (due < today) & (done.fillna(0) < 100)`
computed from the current (already coerced) columns, re-parsing
`due_date` as the source's line does. -/
def lateRowFlag (cols : List String) (t : YMD) (row : List Value) : Bool :=
  match toDateCell (getCell cols row "due_date") with
  | .date d =>
    ymdLtB d t &&
      (match toNumOpt (getCell cols row "done_ratio") with
       | some n => decide (n < 100)
       | none => true)
  | _ => false

/-- The `is_late` block of `normalize_records`: when `due_date` is a
column, compute the flag; reading `done_ratio` through
`df.get("done_ratio", 0)` yields a scalar when the column is missing and
the subsequent `.fillna` call raises `AttributeError`. -/
def setIsLate (df : DataFrame) (t : YMD) : Except String DataFrame :=
  if "due_date" ∈ df.columns then
    if "done_ratio" ∈ df.columns then
      .ok (setColFrom df "is_late" (fun row => .bool (lateRowFlag df.columns t row)))
    else
      .error "AttributeError: int object has no attribute fillna"
  else
    .ok df

/-- Add the column filled with nulls when missing (`_ensure_columns` loop body). -/
def addColIfMissing (df : DataFrame) (c : String) : DataFrame :=
  if c ∈ df.columns then df
  else ⟨df.columns ++ [c], df.rows.map (fun r => r ++ [Value.null])⟩

/-- `df[columns]`: restrict and reorder to the given column list. -/
def selectCols (df : DataFrame) (cols : List String) : DataFrame :=
  ⟨cols, df.rows.map (fun r => cols.map (fun c => getCell df.columns r c))⟩

/-- `_ensure_columns`: add missing columns as all-null, then restrict
and reorder to exactly `cols`. -/
def ensureColumns (df : DataFrame) (cols : List String) : DataFrame :=
  selectCols (cols.foldl addColIfMissing df) cols

/-- The `projects` schema columns (schema.py). -/
def projectsColumns : List String :=
  ["project_id", "project_name", "project_status", "project_href", "updated_at"]

/-- The `work_packages` schema columns (schema.py). -/
def workPackagesColumns : List String :=
  ["wp_id", "wp_subject", "wp_type", "wp_status", "wp_priority",
   "project_id", "project_name", "assignee", "author",
   "start_date", "due_date", "done_ratio", "created_at", "updated_at", "is_late"]

/-- The schema registry `SCHEMAS` of schema.py. -/
def SCHEMAS : List (String × List String) :=
  [("projects", projectsColumns), ("work_packages", workPackagesColumns)]

/-- The per-schema transformations of `normalize_records` (lines 69-86):
datetime coercion for `projects`; date, datetime, integer coercion and
the `is_late` computation for `work_packages`. -/
def coreTransforms (df : DataFrame) (schemaName : Option String) (today : YMD) :
    Except String DataFrame :=
  let df1 := if schemaName = some "projects" then coerceCols df toDatetimeCell ["updated_at"] else df
  if schemaName = some "work_packages" then
    let df2 := coerceCols df1 toDateCell ["start_date", "due_date"]
    let df3 := coerceCols df2 toDatetimeCell ["created_at", "updated_at"]
    (coerceIntCols df3 ["wp_id", "project_id", "done_ratio"]).bind (fun df4 => setIsLate df4 today)
  else
    .ok df1

/-- `normalize_records(records, schema_name)`, with the process-local
"today" taken as an explicit parameter.  Exceptions escaping the pandas
calls are modelled as `Except.error`. -/
def normalize_records (records : List Record) (schemaName : Option String) (today : YMD) :
    Except String DataFrame :=
  let df := fromRecords records
  match schemaName with
  | some s =>
    match SCHEMAS.lookup s with
    | some cols =>
      if dfEmpty df then .ok ⟨cols, []⟩
      else (coreTransforms df (some s) today).map (fun d => ensureColumns d cols)
    | none => coreTransforms df (some s) today
  | none => coreTransforms df none today

deriving instance DecidableEq for Except

/-- Render one cell the way `df.to_csv` does: nulls as empty fields,
booleans as literal tokens, dates as `YYYY-MM-DD`, timestamps as
`YYYY-MM-DD HH:MM:SS`. -/
def pad2 (n : Nat) : List Char := if n < 10 then '0' :: natChars n else natChars n

def dateChars (d : YMD) : List Char :=
  natChars d.year ++ ('-' :: (pad2 d.month ++ ('-' :: pad2 d.day)))

def tsChars (t : TS) : List Char :=
  dateChars t.date ++ (' ' :: (pad2 t.hour ++ (':' :: (pad2 t.minute ++ (':' :: pad2 t.second)))))

def formatCell : Value → String
  | .null => ""
  | .str s => s
  | .int n => String.mk (intChars n)
  | .bool b => if b then "True" else "False"
  | .date d => String.mk (dateChars d)
  | .timestamp t => String.mk (tsChars t)
  | .float num exp => String.mk (floatChars num exp)

def isIntStr (s : String) : Bool := isIntChars s.data

/-- The default `pd.read_csv` NA tokens (its `na_values` default). -/
def naTokens : List String :=
  ["#N/A", "#N/A N/A", "#NA", "-1.#IND", "-1.#QNAN", "-NaN", "-nan",
   "1.#IND", "1.#QNAN", "<NA>", "N/A", "NA", "NULL", "NaN", "None",
   "n/a", "nan", "null"]

/-- A CSV field `read_csv` treats as missing: the empty field or one of
the default NA tokens. -/
def isMissingStr (s : String) : Bool := s == "" || naTokens.contains s

/-- Exact decimal parse of an unsigned numeric literal `digits[.digits]`:
the scaled mantissa and the number of fraction digits. -/
def parseDecCore (m : List Char) : Option (Nat × Nat) :=
  match splitOnChar '.' m with
  | [ip] => if !ip.isEmpty && ip.all Char.isDigit then some (parseNatChars ip, 0) else none
  | [ip, fp] =>
    if !ip.isEmpty && ip.all Char.isDigit && fp.all Char.isDigit then
      some (parseNatChars ip * 10 ^ fp.length + parseNatChars fp, fp.length)
    else none
  | _ => none

/-- Exact decimal parse of a numeric literal with optional leading
minus, as `read_csv` recognizes a numeric field. -/
def parseDecChars (l : List Char) : Option (Int × Nat) :=
  match l with
  | [] => none
  | c :: t =>
    if c = '-' then (parseDecCore t).map (fun p => (-(p.1 : Int), p.2))
    else (parseDecCore (c :: t)).map (fun p => ((p.1 : Int), p.2))

/-- Canonical numeric cell for `num / 10 ^ exp`: trailing zero fraction
digits are dropped and integral values are identified with integers. -/
def canonFloat : Int → Nat → Value
  | num, 0 => Value.int num
  | num, e + 1 => if num % 10 = 0 then canonFloat (num / 10) e else Value.float num (e + 1)

/-- `pd.read_csv` column type inference, modelled per column: a column
whose non-missing entries are all decimal numeric literals becomes
numeric (integral values identified with integers, fractional values
kept as floats — the float dtype pandas uses when an integer column has
missing entries is identified with its integral values); a column of
`True`/`False` tokens with no missing entry becomes boolean; anything
else stays a string column whose missing fields are null. -/
def inferColumn (cells : List String) : List Value :=
  if cells.all isMissingStr then
    cells.map (fun _ => Value.null)
  else if (cells.filter (fun s => !isMissingStr s)).all
      (fun s => (parseDecChars s.data).isSome) then
    cells.map (fun s =>
      if isMissingStr s then Value.null
      else
        match parseDecChars s.data with
        | some p => canonFloat p.1 p.2
        | none => Value.null)
  else if cells.all (fun s => s == "True" || s == "False") then
    cells.map (fun s => Value.bool (s == "True"))
  else
    cells.map (fun s => if isMissingStr s then Value.null else Value.str s)

/-- `df.to_csv`: header plus one formatted string row per data row. -/
def writeCSVRows (df : DataFrame) : List (List String) :=
  df.rows.map (fun r => r.map formatCell)

/-- `pd.read_csv(path).to_dict("records")`: infer each column's type,
then rebuild one record per row carrying every header key. -/
def readCSVRecords (header : List String) (rows : List (List String)) : List Record :=
  let cols := (List.range header.length).map (fun j => inferColumn (rows.map (fun r => r.getD j "")))
  (List.range rows.length).map (fun i =>
    (List.range header.length).map (fun j =>
      (header.getD j "", (cols.getD j []).getD i Value.null)))

/-- Export a normalized dataset to CSV and re-ingest it through
`normalize_records` with the same schema name on the same day
(`export_to_csv` followed by `_load_from_csv_folder`). -/
def roundTripNormalize (df : DataFrame) (schemaName : Option String) (today : YMD) :
    Except String DataFrame :=
  normalize_records (readCSVRecords df.columns (writeCSVRows df)) schemaName today

/-- The dashboard's immutable pair of normalized datasets. -/
structure DataBundle where
  projects : DataFrame
  work_packages : DataFrame
deriving DecidableEq

/-- `series.isin(allowed)` for the string-valued filter widgets: only a
string cell equal to a member matches; nulls never match. -/
def valueInStrSet (v : Value) (allowed : List String) : Bool :=
  match v with
  | .str s => allowed.contains s
  | _ => false

/-- `wps[wps[col].isin(allowed)]`. -/
def filterDF (df : DataFrame) (c : String) (allowed : List String) : DataFrame :=
  ⟨df.columns, df.rows.filter (fun r => valueInStrSet (getCell df.columns r c) allowed)⟩

/-- `_apply_filters` of the dashboard: each non-empty filter restricts
`work_packages` when its column exists; `projects` passes through. -/
def applyFilters (b : DataBundle) (projectF statusF priorityF : List String) : DataBundle :=
  let wps := b.work_packages
  let wps := if projectF ≠ [] ∧ "project_name" ∈ wps.columns then filterDF wps "project_name" projectF else wps
  let wps := if statusF ≠ [] ∧ "wp_status" ∈ wps.columns then filterDF wps "wp_status" statusF else wps
  let wps := if priorityF ≠ [] ∧ "wp_priority" ∈ wps.columns then filterDF wps "wp_priority" priorityF else wps
  ⟨b.projects, wps⟩

/-- `export_to_csv`: normalize, then write through the file sink (the
sink abstracts directory creation and `df.to_csv`, returning the
written path or an I/O failure). -/
def export_to_csv (write : String → DataFrame → Except String String)
    (records : List Record) (filename : String) (schemaName : Option String) (today : YMD) :
    Except String String :=
  (normalize_records records schemaName today).bind (fun df => write filename df)

/-- `export_many_to_csv`: iterate the datasets mapping in order,
accumulating `results[schema_name] = export_to_csv(...)`; an exception
propagates immediately, discarding the accumulated results. -/
def export_many_to_csv (write : String → DataFrame → Except String String)
    (datasets : List (String × List Record × String)) (today : YMD) :
    Except String (List (String × String)) :=
  datasets.foldlM
    (fun results entry =>
      (export_to_csv write entry.2.1 entry.2.2 (some entry.1) today).map
        (fun p => results ++ [(entry.1, p)]))
    []

/-- A character that appears in no numeric literal `read_csv` would
parse (outside digits, sign, point, exponent marker and space). -/
def plainChar (c : Char) : Bool :=
  !(c.isDigit || c = '.' || c = '-' || c = '+' || c = 'e' || c = 'E' || c = ' ')

/-- A free-text cell value the CSV round trip reads back verbatim: a
non-empty string containing at least one plainly non-numeric character,
and neither a boolean token nor an NA token, so `read_csv` leaves its
column as strings and the field as present. -/
def safeFreeString (s : String) : Bool :=
  !(s == "") && s.data.any plainChar && !(s == "True") && !(s == "False")
    && !(naTokens.contains s)

/-- A cell of a free-text column that the CSV round trip preserves:
null, or a safe free string. -/
def safeFreeCell : Value → Bool
  | .null => true
  | .str s => safeFreeString s
  | _ => false

/-- How one normalized cell comes back from its CSV text before the
re-normalization coerces it again: dates and timestamps return as their
rendered strings, every other cell survives `read_csv` unchanged. -/
def csvReadCell : Value → Value
  | .date d => .str (String.mk (dateChars d))
  | .timestamp ts => .str (String.mk (tsChars ts))
  | v => v

/-- The schema columns to which `normalize_records` applies no type
coercion (free-text columns). -/
def freeColumnsOf : String → List String
  | "projects" => ["project_id", "project_name", "project_status", "project_href"]
  | "work_packages" =>
    ["wp_subject", "wp_type", "wp_status", "wp_priority", "project_name", "assignee", "author"]
  | _ => []

/-! ## Generic lemmas about rows built as maps over the column list -/

theorem getCell_map (cols : List String) (g : String → Value) (c : String) :
    getCell cols (cols.map g) c = if c ∈ cols then g c else .null := by
  induction cols with
  | nil => simp [getCell]
  | cons c0 cs ih =>
    simp only [List.map_cons, getCell]
    by_cases h : c0 = c
    · subst h; simp
    · have hmem : (c ∈ c0 :: cs) ↔ c ∈ cs := by
        constructor
        · intro hm
          rcases List.mem_cons.mp hm with h1 | h1
          · exact absurd h1.symm h
          · exact h1
        · exact List.mem_cons_of_mem _
      rw [if_neg h, ih]
      by_cases hc : c ∈ cs
      · rw [if_pos hc, if_pos (hmem.mpr hc)]
      · rw [if_neg hc, if_neg (fun hx => hc (hmem.mp hx))]

theorem mapCellRow_map (cols : List String) (g : String → Value) (c : String) (f : Value → Value) :
    mapCellRow cols (cols.map g) c f
      = cols.map (fun c' => if c' = c then f (g c') else g c') := by
  induction cols with
  | nil => rfl
  | cons c0 cs ih => simp only [List.map_cons, mapCellRow, ih]

theorem mem_addKeys_of_mem (acc : List String) (r : Record) (k : String) (h : k ∈ acc) :
    k ∈ addKeys acc r := by
  induction r generalizing acc with
  | nil => exact h
  | cons kv t ih =>
    simp only [addKeys, List.foldl_cons] at *
    apply ih
    by_cases hm : kv.1 ∈ acc
    · simpa [hm] using h
    · simp [hm, List.mem_append, h]

theorem mem_addKeys_of_key (acc : List String) (r : Record) (k : String) (v : Value)
    (h : (k, v) ∈ r) : k ∈ addKeys acc r := by
  induction r generalizing acc with
  | nil => cases h
  | cons kv t ih =>
    simp only [addKeys, List.foldl_cons]
    rcases List.mem_cons.mp h with h1 | h2
    · have hk : kv.1 = k := by rw [← h1]
      subst hk
      apply mem_addKeys_of_mem
      by_cases hm : kv.1 ∈ acc
      · simp [hm]
      · simp [hm]
    · exact ih _ h2

theorem mem_foldl_addKeys_of_mem (records : List Record) (acc : List String) (k : String)
    (h : k ∈ acc) : k ∈ records.foldl addKeys acc := by
  induction records generalizing acc with
  | nil => exact h
  | cons r t ih => exact ih _ (mem_addKeys_of_mem _ _ _ h)

theorem mem_foldl_addKeys_of_key (records : List Record) (acc : List String) (r : Record)
    (k : String) (v : Value) (hr : r ∈ records) (hk : (k, v) ∈ r) :
    k ∈ records.foldl addKeys acc := by
  induction records generalizing acc with
  | nil => cases hr
  | cons r0 t ih =>
    simp only [List.foldl_cons]
    rcases List.mem_cons.mp hr with h1 | h2
    · subst h1
      exact mem_foldl_addKeys_of_mem _ _ _ (mem_addKeys_of_key _ _ _ _ hk)
    · exact ih _ h2

theorem mem_unionKeys_of_key (records : List Record) (r : Record) (k : String) (v : Value)
    (hr : r ∈ records) (hk : (k, v) ∈ r) : k ∈ unionKeys records :=
  mem_foldl_addKeys_of_key records [] r k v hr hk

theorem lookupKey_eq_null_of_keys (r : Record) (c : String)
    (h : ∀ k v, (k, v) ∈ r → k ≠ c) : lookupKey r c = .null := by
  induction r with
  | nil => rfl
  | cons kv t ih =>
    simp only [lookupKey]
    rw [if_neg (h kv.1 kv.2 (by simp))]
    exact ih (fun k v hkv => h k v (List.mem_cons_of_mem _ hkv))

theorem lookupKey_eq_null_of_not_mem_unionKeys (records : List Record) (r : Record) (c : String)
    (hr : r ∈ records) (hc : c ∉ unionKeys records) : lookupKey r c = .null := by
  apply lookupKey_eq_null_of_keys
  intro k v hkv hk
  exact hc (hk ▸ mem_unionKeys_of_key records r k v hr hkv)

/-! ## Stage lemmas on data frames in canonical form

Every data frame arising in the pipeline has rows of the shape
`recs.map (fun r => C.map (g r))` for its column list `C`; each stage
lemma rewrites one pipeline operation on such a frame. -/

theorem mapCol_canonical (K : List String) (recs : List Record) (g : Record → String → Value)
    (c : String) (f : Value → Value) :
    mapCol ⟨K, recs.map (fun r => K.map (g r))⟩ c f
      = ⟨K, recs.map (fun r => K.map (fun c' => if c' = c then f (g r c') else g r c'))⟩ := by
  unfold mapCol
  congr 1
  rw [List.map_map]
  apply List.map_congr_left
  intro r _
  exact mapCellRow_map K (g r) c f

theorem setColFrom_canonical_mem (K : List String) (recs : List Record)
    (g : Record → String → Value) (c : String) (gr : List Value → Value) (hc : c ∈ K) :
    setColFrom ⟨K, recs.map (fun r => K.map (g r))⟩ c gr
      = ⟨K, recs.map (fun r =>
          K.map (fun c' => if c' = c then gr (K.map (g r)) else g r c'))⟩ := by
  unfold setColFrom
  rw [if_pos hc]
  congr 1
  rw [List.map_map]
  apply List.map_congr_left
  intro r _
  exact mapCellRow_map K (g r) c (fun _ => gr (K.map (g r)))

theorem setColFrom_canonical_not_mem (K : List String) (recs : List Record)
    (g : Record → String → Value) (c : String) (gr : List Value → Value) (hc : c ∉ K) :
    setColFrom ⟨K, recs.map (fun r => K.map (g r))⟩ c gr
      = ⟨K ++ [c], recs.map (fun r => K.map (g r) ++ [gr (K.map (g r))])⟩ := by
  unfold setColFrom
  rw [if_neg hc]
  congr 1
  rw [List.map_map]
  rfl

theorem listAll_map {A B : Type} (l : List A) (f : A → B) (p : B → Bool) :
    (l.map f).all p = l.all (fun a => p (f a)) := by
  induction l with
  | nil => rfl
  | cons a t ih => simp only [List.map_cons, List.all_cons, ih]

theorem allCellsCoercible_canonical (K : List String) (recs : List Record)
    (g : Record → String → Value) (cols : List String) :
    allCellsCoercible ⟨K, recs.map (fun r => K.map (g r))⟩ cols
      = cols.all (fun c => recs.all (fun r =>
          intCoercible (if c ∈ K then g r c else Value.null))) := by
  simp only [allCellsCoercible, listAll_map, getCell_map]

theorem addAll_canonical (toAdd : List String) (C : List String) (recs : List Record)
    (g : Record → String → Value)
    (hg : ∀ r ∈ recs, ∀ c, c ∉ C → g r c = Value.null) :
    ∃ C', C ⊆ C' ∧ (∀ r ∈ recs, ∀ c, c ∉ C' → g r c = Value.null) ∧
      toAdd.foldl addColIfMissing ⟨C, recs.map (fun r => C.map (g r))⟩
        = ⟨C', recs.map (fun r => C'.map (g r))⟩ := by
  induction toAdd generalizing C with
  | nil => exact ⟨C, fun x hx => hx, hg, rfl⟩
  | cons a rest ih =>
    simp only [List.foldl_cons]
    by_cases ha : a ∈ C
    · rw [show addColIfMissing ⟨C, recs.map (fun r => C.map (g r))⟩ a
            = ⟨C, recs.map (fun r => C.map (g r))⟩ from by unfold addColIfMissing; rw [if_pos ha]]
      exact ih C hg
    · have hstep : addColIfMissing ⟨C, recs.map (fun r => C.map (g r))⟩ a
          = ⟨C ++ [a], recs.map (fun r => (C ++ [a]).map (g r))⟩ := by
        unfold addColIfMissing
        rw [if_neg ha]
        congr 1
        rw [List.map_map]
        apply List.map_congr_left
        intro r hr
        simp only [Function.comp, List.map_append, List.map_cons, List.map_nil]
        rw [hg r hr a ha]
      rw [hstep]
      have hg' : ∀ r ∈ recs, ∀ c, c ∉ C ++ [a] → g r c = Value.null := by
        intro r hr c hc
        exact hg r hr c (fun hcc => hc (List.mem_append_left _ hcc))
      obtain ⟨C', hsub, hg'', heq⟩ := ih (C ++ [a]) hg'
      exact ⟨C', List.Subset.trans (List.subset_append_left _ _) hsub, hg'', heq⟩

theorem ensureColumns_canonical (C cols : List String) (recs : List Record)
    (g : Record → String → Value)
    (hg : ∀ r ∈ recs, ∀ c, c ∉ C → g r c = Value.null) :
    ensureColumns ⟨C, recs.map (fun r => C.map (g r))⟩ cols
      = ⟨cols, recs.map (fun r =>
          cols.map (fun c => if c ∈ C then g r c else Value.null))⟩ := by
  obtain ⟨C', hsub, hg', heq⟩ := addAll_canonical cols C recs g hg
  unfold ensureColumns
  rw [heq]
  unfold selectCols
  congr 1
  rw [List.map_map]
  apply List.map_congr_left
  intro r hr
  simp only [Function.comp]
  apply List.map_congr_left
  intro c _
  rw [getCell_map]
  by_cases hcC : c ∈ C
  · rw [if_pos (hsub hcC), if_pos hcC]
  · rw [if_neg hcC]
    by_cases hcC' : c ∈ C'
    · rw [if_pos hcC', hg r hr c hcC]
    · rw [if_neg hcC']

/-! ## Validity of parsed dates and idempotence of the date coercion -/

theorem parseDateChars_valid (l : List Char) (d : YMD) (h : parseDateChars l = some d) :
    validYMD d = true := by
  unfold parseDateChars at h
  split at h
  · split at h
    · split at h
      · cases h
        assumption
      · cases h
    · cases h
  · cases h

theorem parseTimeChars_valid (l : List Char) (h m s : Nat)
    (hp : parseTimeChars l = some (h, m, s)) : h < 24 ∧ m < 60 ∧ s < 60 := by
  unfold parseTimeChars at hp
  split at hp
  · split at hp
    · split at hp
      · cases hp
        next hcond =>
          simp only [Bool.and_eq_true, decide_eq_true_eq] at hcond
          exact ⟨hcond.1.1, hcond.1.2, hcond.2⟩
      · cases hp
    · cases hp
  · cases hp

theorem parseDateTimePair_valid (dc tc : List Char) (t : TS)
    (h : parseDateTimePair dc tc = some t) : validTS t = true := by
  unfold parseDateTimePair at h
  split at h
  · cases h
    next d hh mm ss hd ht =>
      have h1 := parseDateChars_valid dc d hd
      have h2 := parseTimeChars_valid tc hh mm ss ht
      unfold validTS
      simp [h1, h2.1, h2.2.1, h2.2.2]
  · cases h

theorem parseTSChars_valid (l : List Char) (t : TS) (h : parseTSChars l = some t) :
    validTS t = true := by
  unfold parseTSChars at h
  split at h
  · split at h
    · rcases Option.map_eq_some'.mp h with ⟨d, hd, ht⟩
      have h1 := parseDateChars_valid _ d hd
      rw [← ht]
      unfold validTS
      simp [h1]
    · exact parseDateTimePair_valid _ _ _ h
    · cases h
  · exact parseDateTimePair_valid _ _ _ h
  · cases h

theorem toDatetimeCell_timestamp_valid (v : Value) (t : TS)
    (h : toDatetimeCell v = .timestamp t) : validTS t = true := by
  cases v with
  | null => cases h
  | int n => cases h
  | bool b => cases h
  | float num exp => cases h
  | str s =>
    simp only [toDatetimeCell] at h
    cases hp : parseTSChars s.data with
    | some t' =>
      rw [hp] at h
      simp only [] at h
      cases h
      exact parseTSChars_valid _ _ hp
    | none =>
      rw [hp] at h
      simp only [] at h
      cases h
  | date d =>
    simp only [toDatetimeCell] at h
    by_cases hv : validYMD d = true
    · rw [if_pos hv] at h
      cases h
      unfold validTS
      simp [hv]
    · rw [if_neg hv] at h
      cases h
  | timestamp t' =>
    simp only [toDatetimeCell] at h
    by_cases hv : validTS t' = true
    · rw [if_pos hv] at h
      cases h
      exact hv
    · rw [if_neg hv] at h
      cases h

theorem toDateCell_shape (v : Value) :
    toDateCell v = .null ∨ ∃ d, toDateCell v = .date d ∧ validYMD d = true := by
  unfold toDateCell
  cases hv : toDatetimeCell v with
  | timestamp t =>
    right
    refine ⟨t.date, rfl, ?hval⟩
    have := toDatetimeCell_timestamp_valid v t hv
    unfold validTS at this
    simp only [Bool.and_eq_true] at this
    exact this.1.1.1
  | null => left; rfl
  | str s => left; rfl
  | int n => left; rfl
  | bool b => left; rfl
  | date d => left; rfl
  | float num exp => left; rfl

theorem toDateCell_date_valid (d : YMD) (h : validYMD d = true) :
    toDateCell (.date d) = .date d := by
  simp only [toDateCell, toDatetimeCell]
  rw [if_pos h]

theorem toDateCell_idem (v : Value) : toDateCell (toDateCell v) = toDateCell v := by
  rcases toDateCell_shape v with h | ⟨d, h, hval⟩
  · rw [h]; rfl
  · rw [h]; exact toDateCell_date_valid d hval

/-! ## The record-level cell functions of the normalization pipeline -/

/-- Cell after `_coerce_dates(df, ["start_date", ...])` step 1. -/
def g1w (r : Record) (c : String) : Value :=
  if c = "start_date" then toDateCell (lookupKey r c) else lookupKey r c

def g2w (r : Record) (c : String) : Value :=
  if c = "due_date" then toDateCell (g1w r c) else g1w r c

def g3w (r : Record) (c : String) : Value :=
  if c = "created_at" then toDatetimeCell (g2w r c) else g2w r c

def g4w (r : Record) (c : String) : Value :=
  if c = "updated_at" then toDatetimeCell (g3w r c) else g3w r c

def g5w (r : Record) (c : String) : Value :=
  if c = "wp_id" then toIntCellD (g4w r c) else g4w r c

def g6w (r : Record) (c : String) : Value :=
  if c = "project_id" then toIntCellD (g5w r c) else g5w r c

/-- Cell after all work_packages type coercions (lines 74-76). -/
def g7w (r : Record) (c : String) : Value :=
  if c = "done_ratio" then toIntCellD (g6w r c) else g6w r c

/-- `done.fillna(0) < 100` for one record. -/
def doneOpenFlag (r : Record) : Bool :=
  match toNumOpt (toIntCellD (lookupKey r "done_ratio")) with
  | some n => decide (n < 100)
  | none => true

/-- The `is_late` value of one record against a reference date. -/
def lateFlag (t : YMD) (r : Record) : Bool :=
  match toDateCell (lookupKey r "due_date") with
  | .date d => ymdLtB d t && doneOpenFlag r
  | _ => false

/-- Coerced cells plus the freshly assigned `is_late` column. -/
def g8w (t : YMD) (r : Record) (c : String) : Value :=
  if c = "is_late" then Value.bool (lateFlag t r) else g7w r c

/-- The cell of the final `work_packages` dataset at schema column `c`
for input record `r`, where `K` is the union of observed keys. -/
def wpCellFn (K : List String) (t : YMD) (r : Record) (c : String) : Value :=
  if c = "is_late" ∧ "due_date" ∈ K then Value.bool (lateFlag t r)
  else if c ∈ K then g7w r c else Value.null

/-- Cell after the `projects` datetime coercion. -/
def gp (r : Record) (c : String) : Value :=
  if c = "updated_at" then toDatetimeCell (lookupKey r c) else lookupKey r c

/-- The cell of the final `projects` dataset at schema column `c`. -/
def projCellFn (K : List String) (r : Record) (c : String) : Value :=
  if c ∈ K then gp r c else Value.null

theorem g1w_null (r : Record) (c : String) (h : lookupKey r c = .null) : g1w r c = .null := by
  unfold g1w; rw [h]; split <;> rfl

theorem g2w_null (r : Record) (c : String) (h : lookupKey r c = .null) : g2w r c = .null := by
  unfold g2w; rw [g1w_null r c h]; split <;> rfl

theorem g3w_null (r : Record) (c : String) (h : lookupKey r c = .null) : g3w r c = .null := by
  unfold g3w; rw [g2w_null r c h]; split <;> rfl

theorem g4w_null (r : Record) (c : String) (h : lookupKey r c = .null) : g4w r c = .null := by
  unfold g4w; rw [g3w_null r c h]; split <;> rfl

theorem g5w_null (r : Record) (c : String) (h : lookupKey r c = .null) : g5w r c = .null := by
  unfold g5w; rw [g4w_null r c h]; split <;> rfl

theorem g6w_null (r : Record) (c : String) (h : lookupKey r c = .null) : g6w r c = .null := by
  unfold g6w; rw [g5w_null r c h]; split <;> rfl

theorem g7w_null (r : Record) (c : String) (h : lookupKey r c = .null) : g7w r c = .null := by
  unfold g7w; rw [g6w_null r c h]; split <;> rfl

theorem gp_null (r : Record) (c : String) (h : lookupKey r c = .null) : gp r c = .null := by
  unfold gp; rw [h]; split <;> rfl

/-! ## Characterization of `normalize_records` -/

theorem schemas_lookup_proj : SCHEMAS.lookup "projects" = some projectsColumns := rfl

theorem schemas_lookup_wp : SCHEMAS.lookup "work_packages" = some workPackagesColumns := rfl

theorem schemas_lookup_none (s : String) (h1 : s ≠ "projects") (h2 : s ≠ "work_packages") :
    SCHEMAS.lookup s = none := by
  simp [SCHEMAS, List.lookup, beq_eq_false_iff_ne.mpr h1, beq_eq_false_iff_ne.mpr h2]

theorem records_ne_nil_of_unionKeys (records : List Record) (h : unionKeys records ≠ []) :
    records ≠ [] := fun hrec => h (by rw [hrec]; rfl)

theorem dfEmpty_fromRecords_false (records : List Record) (h : unionKeys records ≠ []) :
    dfEmpty (fromRecords records) = false := by
  have hr : records ≠ [] := records_ne_nil_of_unionKeys records h
  unfold dfEmpty fromRecords
  cases hrec : records with
  | nil => exact absurd hrec hr
  | cons a l =>
    rw [hrec] at h
    simp only [List.map_cons, List.isEmpty_cons, Bool.false_or]
    cases hK : unionKeys (a :: l) with
    | nil => exact absurd hK h
    | cons k ks => rfl

theorem g8w_ne (t : YMD) (r : Record) (c : String) (h : c ≠ "is_late") :
    g8w t r c = g7w r c := by
  unfold g8w
  rw [if_neg h]

theorem lateRowFlag_canonical (K : List String) (t : YMD)
    (hdue : "due_date" ∈ K) (hdone : "done_ratio" ∈ K) (r : Record) :
    lateRowFlag K t (K.map (g7w r)) = lateFlag t r := by
  unfold lateRowFlag lateFlag
  rw [getCell_map, getCell_map, if_pos hdue, if_pos hdone]
  rw [show g7w r "due_date" = toDateCell (lookupKey r "due_date") from rfl]
  rw [show g7w r "done_ratio" = toIntCellD (lookupKey r "done_ratio") from rfl]
  rw [toDateCell_idem]
  rfl

theorem except_map_ensure (cols : List String) (x : DataFrame) :
    Except.map (fun d => ensureColumns d cols) (Except.ok x : Except String DataFrame)
      = Except.ok (ensureColumns x cols) := rfl

set_option maxHeartbeats 1600000 in
theorem wp_normalize_ok (records : List Record) (t : YMD)
    (hne : unionKeys records ≠ [])
    (hco : ∀ r ∈ records, ∀ c ∈ (["wp_id", "project_id", "done_ratio"] : List String),
      intCoercible (lookupKey r c) = true)
    (hdd : "due_date" ∈ unionKeys records → "done_ratio" ∈ unionKeys records) :
    normalize_records records (some "work_packages") t
      = .ok ⟨workPackagesColumns,
          records.map (fun r => workPackagesColumns.map (wpCellFn (unionKeys records) t r))⟩ := by
  have h0 : normalize_records records (some "work_packages") t
      = (if dfEmpty (fromRecords records) then .ok ⟨workPackagesColumns, []⟩
         else (coreTransforms (fromRecords records) (some "work_packages") t).map
           (fun d => ensureColumns d workPackagesColumns)) := rfl
  rw [h0, dfEmpty_fromRecords_false records hne]
  simp only [Bool.false_eq_true, if_false]
  have h1 : coreTransforms (fromRecords records) (some "work_packages") t
      = (coerceIntCols
          (coerceCols
            (coerceCols (fromRecords records) toDateCell ["start_date", "due_date"])
            toDatetimeCell ["created_at", "updated_at"])
          ["wp_id", "project_id", "done_ratio"]).bind (fun df4 => setIsLate df4 t) := rfl
  rw [h1]
  have h2 : coerceCols (fromRecords records) toDateCell ["start_date", "due_date"]
      = ⟨unionKeys records, records.map (fun r => (unionKeys records).map (g2w r))⟩ := by
    show coerceCols ⟨unionKeys records,
        records.map (fun r => (unionKeys records).map (fun c => lookupKey r c))⟩ toDateCell _ = _
    simp only [coerceCols, List.foldl_cons, List.foldl_nil]
    rw [mapCol_canonical, mapCol_canonical]
    rfl
  rw [h2]
  have h3 : coerceCols ⟨unionKeys records, records.map (fun r => (unionKeys records).map (g2w r))⟩
        toDatetimeCell ["created_at", "updated_at"]
      = ⟨unionKeys records, records.map (fun r => (unionKeys records).map (g4w r))⟩ := by
    simp only [coerceCols, List.foldl_cons, List.foldl_nil]
    rw [mapCol_canonical, mapCol_canonical]
    rfl
  rw [h3]
  have hco' : allCellsCoercible
      ⟨unionKeys records, records.map (fun r => (unionKeys records).map (g4w r))⟩
      ["wp_id", "project_id", "done_ratio"] = true := by
    rw [allCellsCoercible_canonical, List.all_eq_true]
    intro c hc
    rw [List.all_eq_true]
    intro r hr
    by_cases hK : c ∈ unionKeys records
    · rw [if_pos hK]
      simp only [List.mem_cons, List.mem_singleton, List.not_mem_nil, or_false] at hc
      rcases hc with rfl | rfl | rfl
      · rw [show g4w r "wp_id" = lookupKey r "wp_id" from rfl]
        exact hco r hr "wp_id" (by simp)
      · rw [show g4w r "project_id" = lookupKey r "project_id" from rfl]
        exact hco r hr "project_id" (by simp)
      · rw [show g4w r "done_ratio" = lookupKey r "done_ratio" from rfl]
        exact hco r hr "done_ratio" (by simp)
    · rw [if_neg hK]
      rfl
  have h4 : coerceIntCols
        ⟨unionKeys records, records.map (fun r => (unionKeys records).map (g4w r))⟩
        ["wp_id", "project_id", "done_ratio"]
      = .ok ⟨unionKeys records, records.map (fun r => (unionKeys records).map (g7w r))⟩ := by
    unfold coerceIntCols
    rw [hco']
    simp only [if_true]
    congr 1
    simp only [List.foldl_cons, List.foldl_nil]
    rw [mapCol_canonical, mapCol_canonical, mapCol_canonical]
    rfl
  rw [h4]
  have hbind : ((Except.ok
        (⟨unionKeys records, records.map (fun r => (unionKeys records).map (g7w r))⟩ : DataFrame)
        : Except String DataFrame)).bind (fun df4 => setIsLate df4 t)
      = setIsLate ⟨unionKeys records, records.map (fun r => (unionKeys records).map (g7w r))⟩ t := rfl
  rw [hbind]
  by_cases hdue : "due_date" ∈ unionKeys records
  · have hdone : "done_ratio" ∈ unionKeys records := hdd hdue
    by_cases hIs : "is_late" ∈ unionKeys records
    · have hA : setIsLate ⟨unionKeys records, records.map (fun r => (unionKeys records).map (g7w r))⟩ t
          = .ok ⟨unionKeys records, records.map (fun r => (unionKeys records).map (fun c' =>
              if c' = "is_late" then
                Value.bool (lateRowFlag (unionKeys records) t ((unionKeys records).map (g7w r)))
              else g7w r c'))⟩ := by
        unfold setIsLate
        rw [if_pos hdue, if_pos hdone, setColFrom_canonical_mem _ _ _ _ _ hIs]
      have hB1 := ensureColumns_canonical (unionKeys records) workPackagesColumns records
        (fun r c' =>
          if c' = "is_late" then
            Value.bool (lateRowFlag (unionKeys records) t ((unionKeys records).map (g7w r)))
          else g7w r c')
        (fun r hr c hc => by
          show (if c = "is_late" then
              Value.bool (lateRowFlag (unionKeys records) t ((unionKeys records).map (g7w r)))
            else g7w r c) = Value.null
          rw [if_neg (fun hlate : c = "is_late" => hc (hlate ▸ hIs))]
          exact g7w_null r c (lookupKey_eq_null_of_not_mem_unionKeys records r c hr hc))
      have hB2 : (⟨workPackagesColumns, records.map (fun r => workPackagesColumns.map
            (fun c => if c ∈ unionKeys records then
              (if c = "is_late" then
                Value.bool (lateRowFlag (unionKeys records) t ((unionKeys records).map (g7w r)))
              else g7w r c)
            else Value.null))⟩ : DataFrame)
          = ⟨workPackagesColumns, records.map (fun r => workPackagesColumns.map
              (wpCellFn (unionKeys records) t r))⟩ := by
        congr 1
        apply List.map_congr_left
        intro r hr
        apply List.map_congr_left
        intro c _
        unfold wpCellFn
        by_cases hlate : c = "is_late"
        · subst hlate
          rw [if_pos hIs, if_pos rfl,
            lateRowFlag_canonical (unionKeys records) t hdue hdone r,
            if_pos (show ("is_late" : String) = "is_late" ∧ "due_date" ∈ unionKeys records from
              ⟨rfl, hdue⟩)]
        · rw [if_neg (show ¬(c = "is_late" ∧ "due_date" ∈ unionKeys records) from
            fun hand => hlate hand.1)]
          by_cases hK : c ∈ unionKeys records
          · rw [if_pos hK, if_pos hK, if_neg hlate]
          · rw [if_neg hK, if_neg hK]
      rw [hA, except_map_ensure, hB1, hB2]
    · have hA : setIsLate ⟨unionKeys records, records.map (fun r => (unionKeys records).map (g7w r))⟩ t
          = .ok ⟨unionKeys records ++ ["is_late"], records.map (fun r =>
              (unionKeys records).map (g7w r)
                ++ [Value.bool (lateRowFlag (unionKeys records) t ((unionKeys records).map (g7w r)))])⟩ := by
        unfold setIsLate
        rw [if_pos hdue, if_pos hdone, setColFrom_canonical_not_mem _ _ _ _ _ hIs]
      have hX2 : (⟨unionKeys records ++ ["is_late"], records.map (fun r =>
            (unionKeys records).map (g7w r)
              ++ [Value.bool (lateRowFlag (unionKeys records) t ((unionKeys records).map (g7w r)))])⟩
            : DataFrame)
          = ⟨unionKeys records ++ ["is_late"], records.map (fun r =>
              (unionKeys records ++ ["is_late"]).map (fun c' =>
                if c' = "is_late" then
                  Value.bool (lateRowFlag (unionKeys records) t ((unionKeys records).map (g7w r)))
                else g7w r c'))⟩ := by
        congr 1
        apply List.map_congr_left
        intro r _
        rw [List.map_append]
        congr 1
        apply List.map_congr_left
        intro c hcK
        rw [if_neg (fun hlate : c = "is_late" => hIs (hlate ▸ hcK))]
      have hB1 := ensureColumns_canonical (unionKeys records ++ ["is_late"]) workPackagesColumns
        records
        (fun r c' =>
          if c' = "is_late" then
            Value.bool (lateRowFlag (unionKeys records) t ((unionKeys records).map (g7w r)))
          else g7w r c')
        (fun r hr c hc => by
          show (if c = "is_late" then
              Value.bool (lateRowFlag (unionKeys records) t ((unionKeys records).map (g7w r)))
            else g7w r c) = Value.null
          have hcK : c ∉ unionKeys records := fun hm => hc (List.mem_append_left _ hm)
          have hlate : c ≠ "is_late" := fun hl =>
            hc (by rw [hl]; exact List.mem_append_right _ (by simp))
          rw [if_neg hlate]
          exact g7w_null r c (lookupKey_eq_null_of_not_mem_unionKeys records r c hr hcK))
      have hB2 : (⟨workPackagesColumns, records.map (fun r => workPackagesColumns.map
            (fun c => if c ∈ unionKeys records ++ ["is_late"] then
              (if c = "is_late" then
                Value.bool (lateRowFlag (unionKeys records) t ((unionKeys records).map (g7w r)))
              else g7w r c)
            else Value.null))⟩ : DataFrame)
          = ⟨workPackagesColumns, records.map (fun r => workPackagesColumns.map
              (wpCellFn (unionKeys records) t r))⟩ := by
        congr 1
        apply List.map_congr_left
        intro r hr
        apply List.map_congr_left
        intro c _
        unfold wpCellFn
        by_cases hlate : c = "is_late"
        · subst hlate
          rw [if_pos (List.mem_append_right (unionKeys records)
              (show ("is_late" : String) ∈ ["is_late"] by simp)), if_pos rfl,
            lateRowFlag_canonical (unionKeys records) t hdue hdone r,
            if_pos (show ("is_late" : String) = "is_late" ∧ "due_date" ∈ unionKeys records from
              ⟨rfl, hdue⟩)]
        · have hmem : (c ∈ unionKeys records ++ ["is_late"]) ↔ c ∈ unionKeys records := by
            constructor
            · intro hm
              rcases List.mem_append.mp hm with hm | hm
              · exact hm
              · exact absurd (by simpa using hm) hlate
            · exact fun hm => List.mem_append_left _ hm
          rw [if_neg (show ¬(c = "is_late" ∧ "due_date" ∈ unionKeys records) from
            fun hand => hlate hand.1)]
          by_cases hK : c ∈ unionKeys records
          · rw [if_pos (hmem.mpr hK), if_pos hK, if_neg hlate]
          · rw [if_neg (fun hm => hK (hmem.mp hm)), if_neg hK]
      rw [hA, hX2, except_map_ensure, hB1, hB2]
  · have hA : setIsLate ⟨unionKeys records, records.map (fun r => (unionKeys records).map (g7w r))⟩ t
        = .ok ⟨unionKeys records, records.map (fun r => (unionKeys records).map (g7w r))⟩ := by
      unfold setIsLate
      rw [if_neg hdue]
    have hB1 := ensureColumns_canonical (unionKeys records) workPackagesColumns records g7w
      (fun r hr c hc =>
        g7w_null r c (lookupKey_eq_null_of_not_mem_unionKeys records r c hr hc))
    have hB2 : (⟨workPackagesColumns, records.map (fun r => workPackagesColumns.map
          (fun c => if c ∈ unionKeys records then g7w r c else Value.null))⟩ : DataFrame)
        = ⟨workPackagesColumns, records.map (fun r => workPackagesColumns.map
            (wpCellFn (unionKeys records) t r))⟩ := by
      congr 1
      apply List.map_congr_left
      intro r hr
      apply List.map_congr_left
      intro c _
      unfold wpCellFn
      rw [if_neg (show ¬(c = "is_late" ∧ "due_date" ∈ unionKeys records) from
        fun hand => hdue hand.2)]
    rw [hA, except_map_ensure, hB1, hB2]

theorem exists_key_of_lookup_ne_null (r : Record) (c : String) (h : lookupKey r c ≠ .null) :
    ∃ v, (c, v) ∈ r := by
  induction r with
  | nil => exact absurd rfl h
  | cons kv t ih =>
    by_cases hk : kv.1 = c
    · exact ⟨kv.2, by rw [← hk]; simp⟩
    · have : lookupKey t c ≠ .null := by
        simpa [lookupKey, hk] using h
      obtain ⟨v, hv⟩ := ih this
      exact ⟨v, List.mem_cons_of_mem _ hv⟩

set_option maxHeartbeats 800000 in
theorem wp_normalize_err_cast (records : List Record) (t : YMD)
    (hne : unionKeys records ≠ [])
    (hbad : ¬ ∀ r ∈ records, ∀ c ∈ (["wp_id", "project_id", "done_ratio"] : List String),
      intCoercible (lookupKey r c) = true) :
    normalize_records records (some "work_packages") t
      = .error "TypeError: cannot safely cast non-equivalent float64 to int64" := by
  have h0 : normalize_records records (some "work_packages") t
      = (if dfEmpty (fromRecords records) then .ok ⟨workPackagesColumns, []⟩
         else (coreTransforms (fromRecords records) (some "work_packages") t).map
           (fun d => ensureColumns d workPackagesColumns)) := rfl
  rw [h0, dfEmpty_fromRecords_false records hne]
  simp only [Bool.false_eq_true, if_false]
  have h1 : coreTransforms (fromRecords records) (some "work_packages") t
      = (coerceIntCols
          (coerceCols
            (coerceCols (fromRecords records) toDateCell ["start_date", "due_date"])
            toDatetimeCell ["created_at", "updated_at"])
          ["wp_id", "project_id", "done_ratio"]).bind (fun df4 => setIsLate df4 t) := rfl
  rw [h1]
  have h2 : coerceCols (fromRecords records) toDateCell ["start_date", "due_date"]
      = ⟨unionKeys records, records.map (fun r => (unionKeys records).map (g2w r))⟩ := by
    show coerceCols ⟨unionKeys records,
        records.map (fun r => (unionKeys records).map (fun c => lookupKey r c))⟩ toDateCell _ = _
    simp only [coerceCols, List.foldl_cons, List.foldl_nil]
    rw [mapCol_canonical, mapCol_canonical]
    rfl
  rw [h2]
  have h3 : coerceCols ⟨unionKeys records, records.map (fun r => (unionKeys records).map (g2w r))⟩
        toDatetimeCell ["created_at", "updated_at"]
      = ⟨unionKeys records, records.map (fun r => (unionKeys records).map (g4w r))⟩ := by
    simp only [coerceCols, List.foldl_cons, List.foldl_nil]
    rw [mapCol_canonical, mapCol_canonical]
    rfl
  rw [h3]
  have hfalse : allCellsCoercible
      ⟨unionKeys records, records.map (fun r => (unionKeys records).map (g4w r))⟩
      ["wp_id", "project_id", "done_ratio"] = false := by
    rw [allCellsCoercible_canonical]
    by_contra hne'
    apply hbad
    have htrue : (["wp_id", "project_id", "done_ratio"] : List String).all
        (fun c => records.all (fun r =>
          intCoercible (if c ∈ unionKeys records then g4w r c else Value.null))) = true := by
      cases hb : (["wp_id", "project_id", "done_ratio"] : List String).all
          (fun c => records.all (fun r =>
            intCoercible (if c ∈ unionKeys records then g4w r c else Value.null))) with
      | true => rfl
      | false => exact absurd hb hne'
    rw [List.all_eq_true] at htrue
    intro r hr c hc
    have hc' := htrue c hc
    rw [List.all_eq_true] at hc'
    have hrc := hc' r hr
    by_cases hK : c ∈ unionKeys records
    · rw [if_pos hK] at hrc
      simp only [List.mem_cons, List.mem_singleton, List.not_mem_nil, or_false] at hc
      rcases hc with rfl | rfl | rfl
      · rw [show g4w r "wp_id" = lookupKey r "wp_id" from rfl] at hrc
        exact hrc
      · rw [show g4w r "project_id" = lookupKey r "project_id" from rfl] at hrc
        exact hrc
      · rw [show g4w r "done_ratio" = lookupKey r "done_ratio" from rfl] at hrc
        exact hrc
    · by_cases hnull : lookupKey r c = .null
      · rw [hnull]
        rfl
      · obtain ⟨v, hv⟩ := exists_key_of_lookup_ne_null r c hnull
        exact absurd (mem_unionKeys_of_key records r c v hr hv) hK
  have herr : coerceIntCols
        ⟨unionKeys records, records.map (fun r => (unionKeys records).map (g4w r))⟩
        ["wp_id", "project_id", "done_ratio"]
      = .error "TypeError: cannot safely cast non-equivalent float64 to int64" := by
    unfold coerceIntCols
    rw [hfalse]
    rfl
  rw [herr]
  rfl

set_option maxHeartbeats 800000 in
theorem wp_normalize_err_fillna (records : List Record) (t : YMD)
    (hne : unionKeys records ≠ [])
    (hco : ∀ r ∈ records, ∀ c ∈ (["wp_id", "project_id", "done_ratio"] : List String),
      intCoercible (lookupKey r c) = true)
    (hdue : "due_date" ∈ unionKeys records)
    (hdone : "done_ratio" ∉ unionKeys records) :
    normalize_records records (some "work_packages") t
      = .error "AttributeError: int object has no attribute fillna" := by
  have h0 : normalize_records records (some "work_packages") t
      = (if dfEmpty (fromRecords records) then .ok ⟨workPackagesColumns, []⟩
         else (coreTransforms (fromRecords records) (some "work_packages") t).map
           (fun d => ensureColumns d workPackagesColumns)) := rfl
  rw [h0, dfEmpty_fromRecords_false records hne]
  simp only [Bool.false_eq_true, if_false]
  have h1 : coreTransforms (fromRecords records) (some "work_packages") t
      = (coerceIntCols
          (coerceCols
            (coerceCols (fromRecords records) toDateCell ["start_date", "due_date"])
            toDatetimeCell ["created_at", "updated_at"])
          ["wp_id", "project_id", "done_ratio"]).bind (fun df4 => setIsLate df4 t) := rfl
  rw [h1]
  have h2 : coerceCols (fromRecords records) toDateCell ["start_date", "due_date"]
      = ⟨unionKeys records, records.map (fun r => (unionKeys records).map (g2w r))⟩ := by
    show coerceCols ⟨unionKeys records,
        records.map (fun r => (unionKeys records).map (fun c => lookupKey r c))⟩ toDateCell _ = _
    simp only [coerceCols, List.foldl_cons, List.foldl_nil]
    rw [mapCol_canonical, mapCol_canonical]
    rfl
  rw [h2]
  have h3 : coerceCols ⟨unionKeys records, records.map (fun r => (unionKeys records).map (g2w r))⟩
        toDatetimeCell ["created_at", "updated_at"]
      = ⟨unionKeys records, records.map (fun r => (unionKeys records).map (g4w r))⟩ := by
    simp only [coerceCols, List.foldl_cons, List.foldl_nil]
    rw [mapCol_canonical, mapCol_canonical]
    rfl
  rw [h3]
  have hco' : allCellsCoercible
      ⟨unionKeys records, records.map (fun r => (unionKeys records).map (g4w r))⟩
      ["wp_id", "project_id", "done_ratio"] = true := by
    rw [allCellsCoercible_canonical, List.all_eq_true]
    intro c hc
    rw [List.all_eq_true]
    intro r hr
    by_cases hK : c ∈ unionKeys records
    · rw [if_pos hK]
      simp only [List.mem_cons, List.mem_singleton, List.not_mem_nil, or_false] at hc
      rcases hc with rfl | rfl | rfl
      · rw [show g4w r "wp_id" = lookupKey r "wp_id" from rfl]
        exact hco r hr "wp_id" (by simp)
      · rw [show g4w r "project_id" = lookupKey r "project_id" from rfl]
        exact hco r hr "project_id" (by simp)
      · rw [show g4w r "done_ratio" = lookupKey r "done_ratio" from rfl]
        exact hco r hr "done_ratio" (by simp)
    · rw [if_neg hK]
      rfl
  have h4 : coerceIntCols
        ⟨unionKeys records, records.map (fun r => (unionKeys records).map (g4w r))⟩
        ["wp_id", "project_id", "done_ratio"]
      = .ok ⟨unionKeys records, records.map (fun r => (unionKeys records).map (g7w r))⟩ := by
    unfold coerceIntCols
    rw [hco']
    simp only [if_true]
    congr 1
    simp only [List.foldl_cons, List.foldl_nil]
    rw [mapCol_canonical, mapCol_canonical, mapCol_canonical]
    rfl
  rw [h4]
  have hbind : ((Except.ok
        (⟨unionKeys records, records.map (fun r => (unionKeys records).map (g7w r))⟩ : DataFrame)
        : Except String DataFrame)).bind (fun df4 => setIsLate df4 t)
      = setIsLate ⟨unionKeys records, records.map (fun r => (unionKeys records).map (g7w r))⟩ t := rfl
  rw [hbind]
  have h5 : setIsLate ⟨unionKeys records, records.map (fun r => (unionKeys records).map (g7w r))⟩ t
      = .error "AttributeError: int object has no attribute fillna" := by
    unfold setIsLate
    rw [if_pos hdue, if_neg hdone]
  rw [h5]
  rfl

set_option maxHeartbeats 800000 in
theorem proj_normalize_ok (records : List Record) (t : YMD)
    (hne : unionKeys records ≠ []) :
    normalize_records records (some "projects") t
      = .ok ⟨projectsColumns,
          records.map (fun r => projectsColumns.map (projCellFn (unionKeys records) r))⟩ := by
  have h0 : normalize_records records (some "projects") t
      = (if dfEmpty (fromRecords records) then .ok ⟨projectsColumns, []⟩
         else (coreTransforms (fromRecords records) (some "projects") t).map
           (fun d => ensureColumns d projectsColumns)) := rfl
  rw [h0, dfEmpty_fromRecords_false records hne]
  simp only [Bool.false_eq_true, if_false]
  have h1 : coreTransforms (fromRecords records) (some "projects") t
      = .ok (coerceCols (fromRecords records) toDatetimeCell ["updated_at"]) := rfl
  rw [h1]
  have h2 : coerceCols (fromRecords records) toDatetimeCell ["updated_at"]
      = ⟨unionKeys records, records.map (fun r => (unionKeys records).map (gp r))⟩ := by
    show coerceCols ⟨unionKeys records,
        records.map (fun r => (unionKeys records).map (fun c => lookupKey r c))⟩ toDatetimeCell _ = _
    simp only [coerceCols, List.foldl_cons, List.foldl_nil]
    rw [mapCol_canonical]
    rfl
  have hB1 := ensureColumns_canonical (unionKeys records) projectsColumns records gp
    (fun r hr c hc => gp_null r c (lookupKey_eq_null_of_not_mem_unionKeys records r c hr hc))
  have hB2 : (⟨projectsColumns, records.map (fun r => projectsColumns.map
        (fun c => if c ∈ unionKeys records then gp r c else Value.null))⟩ : DataFrame)
      = ⟨projectsColumns,
          records.map (fun r => projectsColumns.map (projCellFn (unionKeys records) r))⟩ := rfl
  rw [h2, except_map_ensure, hB1, hB2]

theorem normalize_empty_registered (records : List Record) (s : String) (cols : List String)
    (t : YMD) (hs : SCHEMAS.lookup s = some cols) (hK : unionKeys records = []) :
    normalize_records records (some s) t = .ok ⟨cols, []⟩ := by
  have hemp : dfEmpty (fromRecords records) = true := by
    unfold dfEmpty fromRecords
    rw [hK]
    simp [List.isEmpty]
  simp only [normalize_records, hs, hemp, if_true]

theorem normalize_unregistered (records : List Record) (s : String) (t : YMD)
    (h1 : s ≠ "projects") (h2 : s ≠ "work_packages") :
    normalize_records records (some s) t = .ok (fromRecords records) := by
  have hs := schemas_lookup_none s h1 h2
  simp only [normalize_records, hs]
  simp only [coreTransforms]
  rw [if_neg (fun hh : some s = some "projects" => h1 (Option.some.inj hh)),
    if_neg (fun hh : some s = some "work_packages" => h2 (Option.some.inj hh))]

theorem normalize_noSchema (records : List Record) (t : YMD) :
    normalize_records records none t = .ok (fromRecords records) := rfl

theorem schemas_lookup_cases (s : String) (cols : List String)
    (h : SCHEMAS.lookup s = some cols) :
    (s = "projects" ∧ cols = projectsColumns)
    ∨ (s = "work_packages" ∧ cols = workPackagesColumns) := by
  by_cases h1 : s = "projects"
  · subst h1
    rw [schemas_lookup_proj] at h
    exact Or.inl ⟨rfl, (Option.some.inj h).symm⟩
  · by_cases h2 : s = "work_packages"
    · subst h2
      rw [schemas_lookup_wp] at h
      exact Or.inr ⟨rfl, (Option.some.inj h).symm⟩
    · rw [schemas_lookup_none s h1 h2] at h
      cases h

theorem schemas_lookup_none_inv (s : String) (h : SCHEMAS.lookup s = none) :
    s ≠ "projects" ∧ s ≠ "work_packages" := by
  constructor
  · rintro rfl
    rw [schemas_lookup_proj] at h
    cases h
  · rintro rfl
    rw [schemas_lookup_wp] at h
    cases h

/-- Inversion: a successful `work_packages` normalization with observed
keys is exactly the canonical dataset. -/
theorem wp_ok_shape (records : List Record) (t : YMD) (df : DataFrame)
    (hne : unionKeys records ≠ [])
    (h : normalize_records records (some "work_packages") t = .ok df) :
    df = ⟨workPackagesColumns,
      records.map (fun r => workPackagesColumns.map (wpCellFn (unionKeys records) t r))⟩ := by
  by_cases hco : ∀ r ∈ records, ∀ c ∈ (["wp_id", "project_id", "done_ratio"] : List String),
      intCoercible (lookupKey r c) = true
  · by_cases hdd : "due_date" ∈ unionKeys records → "done_ratio" ∈ unionKeys records
    · rw [wp_normalize_ok records t hne hco hdd] at h
      exact (Except.ok.inj h).symm
    · have hdue : "due_date" ∈ unionKeys records := by
        by_contra hdue
        exact hdd (fun hd => absurd hd hdue)
      have hdone : "done_ratio" ∉ unionKeys records := fun hdone => hdd (fun _ => hdone)
      rw [wp_normalize_err_fillna records t hne hco hdue hdone] at h
      cases h
  · rw [wp_normalize_err_cast records t hne hco] at h
    cases h

theorem wp_ok_done_mem (records : List Record) (t : YMD) (df : DataFrame)
    (hne : unionKeys records ≠ [])
    (h : normalize_records records (some "work_packages") t = .ok df)
    (hdue : "due_date" ∈ unionKeys records) :
    "done_ratio" ∈ unionKeys records := by
  by_contra hdone
  by_cases hco : ∀ r ∈ records, ∀ c ∈ (["wp_id", "project_id", "done_ratio"] : List String),
      intCoercible (lookupKey r c) = true
  · rw [wp_normalize_err_fillna records t hne hco hdue hdone] at h
    cases h
  · rw [wp_normalize_err_cast records t hne hco] at h
    cases h

theorem proj_ok_shape (records : List Record) (t : YMD) (df : DataFrame)
    (hne : unionKeys records ≠ [])
    (h : normalize_records records (some "projects") t = .ok df) :
    df = ⟨projectsColumns,
      records.map (fun r => projectsColumns.map (projCellFn (unionKeys records) r))⟩ := by
  rw [proj_normalize_ok records t hne] at h
  exact (Except.ok.inj h).symm

theorem getD_map_lt {A B : Type} (l : List A) (f : A → B) (i : Nat) (hi : i < l.length)
    (d : B) (d' : A) : (l.map f).getD i d = f (l.getD i d') := by
  induction l generalizing i with
  | nil => cases hi
  | cons a tl ih =>
    cases i with
    | zero => rfl
    | succ j => exact ih j (Nat.lt_of_succ_lt_succ hi)

theorem toIntCellD_shape (v : Value) :
    toIntCellD v = .null ∨ ∃ n, toIntCellD v = .int n := by
  cases v with
  | null => exact Or.inl rfl
  | int n => exact Or.inr ⟨n, rfl⟩
  | bool b => exact Or.inr ⟨if b then 1 else 0, rfl⟩
  | date d => exact Or.inl rfl
  | timestamp ts => exact Or.inl rfl
  | float num exp =>
    simp only [toIntCellD]
    by_cases hdvd : num % ((10 : Int) ^ exp) = 0
    · rw [if_pos hdvd]
      exact Or.inr ⟨num / (10 : Int) ^ exp, rfl⟩
    · rw [if_neg hdvd]
      exact Or.inl rfl
  | str s =>
    simp only [toIntCellD]
    cases hp : parseNumericChars s.data with
    | none => exact Or.inl rfl
    | some np =>
      cases np with
      | intVal n => exact Or.inr ⟨n, rfl⟩
      | fracVal n => exact Or.inl rfl

/-! ## Claim theorems -/

/-- C1: for every registered schema name and every record list, a
dataset returned by `normalize_records` has exactly the registry's
column list for that schema, in the registry's order (extra observed
columns dropped), and every schema column missing from the observed
keys holds null in every row — except `is_late`, the one column the
normalization itself materializes (as a boolean) whenever a `due_date`
key is observed (lines 79-86), so it is never missing when
`_ensure_columns` runs. -/
theorem C1_schema_completeness (records : List Record) (s : String) (cols : List String)
    (t : YMD) (df : DataFrame) (hs : SCHEMAS.lookup s = some cols)
    (h : normalize_records records (some s) t = .ok df) :
    df.columns = cols
    ∧ ∀ row ∈ df.rows, ∀ c ∈ cols, c ∉ unionKeys records →
        (c = "is_late" → "due_date" ∉ unionKeys records) →
        getCell df.columns row c = Value.null := by
  by_cases hK : unionKeys records = []
  · rw [normalize_empty_registered records s cols t hs hK] at h
    have hdf : df = ⟨cols, []⟩ := (Except.ok.inj h).symm
    subst hdf
    exact ⟨rfl, fun row hrow => (List.not_mem_nil row hrow).elim⟩
  · rcases schemas_lookup_cases s cols hs with ⟨hsp, hcp⟩ | ⟨hsw, hcw⟩
    · subst hsp
      subst hcp
      have hshape := proj_ok_shape records t df hK h
      subst hshape
      refine ⟨rfl, ?hval⟩
      intro row hrow c hc hcK hcIL
      rcases List.mem_map.mp hrow with ⟨r, hr, rfl⟩
      show getCell projectsColumns
        (projectsColumns.map (projCellFn (unionKeys records) r)) c = Value.null
      rw [getCell_map projectsColumns (projCellFn (unionKeys records) r) c, if_pos hc]
      unfold projCellFn
      rw [if_neg hcK]
    · subst hsw
      subst hcw
      have hshape := wp_ok_shape records t df hK h
      subst hshape
      refine ⟨rfl, ?hvalw⟩
      intro row hrow c hc hcK hcIL
      rcases List.mem_map.mp hrow with ⟨r, hr, rfl⟩
      show getCell workPackagesColumns
        (workPackagesColumns.map (wpCellFn (unionKeys records) t r)) c = Value.null
      rw [getCell_map workPackagesColumns (wpCellFn (unionKeys records) t r) c, if_pos hc]
      unfold wpCellFn
      rw [if_neg (fun hand => hcIL hand.1 hand.2), if_neg hcK]

/-- C1 witness: one record observing only `project_name` yields the full
projects column list, with the unobserved schema columns null. -/
theorem C1_schema_completeness_witness :
    (⟨projectsColumns, [[Value.null, Value.str "Alpha", Value.null, Value.null, Value.null]]⟩
        : DataFrame).columns = projectsColumns
    ∧ ∀ row ∈ (⟨projectsColumns,
          [[Value.null, Value.str "Alpha", Value.null, Value.null, Value.null]]⟩
            : DataFrame).rows,
        ∀ c ∈ projectsColumns, c ∉ unionKeys [[("project_name", Value.str "Alpha")]] →
          (c = "is_late" → "due_date" ∉ unionKeys [[("project_name", Value.str "Alpha")]]) →
          getCell (⟨projectsColumns,
              [[Value.null, Value.str "Alpha", Value.null, Value.null, Value.null]]⟩
                : DataFrame).columns row c
            = Value.null :=
  C1_schema_completeness [[("project_name", Value.str "Alpha")]] "projects" projectsColumns
    ⟨2024, 1, 1⟩
    ⟨projectsColumns, [[Value.null, Value.str "Alpha", Value.null, Value.null, Value.null]]⟩
    (by decide) (by decide)

/-- C3: the claim says normalization never raises for malformed or
missing individual field values; the code raises `AttributeError` on a
record set that has a `due_date` column but no `done_ratio` column,
because `df.get("done_ratio", 0)` returns a scalar whose `.fillna`
call fails (normalize.py line 82-84). -/
theorem C3_missing_done_ratio_raises :
    normalize_records [[("due_date", Value.str "2020-01-01")]] (some "work_packages") ⟨2024, 1, 1⟩
      = .error "AttributeError: int object has no attribute fillna" := by
  decide

/-- C7: the concrete example record normalized against `work_packages`
with today = 2024-01-01 yields wp_id = 7 (int), due_date = 2020-01-01
(date), done_ratio = 40 (int), is_late = true, and every other schema
column null. -/
theorem C7_concrete_example :
    normalize_records
      [[("wp_id", Value.str "7"), ("wp_subject", Value.str "Fix bug"),
        ("due_date", Value.str "2020-01-01"), ("done_ratio", Value.str "40")]]
      (some "work_packages") ⟨2024, 1, 1⟩
      = .ok ⟨workPackagesColumns,
          [[Value.int 7, Value.str "Fix bug", Value.null, Value.null, Value.null,
            Value.null, Value.null, Value.null, Value.null,
            Value.null, Value.date ⟨2020, 1, 1⟩, Value.int 40, Value.null, Value.null,
            Value.bool true]]⟩ := by
  decide

/-- C5: an unregistered schema name is not an error: no coercion, no
`is_late`, no column enforcement is applied and the output is exactly
the raw union-of-keys frame; `normalize([], "projects")` gives zero
rows with the 5 projects columns and `normalize([], "unknown_schema")`
gives an empty dataset with zero columns. -/
theorem C5_unregistered_passthrough (records : List Record) (s : String) (t : YMD)
    (h1 : s ≠ "projects") (h2 : s ≠ "work_packages") :
    normalize_records records (some s) t = .ok (fromRecords records)
    ∧ (fromRecords records).columns = unionKeys records
    ∧ normalize_records [] (some "projects") t = .ok ⟨projectsColumns, []⟩
    ∧ projectsColumns.length = 5
    ∧ normalize_records [] (some "unknown_schema") t = .ok ⟨[], []⟩ := by
  refine ⟨normalize_unregistered records s t h1 h2, rfl, ?emp, by decide, ?unk⟩
  · exact normalize_empty_registered [] "projects" projectsColumns t rfl rfl
  · exact normalize_unregistered [] "unknown_schema" t (by decide) (by decide)

/-- C5 witness. -/
theorem C5_unregistered_passthrough_witness :
    normalize_records [[("a", Value.int 1)]] (some "other") ⟨2024, 1, 1⟩
      = .ok (fromRecords [[("a", Value.int 1)]])
    ∧ (fromRecords [[("a", Value.int 1)]]).columns = unionKeys [[("a", Value.int 1)]]
    ∧ normalize_records [] (some "projects") ⟨2024, 1, 1⟩ = .ok ⟨projectsColumns, []⟩
    ∧ projectsColumns.length = 5
    ∧ normalize_records [] (some "unknown_schema") ⟨2024, 1, 1⟩ = .ok ⟨[], []⟩ :=
  C5_unregistered_passthrough [[("a", Value.int 1)]] "other" ⟨2024, 1, 1⟩
    (by decide) (by decide)

/-- C10 counterexample: one input record with no keys yields a dataset
with zero rows under a registered schema, not one row per record. -/
theorem C10_counterexample :
    (normalize_records [[]] (some "projects") ⟨2024, 1, 1⟩).map (fun df => df.rows.length)
      = .ok 0
    ∧ ([([] : Record)] : List Record).length = 1 := by
  decide

/-- Whether the optional schema name is registered. -/
def registeredSchema (s : Option String) : Bool :=
  match s with
  | some s' => (SCHEMAS.lookup s').isSome
  | none => false

/-- C10 amended: the dataset has one row per input record, in input
order (each row a function of its record), except that a registered
schema name combined with an all-keyless record set yields zero rows. -/
theorem C10_one_row_per_record (records : List Record) (s : Option String) (t : YMD)
    (df : DataFrame) (h : normalize_records records s t = .ok df) :
    (registeredSchema s = true ∧ unionKeys records = [] → df.rows = [])
    ∧ (¬(registeredSchema s = true ∧ unionKeys records = []) →
        ∃ f : Record → List Value,
          df.rows = records.map f ∧ df.rows.length = records.length) := by
  cases s with
  | none =>
    rw [normalize_noSchema records t] at h
    have hdf := (Except.ok.inj h).symm
    subst hdf
    constructor
    · rintro ⟨hfalse, -⟩
      simp [registeredSchema] at hfalse
    · intro hne
      exact ⟨fun r => (unionKeys records).map (fun c => lookupKey r c), rfl,
        by simp [fromRecords]⟩
  | some s' =>
    cases hlk : SCHEMAS.lookup s' with
    | none =>
      obtain ⟨h1, h2⟩ := schemas_lookup_none_inv s' hlk
      rw [normalize_unregistered records s' t h1 h2] at h
      have hdf := (Except.ok.inj h).symm
      subst hdf
      constructor
      · rintro ⟨hfalse, -⟩
        simp [registeredSchema, hlk] at hfalse
      · intro hne
        exact ⟨fun r => (unionKeys records).map (fun c => lookupKey r c), rfl,
          by simp [fromRecords]⟩
    | some cols =>
      constructor
      · rintro ⟨-, hK⟩
        rw [normalize_empty_registered records s' cols t hlk hK] at h
        rw [← Except.ok.inj h]
      · intro hne
        have hK : unionKeys records ≠ [] := by
          intro hK0
          exact hne ⟨by simp [registeredSchema, hlk], hK0⟩
        rcases schemas_lookup_cases s' cols hlk with ⟨hsp, -⟩ | ⟨hsw, -⟩
        · subst hsp
          rw [proj_ok_shape records t df hK h]
          exact ⟨fun r => projectsColumns.map (projCellFn (unionKeys records) r), rfl,
            by simp⟩
        · subst hsw
          rw [wp_ok_shape records t df hK h]
          exact ⟨fun r => workPackagesColumns.map (wpCellFn (unionKeys records) t r), rfl,
            by simp⟩

/-- C10 amended witness. -/
theorem C10_one_row_per_record_witness :
    ¬(registeredSchema (some "projects") = true ∧ unionKeys [[("project_name", Value.str "A")]] = [])
    ∧ ∃ f : Record → List Value,
        (⟨projectsColumns, [[Value.null, Value.str "A", Value.null, Value.null, Value.null]]⟩
          : DataFrame).rows = [[("project_name", Value.str "A")]].map f
        ∧ (⟨projectsColumns, [[Value.null, Value.str "A", Value.null, Value.null, Value.null]]⟩
          : DataFrame).rows.length = [[("project_name", Value.str "A")]].length := by
  constructor
  · decide
  · exact (C10_one_row_per_record [[("project_name", Value.str "A")]] (some "projects")
      ⟨2024, 1, 1⟩
      ⟨projectsColumns, [[Value.null, Value.str "A", Value.null, Value.null, Value.null]]⟩
      (by decide)).2 (by decide)

/-- C2 counterexample: when no input record carries a `due_date` key,
the `is_late` computation is skipped and the column is filled with
nulls by `_ensure_columns`, so a row whose due date is missing has a
null `is_late` rather than the false the claim requires. -/
theorem C2_counterexample :
    (normalize_records [[("wp_subject", Value.str "x")]] (some "work_packages")
        ⟨2024, 1, 1⟩).map
      (fun df => getCell df.columns (df.rows.getD 0 []) "is_late")
      = .ok Value.null
    ∧ Value.null ≠ Value.bool false := by
  decide

/-- C2 amended: provided at least one input record carries a `due_date`
key, every output row's `is_late` equals: due_date not null AND
due_date strictly before today AND done_ratio (0 when null) below 100;
in particular a row whose own due_date is missing or unparsable gets
`is_late = false`.  (When no record has a `due_date` key the column is
all null instead.) -/
theorem C2_is_late_formula (records : List Record) (t : YMD) (df : DataFrame)
    (h : normalize_records records (some "work_packages") t = .ok df)
    (hdue : "due_date" ∈ unionKeys records) :
    ∀ i, i < df.rows.length →
      getCell df.columns (df.rows.getD i []) "is_late"
        = Value.bool
          (match getCell df.columns (df.rows.getD i []) "due_date" with
           | Value.date d =>
             ymdLtB d t &&
               (match getCell df.columns (df.rows.getD i []) "done_ratio" with
                | Value.int n => decide (n < 100)
                | _ => true)
           | _ => false) := by
  have hne : unionKeys records ≠ [] := List.ne_nil_of_mem hdue
  have hdone := wp_ok_done_mem records t df hne h hdue
  have hshape := wp_ok_shape records t df hne h
  subst hshape
  intro i hi
  simp only [List.length_map] at hi
  rw [show (⟨workPackagesColumns,
      records.map (fun r => workPackagesColumns.map (wpCellFn (unionKeys records) t r))⟩
      : DataFrame).rows
    = records.map (fun r => workPackagesColumns.map (wpCellFn (unionKeys records) t r)) from rfl]
  rw [getD_map_lt records _ i hi [] []]
  rw [getCell_map, getCell_map, getCell_map]
  rw [if_pos (show "is_late" ∈ workPackagesColumns by decide),
    if_pos (show "due_date" ∈ workPackagesColumns by decide),
    if_pos (show "done_ratio" ∈ workPackagesColumns by decide)]
  set r := records.getD i []
  rw [show wpCellFn (unionKeys records) t r "is_late" = Value.bool (lateFlag t r) from by
    unfold wpCellFn
    rw [if_pos ⟨rfl, hdue⟩]]
  rw [show wpCellFn (unionKeys records) t r "due_date"
      = toDateCell (lookupKey r "due_date") from by
    unfold wpCellFn
    rw [if_neg (show ¬("due_date" = "is_late" ∧ "due_date" ∈ unionKeys records) from
      fun hand => absurd hand.1 (by decide)), if_pos hdue]
    rfl]
  rw [show wpCellFn (unionKeys records) t r "done_ratio"
      = toIntCellD (lookupKey r "done_ratio") from by
    unfold wpCellFn
    rw [if_neg (show ¬("done_ratio" = "is_late" ∧ "due_date" ∈ unionKeys records) from
      fun hand => absurd hand.1 (by decide)), if_pos hdone]
    rfl]
  unfold lateFlag doneOpenFlag
  rcases toDateCell_shape (lookupKey r "due_date") with hd | ⟨d, hd, -⟩
  · rw [hd]
  · rw [hd]
    rcases toIntCellD_shape (lookupKey r "done_ratio") with hn | ⟨n, hn⟩
    · rw [hn]
      rfl
    · rw [hn]
      rfl

/-- C2 amended witness. -/
theorem C2_is_late_formula_witness :
    getCell (⟨workPackagesColumns,
        [[Value.null, Value.null, Value.null, Value.null, Value.null,
          Value.null, Value.null, Value.null, Value.null,
          Value.null, Value.date ⟨2020, 1, 1⟩, Value.int 40, Value.null, Value.null,
          Value.bool true]]⟩ : DataFrame).columns
      ((⟨workPackagesColumns,
        [[Value.null, Value.null, Value.null, Value.null, Value.null,
          Value.null, Value.null, Value.null, Value.null,
          Value.null, Value.date ⟨2020, 1, 1⟩, Value.int 40, Value.null, Value.null,
          Value.bool true]]⟩ : DataFrame).rows.getD 0 []) "is_late"
      = Value.bool
        (match getCell (⟨workPackagesColumns,
            [[Value.null, Value.null, Value.null, Value.null, Value.null,
              Value.null, Value.null, Value.null, Value.null,
              Value.null, Value.date ⟨2020, 1, 1⟩, Value.int 40, Value.null, Value.null,
              Value.bool true]]⟩ : DataFrame).columns
            ((⟨workPackagesColumns,
            [[Value.null, Value.null, Value.null, Value.null, Value.null,
              Value.null, Value.null, Value.null, Value.null,
              Value.null, Value.date ⟨2020, 1, 1⟩, Value.int 40, Value.null, Value.null,
              Value.bool true]]⟩ : DataFrame).rows.getD 0 []) "due_date" with
         | Value.date d =>
           ymdLtB d ⟨2024, 1, 1⟩ &&
             (match getCell (⟨workPackagesColumns,
                 [[Value.null, Value.null, Value.null, Value.null, Value.null,
                   Value.null, Value.null, Value.null, Value.null,
                   Value.null, Value.date ⟨2020, 1, 1⟩, Value.int 40, Value.null, Value.null,
                   Value.bool true]]⟩ : DataFrame).columns
                 ((⟨workPackagesColumns,
                 [[Value.null, Value.null, Value.null, Value.null, Value.null,
                   Value.null, Value.null, Value.null, Value.null,
                   Value.null, Value.date ⟨2020, 1, 1⟩, Value.int 40, Value.null, Value.null,
                   Value.bool true]]⟩ : DataFrame).rows.getD 0 []) "done_ratio" with
              | Value.int n => decide (n < 100)
              | _ => true)
         | _ => false) :=
  C2_is_late_formula
    [[("due_date", Value.str "2020-01-01"), ("done_ratio", Value.int 40)]] ⟨2024, 1, 1⟩
    ⟨workPackagesColumns,
      [[Value.null, Value.null, Value.null, Value.null, Value.null,
        Value.null, Value.null, Value.null, Value.null,
        Value.null, Value.date ⟨2020, 1, 1⟩, Value.int 40, Value.null, Value.null,
        Value.bool true]]⟩
    (by decide) (by decide) 0 (by decide)

theorem addKeys_keys_congr (acc : List String) (r₁ r₂ : Record)
    (h : r₁.map Prod.fst = r₂.map Prod.fst) : addKeys acc r₁ = addKeys acc r₂ := by
  induction r₁ generalizing r₂ acc with
  | nil =>
    have : r₂ = [] := by
      cases r₂ with
      | nil => rfl
      | cons kv tl => simp at h
    subst this
    rfl
  | cons kv tl ih =>
    cases r₂ with
    | nil => simp at h
    | cons kv₂ tl₂ =>
      simp only [List.map_cons, List.cons.injEq] at h
      obtain ⟨h1, h2⟩ := h
      simp only [addKeys, List.foldl_cons]
      rw [h1]
      exact ih _ tl₂ h2

theorem unionKeys_congr (records₁ records₂ : List Record)
    (h : List.Forall₂ (fun r₁ r₂ => r₁.map Prod.fst = r₂.map Prod.fst) records₁ records₂) :
    unionKeys records₁ = unionKeys records₂ := by
  have haux : ∀ (l₁ l₂ : List Record),
      List.Forall₂ (fun r₁ r₂ => r₁.map Prod.fst = r₂.map Prod.fst) l₁ l₂ →
      ∀ acc, l₁.foldl addKeys acc = l₂.foldl addKeys acc := by
    intro l₁ l₂ hf
    induction hf with
    | nil => intro acc; rfl
    | cons hab htl ih =>
      intro acc
      simp only [List.foldl_cons]
      rw [addKeys_keys_congr acc _ _ hab]
      exact ih _
  exact haux records₁ records₂ h []

theorem forall₂_all_iff {A B : Type} (R : A → B → Prop) (P : A → Prop) (Q : B → Prop)
    (l₁ : List A) (l₂ : List B) (h : List.Forall₂ R l₁ l₂)
    (hPQ : ∀ a b, R a b → (P a ↔ Q b)) :
    (∀ a ∈ l₁, P a) ↔ (∀ b ∈ l₂, Q b) := by
  induction h with
  | nil => simp
  | cons hab htl ih =>
    rw [List.forall_mem_cons, List.forall_mem_cons, hPQ _ _ hab, ih]

theorem map_eq_of_forall₂ {A B C : Type} (R : A → B → Prop) (f : A → C) (g : B → C)
    (l₁ : List A) (l₂ : List B) (h : List.Forall₂ R l₁ l₂)
    (hfg : ∀ a b, R a b → f a = g b) : l₁.map f = l₂.map g := by
  induction h with
  | nil => rfl
  | cons hab htl ih =>
    simp only [List.map_cons]
    rw [hfg _ _ hab, ih]

theorem g7w_congr (r₁ r₂ : Record) (c : String) (h : lookupKey r₁ c = lookupKey r₂ c) :
    g7w r₁ c = g7w r₂ c := by
  unfold g7w g6w g5w g4w g3w g2w g1w
  rw [h]

theorem lateFlag_congr (t : YMD) (r₁ r₂ : Record)
    (hd : lookupKey r₁ "due_date" = lookupKey r₂ "due_date")
    (hn : lookupKey r₁ "done_ratio" = lookupKey r₂ "done_ratio") :
    lateFlag t r₁ = lateFlag t r₂ := by
  unfold lateFlag doneOpenFlag
  rw [hd, hn]

theorem wpCellFn_congr (K : List String) (t : YMD) (r₁ r₂ : Record)
    (hdue : "due_date" ∈ K)
    (hl : ∀ c, c ≠ "is_late" → lookupKey r₁ c = lookupKey r₂ c) (c : String) :
    wpCellFn K t r₁ c = wpCellFn K t r₂ c := by
  unfold wpCellFn
  by_cases hc : c = "is_late" ∧ "due_date" ∈ K
  · rw [if_pos hc, if_pos hc,
      lateFlag_congr t r₁ r₂ (hl "due_date" (by decide)) (hl "done_ratio" (by decide))]
  · rw [if_neg hc, if_neg hc]
    by_cases hK : c ∈ K
    · rw [if_pos hK, if_pos hK]
      by_cases hlate : c = "is_late"
      · exact absurd ⟨hlate, hdue⟩ hc
      · exact g7w_congr r₁ r₂ c (hl c hlate)
    · rw [if_neg hK, if_neg hK]

/-- C9: two record lists that differ only in the values stored under
the `is_late` key normalize identically under `work_packages` whenever
some record carries a `due_date` key: the normalizer recomputes
`is_late` from `due_date` and `done_ratio` and discards supplied
`is_late` values. -/
theorem C9_input_is_late_ignored (records₁ records₂ : List Record) (t : YMD)
    (hrel : List.Forall₂ (fun r₁ r₂ =>
      r₁.map Prod.fst = r₂.map Prod.fst ∧
      ∀ c, c ≠ "is_late" → lookupKey r₁ c = lookupKey r₂ c) records₁ records₂)
    (hdue : "due_date" ∈ unionKeys records₁) :
    normalize_records records₁ (some "work_packages") t
      = normalize_records records₂ (some "work_packages") t := by
  have hK : unionKeys records₁ = unionKeys records₂ :=
    unionKeys_congr records₁ records₂ (hrel.imp (fun _ _ hab => hab.1))
  have hne₁ : unionKeys records₁ ≠ [] := List.ne_nil_of_mem hdue
  have hne₂ : unionKeys records₂ ≠ [] := hK ▸ hne₁
  have hdue₂ : "due_date" ∈ unionKeys records₂ := hK ▸ hdue
  have hcoiff : (∀ r ∈ records₁, ∀ c ∈ (["wp_id", "project_id", "done_ratio"] : List String),
        intCoercible (lookupKey r c) = true)
      ↔ (∀ r ∈ records₂, ∀ c ∈ (["wp_id", "project_id", "done_ratio"] : List String),
        intCoercible (lookupKey r c) = true) := by
    apply forall₂_all_iff _ _ _ _ _ hrel
    intro a b hab
    constructor
    · intro ha c hc
      rw [← hab.2 c (by
        simp only [List.mem_cons, List.mem_singleton, List.not_mem_nil, or_false] at hc
        rcases hc with rfl | rfl | rfl <;> decide)]
      exact ha c hc
    · intro hb c hc
      rw [hab.2 c (by
        simp only [List.mem_cons, List.mem_singleton, List.not_mem_nil, or_false] at hc
        rcases hc with rfl | rfl | rfl <;> decide)]
      exact hb c hc
  by_cases hco : ∀ r ∈ records₁, ∀ c ∈ (["wp_id", "project_id", "done_ratio"] : List String),
      intCoercible (lookupKey r c) = true
  · have hco₂ := hcoiff.mp hco
    by_cases hdone : "done_ratio" ∈ unionKeys records₁
    · have hdone₂ : "done_ratio" ∈ unionKeys records₂ := hK ▸ hdone
      rw [wp_normalize_ok records₁ t hne₁ hco (fun _ => hdone),
        wp_normalize_ok records₂ t hne₂ hco₂ (fun _ => hdone₂)]
      congr 1
      congr 1
      rw [← hK]
      apply map_eq_of_forall₂ _ _ _ _ _ hrel
      intro a b hab
      apply List.map_congr_left
      intro c _
      exact wpCellFn_congr (unionKeys records₁) t a b hdue hab.2 c
    · have hdone₂ : "done_ratio" ∉ unionKeys records₂ := fun hm => hdone (hK ▸ hm)
      rw [wp_normalize_err_fillna records₁ t hne₁ hco hdue hdone,
        wp_normalize_err_fillna records₂ t hne₂ hco₂ hdue₂ hdone₂]
  · have hco₂ : ¬ ∀ r ∈ records₂, ∀ c ∈ (["wp_id", "project_id", "done_ratio"] : List String),
        intCoercible (lookupKey r c) = true := fun hc₂ => hco (hcoiff.mpr hc₂)
    rw [wp_normalize_err_cast records₁ t hne₁ hco, wp_normalize_err_cast records₂ t hne₂ hco₂]

/-- C9 witness. -/
theorem C9_input_is_late_ignored_witness :
    normalize_records
      [[("due_date", Value.str "2099-01-01"), ("done_ratio", Value.int 40),
        ("is_late", Value.bool true)]]
      (some "work_packages") ⟨2024, 1, 1⟩
    = normalize_records
      [[("due_date", Value.str "2099-01-01"), ("done_ratio", Value.int 40),
        ("is_late", Value.bool false)]]
      (some "work_packages") ⟨2024, 1, 1⟩ := by
  apply C9_input_is_late_ignored
  · apply List.Forall₂.cons
    · refine ⟨by decide, ?lookups⟩
      intro c hc
      show lookupKey [("due_date", Value.str "2099-01-01"), ("done_ratio", Value.int 40),
        ("is_late", Value.bool true)] c
        = lookupKey [("due_date", Value.str "2099-01-01"), ("done_ratio", Value.int 40),
          ("is_late", Value.bool false)] c
      by_cases h1 : "due_date" = c
      · simp [lookupKey, h1]
      · by_cases h2 : "done_ratio" = c
        · simp [lookupKey, h1, h2]
        · have h3 : "is_late" ≠ c := fun h => hc h.symm
          simp [lookupKey, h1, h2, h3]
    · exact List.Forall₂.nil
  · decide

theorem filterStep_rows (df : DataFrame) (c : String) (fl : List String)
    (hc : c ∈ df.columns) :
    (if fl ≠ [] ∧ c ∈ df.columns then filterDF df c fl else df)
      = ⟨df.columns, df.rows.filter (fun r =>
          fl.isEmpty || valueInStrSet (getCell df.columns r c) fl)⟩ := by
  cases fl with
  | nil =>
    rw [if_neg (fun hand => hand.1 rfl)]
    have hall : df.rows.filter (fun r =>
        (List.isEmpty ([] : List String)) || valueInStrSet (getCell df.columns r c) [])
        = df.rows := by
      simp [List.isEmpty]
    rw [hall]
  | cons a tl =>
    rw [if_pos ⟨by simp, hc⟩]
    rfl

/-- C6: filtering a bundle restricts `work_packages` to exactly the
rows matching all supplied filters (AND across dimensions, membership
within a dimension's set, an empty list meaning no filter), leaves the
columns unchanged, and passes `projects` through untouched. -/
theorem C6_filtering (b : DataBundle) (pf sf prf : List String)
    (hp : "project_name" ∈ b.work_packages.columns)
    (hs : "wp_status" ∈ b.work_packages.columns)
    (hpr : "wp_priority" ∈ b.work_packages.columns) :
    (applyFilters b pf sf prf).projects = b.projects
    ∧ (applyFilters b pf sf prf).work_packages.columns = b.work_packages.columns
    ∧ (applyFilters b pf sf prf).work_packages.rows
      = b.work_packages.rows.filter (fun r =>
          (pf.isEmpty || valueInStrSet (getCell b.work_packages.columns r "project_name") pf)
          && (sf.isEmpty || valueInStrSet (getCell b.work_packages.columns r "wp_status") sf)
          && (prf.isEmpty || valueInStrSet (getCell b.work_packages.columns r "wp_priority") prf)) := by
  have h1 := filterStep_rows b.work_packages "project_name" pf hp
  have h2 := filterStep_rows
    ⟨b.work_packages.columns, b.work_packages.rows.filter (fun r =>
      pf.isEmpty || valueInStrSet (getCell b.work_packages.columns r "project_name") pf)⟩
    "wp_status" sf hs
  have h3 := filterStep_rows
    ⟨b.work_packages.columns, (b.work_packages.rows.filter (fun r =>
        pf.isEmpty || valueInStrSet (getCell b.work_packages.columns r "project_name") pf)).filter
      (fun r =>
        sf.isEmpty || valueInStrSet (getCell b.work_packages.columns r "wp_status") sf)⟩
    "wp_priority" prf hpr
  have happ : applyFilters b pf sf prf
      = ⟨b.projects, ⟨b.work_packages.columns,
          (((b.work_packages.rows.filter (fun r =>
              pf.isEmpty || valueInStrSet (getCell b.work_packages.columns r "project_name") pf)).filter
            (fun r =>
              sf.isEmpty || valueInStrSet (getCell b.work_packages.columns r "wp_status") sf)).filter
            (fun r =>
              prf.isEmpty || valueInStrSet (getCell b.work_packages.columns r "wp_priority") prf))⟩⟩ := by
    simp only [applyFilters]
    rw [h1, h2, h3]
  rw [happ]
  refine ⟨rfl, rfl, ?rows⟩
  show (((b.work_packages.rows.filter _).filter _).filter _) = b.work_packages.rows.filter _
  rw [List.filter_filter, List.filter_filter]
  apply List.filter_congr
  intro r _
  cases hq1 : (pf.isEmpty || valueInStrSet (getCell b.work_packages.columns r "project_name") pf) <;>
    cases hq2 : (sf.isEmpty || valueInStrSet (getCell b.work_packages.columns r "wp_status") sf) <;>
      cases hq3 : (prf.isEmpty || valueInStrSet (getCell b.work_packages.columns r "wp_priority") prf) <;>
        rfl

/-- C6 witness. -/
theorem C6_filtering_witness :
    (applyFilters
        ⟨⟨["project_name"], [[Value.str "P"]]⟩,
         ⟨["wp_status", "wp_priority", "project_name"],
          [[Value.str "Closed", Value.str "High", Value.str "P"],
           [Value.str "Open", Value.str "Low", Value.str "P"]]⟩⟩
        [] ["Closed"] []).projects
      = (⟨⟨["project_name"], [[Value.str "P"]]⟩,
         ⟨["wp_status", "wp_priority", "project_name"],
          [[Value.str "Closed", Value.str "High", Value.str "P"],
           [Value.str "Open", Value.str "Low", Value.str "P"]]⟩⟩ : DataBundle).projects
    ∧ (applyFilters
        ⟨⟨["project_name"], [[Value.str "P"]]⟩,
         ⟨["wp_status", "wp_priority", "project_name"],
          [[Value.str "Closed", Value.str "High", Value.str "P"],
           [Value.str "Open", Value.str "Low", Value.str "P"]]⟩⟩
        [] ["Closed"] []).work_packages.rows
      = [[Value.str "Closed", Value.str "High", Value.str "P"]] := by
  have h := C6_filtering
    ⟨⟨["project_name"], [[Value.str "P"]]⟩,
     ⟨["wp_status", "wp_priority", "project_name"],
      [[Value.str "Closed", Value.str "High", Value.str "P"],
       [Value.str "Open", Value.str "Low", Value.str "P"]]⟩⟩
    [] ["Closed"] [] (by decide) (by decide) (by decide)
  refine ⟨h.1, ?rows⟩
  rw [h.2.2]
  decide

/-- A file sink that fails for the destination `a.csv` and succeeds
elsewhere (used to exhibit the batch-export behavior). -/
def writeFailA : String → DataFrame → Except String String :=
  fun fn _ => if fn = "a.csv" then .error "disk full" else .ok fn

/-- C8 counterexample: with a sink that fails only on the first entry's
destination, the batch export returns the failure and produces no
mapping at all, even though the second entry exports fine on its own:
a failure on one dataset does prevent the others and successful
entries do not appear in any returned mapping. -/
theorem C8_counterexample :
    export_many_to_csv writeFailA
        [("projects", ([[("project_name", Value.str "P")]], "a.csv")),
         ("work_packages", ([[("wp_id", Value.int 1)]], "b.csv"))] ⟨2024, 1, 1⟩
      = .error "disk full"
    ∧ export_to_csv writeFailA [[("wp_id", Value.int 1)]] "b.csv" (some "work_packages")
        ⟨2024, 1, 1⟩ = .ok "b.csv" := by
  decide

theorem except_bind_ok {A B : Type} (a : A) (f : A → Except String B) :
    ((Except.ok a : Except String A) >>= f) = f a := rfl

theorem except_bind_err {A B : Type} (e : String) (f : A → Except String B) :
    ((Except.error e : Except String A) >>= f) = .error e := rfl

theorem export_fold_ok (write : String → DataFrame → Except String String) (t : YMD)
    (l : List (String × List Record × String))
    (ps : String × List Record × String → String) :
    ∀ acc : List (String × String),
      (∀ e ∈ l, export_to_csv write e.2.1 e.2.2 (some e.1) t = .ok (ps e)) →
      l.foldlM
        (fun results entry =>
          (export_to_csv write entry.2.1 entry.2.2 (some entry.1) t).map
            (fun p => results ++ [(entry.1, p)]))
        acc
      = .ok (acc ++ l.map (fun e => (e.1, ps e))) := by
  induction l with
  | nil =>
    intro acc h
    show (pure acc : Except String (List (String × String))) = _
    rw [List.map_nil, List.append_nil]
    rfl
  | cons e tl ih =>
    intro acc h
    rw [List.foldlM_cons]
    have hstep : (export_to_csv write e.2.1 e.2.2 (some e.1) t).map
        (fun p => acc ++ [(e.1, p)]) = .ok (acc ++ [(e.1, ps e)]) := by
      rw [h e (by simp)]
      rfl
    rw [hstep, except_bind_ok]
    rw [ih (acc ++ [(e.1, ps e)]) (fun x hx => h x (List.mem_cons_of_mem _ hx))]
    simp

theorem export_fold_err (write : String → DataFrame → Except String String) (t : YMD)
    (pre : List (String × List Record × String))
    (ps : String × List Record × String → String) :
    ∀ (acc : List (String × String)) (nm : String) (recs : List Record) (fn emsg : String)
      (post : List (String × List Record × String)),
      (∀ e ∈ pre, export_to_csv write e.2.1 e.2.2 (some e.1) t = .ok (ps e)) →
      export_to_csv write recs fn (some nm) t = .error emsg →
      (pre ++ (nm, recs, fn) :: post).foldlM
        (fun results entry =>
          (export_to_csv write entry.2.1 entry.2.2 (some entry.1) t).map
            (fun p => results ++ [(entry.1, p)]))
        acc
      = .error emsg := by
  induction pre with
  | nil =>
    intro acc nm recs fn emsg post hpre hbad
    rw [List.nil_append, List.foldlM_cons]
    have hstep : (export_to_csv write recs fn (some nm) t).map
        (fun p => acc ++ [(nm, p)]) = .error emsg := by
      rw [hbad]
      rfl
    rw [hstep, except_bind_err]
  | cons e tl ih =>
    intro acc nm recs fn emsg post hpre hbad
    rw [List.cons_append, List.foldlM_cons]
    have hstep : (export_to_csv write e.2.1 e.2.2 (some e.1) t).map
        (fun p => acc ++ [(e.1, p)]) = .ok (acc ++ [(e.1, ps e)]) := by
      rw [hpre e (by simp)]
      rfl
    rw [hstep, except_bind_ok]
    exact ih (acc ++ [(e.1, ps e)]) nm recs fn emsg post
      (fun x hx => hpre x (List.mem_cons_of_mem _ hx)) hbad

/-- C8 amended: entries are processed sequentially in order; when every
entry succeeds, the returned mapping has exactly one (name, path) pair
per entry in order; a failing entry makes the whole batch return that
failure, so later entries are not attempted and no mapping — not even
of the earlier successes — is returned. -/
theorem C8_batch_abort_on_failure (write : String → DataFrame → Except String String)
    (t : YMD) :
    (∀ (datasets : List (String × List Record × String))
        (ps : String × List Record × String → String),
      (∀ e ∈ datasets, export_to_csv write e.2.1 e.2.2 (some e.1) t = .ok (ps e)) →
      export_many_to_csv write datasets t = .ok (datasets.map (fun e => (e.1, ps e))))
    ∧ (∀ (pre post : List (String × List Record × String))
        (ps : String × List Record × String → String)
        (nm : String) (recs : List Record) (fn emsg : String),
      (∀ e ∈ pre, export_to_csv write e.2.1 e.2.2 (some e.1) t = .ok (ps e)) →
      export_to_csv write recs fn (some nm) t = .error emsg →
      export_many_to_csv write (pre ++ (nm, recs, fn) :: post) t = .error emsg) := by
  constructor
  · intro datasets ps h
    unfold export_many_to_csv
    rw [export_fold_ok write t datasets ps [] h]
    simp
  · intro pre post ps nm recs fn emsg hpre hbad
    unfold export_many_to_csv
    exact export_fold_err write t pre ps [] nm recs fn emsg post hpre hbad

/-- C8 amended witness. -/
theorem C8_batch_abort_on_failure_witness :
    export_many_to_csv writeFailA
        [("work_packages", ([[("wp_id", Value.int 1)]], "b.csv"))] ⟨2024, 1, 1⟩
      = .ok [("work_packages", "b.csv")]
    ∧ export_many_to_csv writeFailA
        [("work_packages", ([[("wp_id", Value.int 1)]], "b.csv")),
         ("projects", ([[("project_name", Value.str "P")]], "a.csv")),
         ("projects2", ([[("project_name", Value.str "Q")]], "c.csv"))] ⟨2024, 1, 1⟩
      = .error "disk full" := by
  constructor
  · exact (C8_batch_abort_on_failure writeFailA ⟨2024, 1, 1⟩).1
      [("work_packages", ([[("wp_id", Value.int 1)]], "b.csv"))]
      (fun _ => "b.csv") (by decide)
  · exact (C8_batch_abort_on_failure writeFailA ⟨2024, 1, 1⟩).2
      [("work_packages", ([[("wp_id", Value.int 1)]], "b.csv"))]
      [("projects2", ([[("project_name", Value.str "Q")]], "c.csv"))]
      (fun _ => "b.csv") "projects" [[("project_name", Value.str "P")]] "a.csv" "disk full"
      (by decide) (by decide)

/-! ## Decimal rendering round-trips through parsing -/

theorem toDigitChar_isDigit (d : Nat) : (toDigitChar d).isDigit = true := by
  unfold toDigitChar
  split <;> rfl

theorem digitVal_toDigitChar (d : Nat) (h : d < 10) : digitVal (toDigitChar d) = d := by
  interval_cases d <;> rfl

theorem foldl_digit_append (l : List Char) (c : Char) (a : Nat) :
    (l ++ [c]).foldl (fun a c => a * 10 + digitVal c) a
      = (l.foldl (fun a c => a * 10 + digitVal c) a) * 10 + digitVal c := by
  rw [List.foldl_append]
  rfl

theorem natToCharsAux_parse :
    ∀ fuel n a : Nat, n ≤ fuel →
      ∃ k, (natToCharsAux fuel n).foldl (fun a c => a * 10 + digitVal c) a = a * 10 ^ k + n := by
  intro fuel
  induction fuel with
  | zero =>
    intro n a h
    have hn : n = 0 := Nat.le_zero.mp h
    subst hn
    exact ⟨0, by simp [natToCharsAux]⟩
  | succ f ih =>
    intro n a h
    cases n with
    | zero => exact ⟨0, by simp [natToCharsAux]⟩
    | succ m =>
      have hlt : (m + 1) / 10 < m + 1 := Nat.div_lt_self (Nat.succ_pos m) (by decide)
      have hle : (m + 1) / 10 ≤ f := by omega
      obtain ⟨k, hk⟩ := ih ((m + 1) / 10) a hle
      refine ⟨k + 1, ?goal⟩
      show ((natToCharsAux f ((m + 1) / 10)) ++ [toDigitChar ((m + 1) % 10)]).foldl
        (fun a c => a * 10 + digitVal c) a = a * 10 ^ (k + 1) + (m + 1)
      rw [foldl_digit_append, hk, digitVal_toDigitChar _ (Nat.mod_lt _ (by decide))]
      have hexp : (a * 10 ^ k + (m + 1) / 10) * 10 + (m + 1) % 10
          = a * (10 ^ k * 10) + ((m + 1) / 10 * 10 + (m + 1) % 10) := by ring
      have hdm : (m + 1) / 10 * 10 + (m + 1) % 10 = m + 1 := by omega
      rw [hexp, hdm, pow_succ]

theorem parseNat_natChars (n : Nat) : parseNatChars (natChars n) = n := by
  unfold natChars
  by_cases h : n = 0
  · subst h
    rfl
  · rw [if_neg h]
    obtain ⟨k, hk⟩ := natToCharsAux_parse n n 0 (Nat.le_refl n)
    unfold parseNatChars
    rw [hk]
    simp

theorem natToCharsAux_digits :
    ∀ fuel n : Nat, ∀ c ∈ natToCharsAux fuel n, c.isDigit = true := by
  intro fuel
  induction fuel with
  | zero =>
    intro n c hc
    cases n with
    | zero =>
      rw [show natToCharsAux 0 0 = [] from rfl] at hc
      cases hc
    | succ m =>
      rw [show natToCharsAux 0 (m + 1) = [] from rfl] at hc
      cases hc
  | succ f ih =>
    intro n c hc
    cases n with
    | zero =>
      rw [show natToCharsAux (f + 1) 0 = [] from rfl] at hc
      cases hc
    | succ m =>
      rw [show natToCharsAux (f + 1) (m + 1)
          = natToCharsAux f ((m + 1) / 10) ++ [toDigitChar ((m + 1) % 10)] from rfl] at hc
      rcases List.mem_append.mp hc with hm | hm
      · exact ih _ c hm
      · rw [List.mem_singleton.mp hm]
        exact toDigitChar_isDigit _

theorem natChars_digits (n : Nat) : ∀ c ∈ natChars n, c.isDigit = true := by
  unfold natChars
  by_cases h : n = 0
  · subst h
    intro c hc
    rw [if_pos rfl] at hc
    rw [List.mem_singleton.mp hc]
    rfl
  · rw [if_neg h]
    exact natToCharsAux_digits n n

theorem natChars_ne_nil (n : Nat) : natChars n ≠ [] := by
  unfold natChars
  by_cases h : n = 0
  · subst h
    simp
  · rw [if_neg h]
    cases n with
    | zero => exact absurd rfl h
    | succ m =>
      rw [show natToCharsAux (m + 1) (m + 1)
          = natToCharsAux m ((m + 1) / 10) ++ [toDigitChar ((m + 1) % 10)] from rfl]
      simp

theorem pad2_digits (n : Nat) : ∀ c ∈ pad2 n, c.isDigit = true := by
  unfold pad2
  by_cases h : n < 10
  · rw [if_pos h]
    intro c hc
    rcases List.mem_cons.mp hc with rfl | hm
    · rfl
    · exact natChars_digits n c hm
  · rw [if_neg h]
    exact natChars_digits n

theorem pad2_ne_nil (n : Nat) : pad2 n ≠ [] := by
  unfold pad2
  by_cases h : n < 10
  · rw [if_pos h]
    simp
  · rw [if_neg h]
    exact natChars_ne_nil n

theorem parseNat_pad2 (n : Nat) : parseNatChars (pad2 n) = n := by
  unfold pad2
  by_cases h : n < 10
  · rw [if_pos h]
    show List.foldl (fun a c => a * 10 + digitVal c) (0 * 10 + digitVal '0') (natChars n) = n
    rw [show (0 * 10 + digitVal '0') = 0 from rfl]
    exact parseNat_natChars n
  · rw [if_neg h]
    exact parseNat_natChars n

theorem isDigit_ne (c : Char) (d : Char) (hc : c.isDigit = true) (hd : d.isDigit = false) :
    c ≠ d := fun h => by rw [h, hd] at hc; cases hc

theorem isIntChars_intChars (n : Int) : isIntChars (intChars n) = true := by
  unfold intChars
  by_cases h : n < 0
  · rw [if_pos h]
    show isIntChars ('-' :: natChars n.natAbs) = true
    simp only [isIntChars]
    rw [if_pos trivial]
    have h1 : (natChars n.natAbs).isEmpty = false := by
      cases hc : natChars n.natAbs with
      | nil => exact absurd hc (natChars_ne_nil _)
      | cons a l => rfl
    rw [h1]
    simp only [Bool.not_false, Bool.true_and]
    exact List.all_eq_true.mpr (natChars_digits n.natAbs)
  · rw [if_neg h]
    obtain ⟨c0, cs, hc⟩ := List.exists_cons_of_ne_nil (natChars_ne_nil n.natAbs)
    rw [hc]
    simp only [isIntChars]
    have hdig : c0.isDigit = true := by
      apply natChars_digits n.natAbs
      rw [hc]
      simp
    rw [if_neg (isDigit_ne c0 '-' hdig rfl)]
    rw [← hc]
    exact List.all_eq_true.mpr (natChars_digits n.natAbs)

theorem parseIntChars_intChars (n : Int) : parseIntChars (intChars n) = n := by
  unfold intChars
  by_cases h : n < 0
  · rw [if_pos h]
    show parseIntChars ('-' :: natChars n.natAbs) = n
    simp only [parseIntChars]
    rw [if_pos trivial, parseNat_natChars]
    omega
  · rw [if_neg h]
    obtain ⟨c0, cs, hc⟩ := List.exists_cons_of_ne_nil (natChars_ne_nil n.natAbs)
    rw [hc]
    simp only [parseIntChars]
    have hdig : c0.isDigit = true := by
      apply natChars_digits n.natAbs
      rw [hc]
      simp
    rw [if_neg (isDigit_ne c0 '-' hdig rfl), ← hc, parseNat_natChars]
    omega

theorem intChars_ne_nil (n : Int) : intChars n ≠ [] := by
  unfold intChars
  by_cases h : n < 0
  · rw [if_pos h]
    simp
  · rw [if_neg h]
    exact natChars_ne_nil n.natAbs

/-! ## Splitting and ISO date/timestamp round-trips -/

theorem splitOnChar_not_mem (sep : Char) (l : List Char) (h : sep ∉ l) :
    splitOnChar sep l = [l] := by
  induction l with
  | nil => rfl
  | cons c t ih =>
    have hct : sep ∉ t := fun hm => h (List.mem_cons_of_mem _ hm)
    have hcc : c ≠ sep := fun hc => h (hc ▸ List.mem_cons_self c t)
    simp only [splitOnChar]
    rw [ih hct, if_neg hcc]
    rfl

theorem splitOnChar_append (sep : Char) (a b : List Char) (ha : sep ∉ a) :
    splitOnChar sep (a ++ sep :: b) = a :: splitOnChar sep b := by
  induction a with
  | nil =>
    show splitOnChar sep (sep :: b) = [] :: splitOnChar sep b
    simp only [splitOnChar]
    rw [if_pos trivial]
  | cons c t ih =>
    have hct : sep ∉ t := fun hm => ha (List.mem_cons_of_mem _ hm)
    have hcc : c ≠ sep := fun hc => ha (hc ▸ List.mem_cons_self c t)
    show splitOnChar sep (c :: (t ++ sep :: b)) = (c :: t) :: splitOnChar sep b
    simp only [splitOnChar]
    rw [ih hct, if_neg hcc]
    rfl

theorem not_digit_not_mem (l : List Char) (hall : ∀ c ∈ l, c.isDigit = true) (x : Char)
    (hx : x.isDigit = false) : x ∉ l := fun h => by
  rw [hall x h] at hx
  cases hx

theorem dateChars_mem (d : YMD) : ∀ c ∈ dateChars d, c.isDigit = true ∨ c = '-' := by
  intro c hc
  unfold dateChars at hc
  rcases List.mem_append.mp hc with hm | hm
  · exact Or.inl (natChars_digits _ c hm)
  · rcases List.mem_cons.mp hm with rfl | hm2
    · exact Or.inr rfl
    · rcases List.mem_append.mp hm2 with hm3 | hm4
      · exact Or.inl (pad2_digits _ c hm3)
      · rcases List.mem_cons.mp hm4 with rfl | hm5
        · exact Or.inr rfl
        · exact Or.inl (pad2_digits _ c hm5)

theorem timeChars_mem (h m s : Nat) :
    ∀ c ∈ pad2 h ++ (':' :: (pad2 m ++ (':' :: pad2 s))), c.isDigit = true ∨ c = ':' := by
  intro c hc
  rcases List.mem_append.mp hc with hm1 | hm1
  · exact Or.inl (pad2_digits _ c hm1)
  · rcases List.mem_cons.mp hm1 with rfl | hm2
    · exact Or.inr rfl
    · rcases List.mem_append.mp hm2 with hm3 | hm4
      · exact Or.inl (pad2_digits _ c hm3)
      · rcases List.mem_cons.mp hm4 with rfl | hm5
        · exact Or.inr rfl
        · exact Or.inl (pad2_digits _ c hm5)

theorem dateChars_not_mem_of (d : YMD) (x : Char) (hx : x.isDigit = false) (hd : x ≠ '-') :
    x ∉ dateChars d := fun h => by
  rcases dateChars_mem d x h with h1 | h1
  · rw [h1] at hx
    cases hx
  · exact hd h1

theorem timeChars_not_mem_of (h m s : Nat) (x : Char) (hx : x.isDigit = false)
    (hc : x ≠ ':') : x ∉ pad2 h ++ (':' :: (pad2 m ++ (':' :: pad2 s))) := fun hmem => by
  rcases timeChars_mem h m s x hmem with h1 | h1
  · rw [h1] at hx
    cases hx
  · exact hc h1

theorem stripZ_no_Z (l : List Char) (h : ∀ c ∈ l, c ≠ 'Z') : stripZ l = l := by
  unfold stripZ
  cases hg : l.getLast? with
  | none => simp [hg]
  | some c =>
    have hc : c ∈ l := by
      obtain ⟨hne, hx⟩ := List.mem_getLast?_eq_getLast (x := c) hg
      rw [hx]
      exact List.getLast_mem hne
    rw [if_neg (by
      intro heq
      exact h c hc (Option.some.inj heq))]

theorem isEmpty_false_of_ne_nil {A : Type} (l : List A) (h : l ≠ []) : l.isEmpty = false := by
  cases l with
  | nil => exact absurd rfl h
  | cons a t => rfl

theorem parseDateChars_dateChars (d : YMD) (h : validYMD d = true) :
    parseDateChars (dateChars d) = some d := by
  have hdash1 : ('-' : Char) ∉ natChars d.year :=
    not_digit_not_mem _ (natChars_digits _) '-' rfl
  have hdash2 : ('-' : Char) ∉ pad2 d.month :=
    not_digit_not_mem _ (pad2_digits _) '-' rfl
  have hdash3 : ('-' : Char) ∉ pad2 d.day :=
    not_digit_not_mem _ (pad2_digits _) '-' rfl
  have hsplit : splitOnChar '-' (dateChars d) = [natChars d.year, pad2 d.month, pad2 d.day] := by
    unfold dateChars
    rw [splitOnChar_append '-' (natChars d.year) _ hdash1,
      splitOnChar_append '-' (pad2 d.month) _ hdash2,
      splitOnChar_not_mem '-' (pad2 d.day) hdash3]
  unfold parseDateChars
  rw [hsplit]
  show (if !(natChars d.year).isEmpty && (natChars d.year).all Char.isDigit &&
        !(pad2 d.month).isEmpty && (pad2 d.month).all Char.isDigit &&
        !(pad2 d.day).isEmpty && (pad2 d.day).all Char.isDigit then
      (if validYMD ⟨parseNatChars (natChars d.year), parseNatChars (pad2 d.month),
          parseNatChars (pad2 d.day)⟩ = true then
        some ⟨parseNatChars (natChars d.year), parseNatChars (pad2 d.month),
          parseNatChars (pad2 d.day)⟩
      else none)
    else none) = some d
  rw [isEmpty_false_of_ne_nil _ (natChars_ne_nil d.year),
    isEmpty_false_of_ne_nil _ (pad2_ne_nil d.month),
    isEmpty_false_of_ne_nil _ (pad2_ne_nil d.day),
    List.all_eq_true.mpr (natChars_digits d.year),
    List.all_eq_true.mpr (pad2_digits d.month),
    List.all_eq_true.mpr (pad2_digits d.day)]
  rw [if_pos (by decide)]
  rw [parseNat_natChars, parseNat_pad2, parseNat_pad2]
  rw [if_pos h]

theorem parseTimeChars_timeChars (hh mm ss : Nat) (h1 : hh < 24) (h2 : mm < 60)
    (h3 : ss < 60) :
    parseTimeChars (pad2 hh ++ (':' :: (pad2 mm ++ (':' :: pad2 ss)))) = some (hh, mm, ss) := by
  have hc1 : (':' : Char) ∉ pad2 hh := not_digit_not_mem _ (pad2_digits _) ':' rfl
  have hc2 : (':' : Char) ∉ pad2 mm := not_digit_not_mem _ (pad2_digits _) ':' rfl
  have hc3 : (':' : Char) ∉ pad2 ss := not_digit_not_mem _ (pad2_digits _) ':' rfl
  have hsplit : splitOnChar ':' (pad2 hh ++ (':' :: (pad2 mm ++ (':' :: pad2 ss))))
      = [pad2 hh, pad2 mm, pad2 ss] := by
    rw [splitOnChar_append ':' (pad2 hh) _ hc1,
      splitOnChar_append ':' (pad2 mm) _ hc2,
      splitOnChar_not_mem ':' (pad2 ss) hc3]
  unfold parseTimeChars
  rw [hsplit]
  show (if !(pad2 hh).isEmpty && (pad2 hh).all Char.isDigit &&
        !(pad2 mm).isEmpty && (pad2 mm).all Char.isDigit &&
        !(pad2 ss).isEmpty && (pad2 ss).all Char.isDigit then
      (if parseNatChars (pad2 hh) < 24 && parseNatChars (pad2 mm) < 60 &&
          parseNatChars (pad2 ss) < 60 then
        some (parseNatChars (pad2 hh), parseNatChars (pad2 mm), parseNatChars (pad2 ss))
      else none)
    else none) = some (hh, mm, ss)
  rw [isEmpty_false_of_ne_nil _ (pad2_ne_nil hh),
    isEmpty_false_of_ne_nil _ (pad2_ne_nil mm),
    isEmpty_false_of_ne_nil _ (pad2_ne_nil ss),
    List.all_eq_true.mpr (pad2_digits hh),
    List.all_eq_true.mpr (pad2_digits mm),
    List.all_eq_true.mpr (pad2_digits ss)]
  rw [if_pos (by decide)]
  rw [parseNat_pad2, parseNat_pad2, parseNat_pad2]
  rw [if_pos (by
    simp only [Bool.and_eq_true, decide_eq_true_eq]
    exact ⟨⟨h1, h2⟩, h3⟩)]

theorem parseTSChars_dateChars (d : YMD) (h : validYMD d = true) :
    parseTSChars (dateChars d) = some ⟨d, 0, 0, 0⟩ := by
  have hz : stripZ (dateChars d) = dateChars d :=
    stripZ_no_Z _ (fun c hc => by
      rcases dateChars_mem d c hc with h1 | h1
      · exact isDigit_ne c 'Z' h1 rfl
      · rw [h1]
        decide)
  have hsp : splitOnChar ' ' (dateChars d) = [dateChars d] :=
    splitOnChar_not_mem _ _ (dateChars_not_mem_of d ' ' rfl (by decide))
  have hst : splitOnChar 'T' (dateChars d) = [dateChars d] :=
    splitOnChar_not_mem _ _ (dateChars_not_mem_of d 'T' rfl (by decide))
  unfold parseTSChars
  rw [hz, hsp]
  show (match splitOnChar 'T' (dateChars d) with
    | [d1] => (parseDateChars d1).map (fun d => (⟨d, 0, 0, 0⟩ : TS))
    | [d1, tc] => parseDateTimePair d1 tc
    | _ => none) = some ⟨d, 0, 0, 0⟩
  rw [hst]
  show (parseDateChars (dateChars d)).map (fun d => (⟨d, 0, 0, 0⟩ : TS)) = some ⟨d, 0, 0, 0⟩
  rw [parseDateChars_dateChars d h]
  rfl

theorem parseTSChars_tsChars (ts : TS) (h : validTS ts = true) :
    parseTSChars (tsChars ts) = some ts := by
  have hvd : validYMD ts.date = true := by
    unfold validTS at h
    simp only [Bool.and_eq_true] at h
    exact h.1.1.1
  have hbounds : ts.hour < 24 ∧ ts.minute < 60 ∧ ts.second < 60 := by
    unfold validTS at h
    simp only [Bool.and_eq_true, decide_eq_true_eq] at h
    exact ⟨h.1.1.2, h.1.2, h.2⟩
  have hz : stripZ (tsChars ts) = tsChars ts := by
    apply stripZ_no_Z
    intro c hc
    unfold tsChars at hc
    rcases List.mem_append.mp hc with hm | hm
    · rcases dateChars_mem ts.date c hm with h1 | h1
      · exact isDigit_ne c 'Z' h1 rfl
      · rw [h1]
        decide
    · rcases List.mem_cons.mp hm with rfl | hm2
      · decide
      · rcases timeChars_mem ts.hour ts.minute ts.second c hm2 with h1 | h1
        · exact isDigit_ne c 'Z' h1 rfl
        · rw [h1]
          decide
  have hsp : splitOnChar ' ' (tsChars ts)
      = [dateChars ts.date,
         pad2 ts.hour ++ (':' :: (pad2 ts.minute ++ (':' :: pad2 ts.second)))] := by
    unfold tsChars
    rw [splitOnChar_append ' ' (dateChars ts.date) _
      (dateChars_not_mem_of ts.date ' ' rfl (by decide)),
      splitOnChar_not_mem ' ' _
      (timeChars_not_mem_of ts.hour ts.minute ts.second ' ' rfl (by decide))]
  unfold parseTSChars
  rw [hz, hsp]
  show parseDateTimePair (dateChars ts.date)
      (pad2 ts.hour ++ (':' :: (pad2 ts.minute ++ (':' :: pad2 ts.second)))) = some ts
  unfold parseDateTimePair
  rw [parseDateChars_dateChars ts.date hvd,
    parseTimeChars_timeChars ts.hour ts.minute ts.second hbounds.1 hbounds.2.1 hbounds.2.2]

/-! ## CSV column inference on formatted normalized columns -/

theorem all_false_of_mem {A : Type} (p : A → Bool) (l : List A) (x : A) (hx : x ∈ l)
    (hpx : p x = false) : l.all p = false := by
  cases hall : l.all p with
  | false => rfl
  | true =>
    rw [List.all_eq_true.mp hall x hx] at hpx
    cases hpx

theorem dateChars_head (d : YMD) : ∃ c tl, dateChars d = c :: tl ∧ c.isDigit = true := by
  cases hn : natChars d.year with
  | nil => exact absurd hn (natChars_ne_nil d.year)
  | cons c tl' =>
    refine ⟨c, tl' ++ ('-' :: (pad2 d.month ++ ('-' :: pad2 d.day))), ?he, ?hd⟩
    · unfold dateChars
      rw [hn]
      rfl
    · exact natChars_digits d.year c (by rw [hn]; exact List.mem_cons_self _ _)

theorem tsChars_head (t : TS) : ∃ c tl, tsChars t = c :: tl ∧ c.isDigit = true := by
  obtain ⟨c, tl, h1, h2⟩ := dateChars_head t.date
  refine ⟨c, tl ++ (' ' :: (pad2 t.hour ++ (':' :: (pad2 t.minute ++ (':' :: pad2 t.second))))),
    ?he, h2⟩
  unfold tsChars
  rw [h1]
  rfl

theorem dateChars_ne_nil (d : YMD) : dateChars d ≠ [] := by
  obtain ⟨c, tl, h1, _⟩ := dateChars_head d
  rw [h1]
  exact List.cons_ne_nil c tl

theorem tsChars_ne_nil (t : TS) : tsChars t ≠ [] := by
  obtain ⟨c, tl, h1, _⟩ := tsChars_head t
  rw [h1]
  exact List.cons_ne_nil c tl

theorem dash_mem_dateChars (d : YMD) : '-' ∈ dateChars d := by
  unfold dateChars
  exact List.mem_append.mpr (Or.inr (List.mem_cons_self _ _))

theorem dash_mem_tsChars (t : TS) : '-' ∈ tsChars t := by
  unfold tsChars
  exact List.mem_append.mpr (Or.inl (dash_mem_dateChars t.date))

theorem isIntChars_false_head (l : List Char) (c : Char) (tl : List Char) (hl : l = c :: tl)
    (hc : c.isDigit = true) (x : Char) (hx : x ∈ l) (hxd : x.isDigit = false) :
    isIntChars l = false := by
  subst hl
  simp only [isIntChars]
  have hcd : c ≠ '-' := by
    intro he
    rw [he] at hc
    exact absurd hc (by decide)
  rw [if_neg hcd]
  exact all_false_of_mem _ _ x hx hxd

theorem isIntStr_dateStr (d : YMD) : isIntStr (String.mk (dateChars d)) = false := by
  obtain ⟨c, tl, h1, h2⟩ := dateChars_head d
  show isIntChars (dateChars d) = false
  exact isIntChars_false_head _ c tl h1 h2 '-' (dash_mem_dateChars d) (by decide)

theorem isIntStr_tsStr (t : TS) : isIntStr (String.mk (tsChars t)) = false := by
  obtain ⟨c, tl, h1, h2⟩ := tsChars_head t
  show isIntChars (tsChars t) = false
  exact isIntChars_false_head _ c tl h1 h2 '-' (dash_mem_tsChars t) (by decide)

theorem mk_not_boolTok (l : List Char) (c : Char) (tl : List Char) (hl : l = c :: tl)
    (hc : c.isDigit = true) :
    ((String.mk l == "True") || (String.mk l == "False")) = false := by
  have h1 : String.mk l ≠ "True" := by
    intro he
    have hd : l = ['T', 'r', 'u', 'e'] := congrArg String.data he
    rw [hl] at hd
    injection hd with hd1 _
    rw [hd1] at hc
    exact absurd hc (by decide)
  have h2 : String.mk l ≠ "False" := by
    intro he
    have hd : l = ['F', 'a', 'l', 's', 'e'] := congrArg String.data he
    rw [hl] at hd
    injection hd with hd1 _
    rw [hd1] at hc
    exact absurd hc (by decide)
  rw [beq_eq_false_iff_ne.mpr h1, beq_eq_false_iff_ne.mpr h2]
  rfl

/-! ## Decimal parsing and NA-token facts for the CSV reader -/

theorem not_true_of_false {b : Bool} (h : b = false) : ¬(b = true) := fun hh => by
  rw [h] at hh
  cases hh

theorem splitOnChar_ne_nil (sep : Char) (l : List Char) : splitOnChar sep l ≠ [] := by
  cases l with
  | nil => exact List.cons_ne_nil _ _
  | cons c t =>
    simp only [splitOnChar]
    split
    · exact List.cons_ne_nil _ _
    · exact List.cons_ne_nil _ _

theorem splitOnChar_eq_single (sep : Char) :
    ∀ l a : List Char, splitOnChar sep l = [a] → l = a := by
  intro l
  induction l with
  | nil =>
    intro a h
    simp only [splitOnChar] at h
    injection h with h1 _
  | cons c t ih =>
    intro a h
    simp only [splitOnChar] at h
    by_cases hc : c = sep
    · rw [if_pos hc] at h
      injection h with h1 h2
      exact absurd h2 (splitOnChar_ne_nil sep t)
    · rw [if_neg hc] at h
      injection h with h1 h2
      have hr : splitOnChar sep t = [(splitOnChar sep t).headD []] := by
        cases hrr : splitOnChar sep t with
        | nil => exact absurd hrr (splitOnChar_ne_nil sep t)
        | cons x xs =>
          have h2' : xs = [] := by
            rw [hrr] at h2
            exact h2
          rw [h2']
          rfl
      have ht : t = (splitOnChar sep t).headD [] := ih _ hr
      rw [← h1]
      exact congrArg (fun z => c :: z) ht

theorem splitOnChar_eq_pair (sep : Char) :
    ∀ l a b : List Char, splitOnChar sep l = [a, b] → l = a ++ sep :: b := by
  intro l
  induction l with
  | nil =>
    intro a b h
    simp only [splitOnChar] at h
    injection h with h1 h2
    cases h2
  | cons c t ih =>
    intro a b h
    simp only [splitOnChar] at h
    by_cases hc : c = sep
    · rw [if_pos hc] at h
      injection h with h1 h2
      have ht : t = b := splitOnChar_eq_single sep t b h2
      rw [← h1, hc, ht]
      rfl
    · rw [if_neg hc] at h
      injection h with h1 h2
      have hr : splitOnChar sep t = (splitOnChar sep t).headD [] :: [b] := by
        cases hrr : splitOnChar sep t with
        | nil => exact absurd hrr (splitOnChar_ne_nil sep t)
        | cons x xs =>
          have h2' : xs = [b] := by
            rw [hrr] at h2
            exact h2
          rw [h2']
          rfl
      have ht : t = (splitOnChar sep t).headD [] ++ sep :: b := ih _ _ hr
      rw [← h1]
      show c :: t = (c :: (splitOnChar sep t).headD []) ++ sep :: b
      rw [List.cons_append]
      exact congrArg (fun z => c :: z) ht

theorem parseDecCore_chars (m : List Char) (p : Nat × Nat) (h : parseDecCore m = some p) :
    ∀ c ∈ m, c.isDigit = true ∨ c = '.' := by
  cases hsp : splitOnChar '.' m with
  | nil =>
    have heq : parseDecCore m = none := by
      unfold parseDecCore
      rw [hsp]
    rw [heq] at h
    cases h
  | cons ip rest =>
    cases rest with
    | nil =>
      have heq : parseDecCore m
          = (if !ip.isEmpty && ip.all Char.isDigit then
              some (parseNatChars ip, 0) else none) := by
        unfold parseDecCore
        rw [hsp]
      rw [heq] at h
      cases hcond : !ip.isEmpty && ip.all Char.isDigit with
      | false =>
        rw [hcond] at h
        simp only [Bool.false_eq_true, if_false] at h
        cases h
      | true =>
        have hcond' := hcond
        simp only [Bool.and_eq_true] at hcond'
        have hm : m = ip := splitOnChar_eq_single '.' m ip hsp
        intro c hcmem
        rw [hm] at hcmem
        exact Or.inl (List.all_eq_true.mp hcond'.2 c hcmem)
    | cons fp rest2 =>
      cases rest2 with
      | nil =>
        have heq : parseDecCore m
            = (if !ip.isEmpty && ip.all Char.isDigit && fp.all Char.isDigit then
                some (parseNatChars ip * 10 ^ fp.length + parseNatChars fp, fp.length)
              else none) := by
          unfold parseDecCore
          rw [hsp]
        rw [heq] at h
        cases hcond : !ip.isEmpty && ip.all Char.isDigit && fp.all Char.isDigit with
        | false =>
          rw [hcond] at h
          simp only [Bool.false_eq_true, if_false] at h
          cases h
        | true =>
          have hcond' := hcond
          simp only [Bool.and_eq_true] at hcond'
          have hm : m = ip ++ '.' :: fp := splitOnChar_eq_pair '.' m ip fp hsp
          intro c hcmem
          rw [hm] at hcmem
          rcases List.mem_append.mp hcmem with hm1 | hm1
          · exact Or.inl (List.all_eq_true.mp hcond'.1.2 c hm1)
          · rcases List.mem_cons.mp hm1 with rfl | hm2
            · exact Or.inr rfl
            · exact Or.inl (List.all_eq_true.mp hcond'.2 c hm2)
      | cons x xs =>
        have heq : parseDecCore m = none := by
          unfold parseDecCore
          rw [hsp]
        rw [heq] at h
        cases h

theorem parseDec_chars (l : List Char) (p : Int × Nat) (h : parseDecChars l = some p) :
    ∀ c ∈ l, c.isDigit = true ∨ c = '.' ∨ c = '-' := by
  cases l with
  | nil =>
    simp only [parseDecChars] at h
    cases h
  | cons c0 t =>
    simp only [parseDecChars] at h
    by_cases hc : c0 = '-'
    · rw [if_pos hc] at h
      cases hcore : parseDecCore t with
      | none =>
        rw [hcore] at h
        cases h
      | some q =>
        intro c hcmem
        rcases List.mem_cons.mp hcmem with rfl | hmem
        · exact Or.inr (Or.inr hc)
        · rcases parseDecCore_chars t q hcore c hmem with h1 | h1
          · exact Or.inl h1
          · exact Or.inr (Or.inl h1)
    · rw [if_neg hc] at h
      cases hcore : parseDecCore (c0 :: t) with
      | none =>
        rw [hcore] at h
        cases h
      | some q =>
        intro c hcmem
        rcases parseDecCore_chars (c0 :: t) q hcore c hcmem with h1 | h1
        · exact Or.inl h1
        · exact Or.inr (Or.inl h1)

theorem parseDecCore_natChars (a : Nat) : parseDecCore (natChars a) = some (a, 0) := by
  have hdot : '.' ∉ natChars a := by
    intro hm
    exact absurd (natChars_digits a '.' hm) (by decide)
  unfold parseDecCore
  rw [splitOnChar_not_mem '.' (natChars a) hdot]
  show (if !(natChars a).isEmpty && (natChars a).all Char.isDigit then
      some (parseNatChars (natChars a), 0) else none) = some (a, 0)
  rw [isEmpty_false_of_ne_nil _ (natChars_ne_nil a),
    List.all_eq_true.mpr (natChars_digits a)]
  rw [if_pos (by decide)]
  rw [parseNat_natChars]

theorem parseDecChars_intChars (n : Int) : parseDecChars (intChars n) = some (n, 0) := by
  by_cases hn : n < 0
  · have hrep : intChars n = '-' :: natChars n.natAbs := by
      unfold intChars
      rw [if_pos hn]
    rw [hrep]
    simp only [parseDecChars]
    rw [if_pos trivial, parseDecCore_natChars]
    show some (-(n.natAbs : Int), 0) = some (n, 0)
    have h1 : -(n.natAbs : Int) = n := by omega
    rw [h1]
  · have hrep : intChars n = natChars n.natAbs := by
      unfold intChars
      rw [if_neg hn]
    rw [hrep]
    cases hc : natChars n.natAbs with
    | nil => exact absurd hc (natChars_ne_nil _)
    | cons c tl =>
      have hcd : c.isDigit = true :=
        natChars_digits _ c (by rw [hc]; exact List.mem_cons_self _ _)
      have hcne : c ≠ '-' := fun he => absurd (he ▸ hcd) (by decide)
      simp only [parseDecChars]
      rw [if_neg hcne, ← hc, parseDecCore_natChars]
      show some ((n.natAbs : Int), 0) = some (n, 0)
      have h1 : (n.natAbs : Int) = n := by omega
      rw [h1]

theorem intChars_mem (n : Int) : ∀ c ∈ intChars n, c.isDigit = true ∨ c = '-' := by
  intro c hc
  unfold intChars at hc
  by_cases hn : n < 0
  · rw [if_pos hn] at hc
    rcases List.mem_cons.mp hc with rfl | hm
    · exact Or.inr rfl
    · exact Or.inl (natChars_digits _ c hm)
  · rw [if_neg hn] at hc
    exact Or.inl (natChars_digits _ c hc)

theorem tsChars_mem (t : TS) :
    ∀ c ∈ tsChars t, c.isDigit = true ∨ c = '-' ∨ c = ':' ∨ c = ' ' := by
  intro c hc
  unfold tsChars at hc
  rcases List.mem_append.mp hc with hm | hm
  · rcases dateChars_mem t.date c hm with h1 | h1
    · exact Or.inl h1
    · exact Or.inr (Or.inl h1)
  · rcases List.mem_cons.mp hm with rfl | hm2
    · exact Or.inr (Or.inr (Or.inr rfl))
    · rcases timeChars_mem t.hour t.minute t.second c hm2 with h1 | h1
      · exact Or.inl h1
      · exact Or.inr (Or.inr (Or.inl h1))

theorem naTokens_have_letter :
    ∀ x ∈ naTokens,
      x.data.any (fun c => !(c.isDigit || c = '-' || c = ':' || c = ' ' || c = '.')) = true := by
  decide

theorem not_mem_naTokens_of_chars (s : String)
    (h : ∀ c ∈ s.data, c.isDigit = true ∨ c = '-' ∨ c = ':' ∨ c = ' ' ∨ c = '.') :
    naTokens.contains s = false := by
  cases hc : naTokens.contains s with
  | false => rfl
  | true =>
    exfalso
    have hmem : s ∈ naTokens := List.mem_of_elem_eq_true hc
    rcases List.any_eq_true.mp (naTokens_have_letter s hmem) with ⟨c, hcmem, hbad⟩
    rcases h c hcmem with h1 | h1 | h1 | h1 | h1
    · rw [h1] at hbad
      simp at hbad
    · subst h1
      exact absurd hbad (by decide)
    · subst h1
      exact absurd hbad (by decide)
    · subst h1
      exact absurd hbad (by decide)
    · subst h1
      exact absurd hbad (by decide)

theorem isMissingStr_eq_false (s : String) (h1 : s ≠ "")
    (h2 : naTokens.contains s = false) : isMissingStr s = false := by
  unfold isMissingStr
  rw [beq_eq_false_iff_ne.mpr h1, h2]
  rfl

theorem isMissingStr_intStr (n : Int) : isMissingStr (String.mk (intChars n)) = false :=
  isMissingStr_eq_false _ (fun he => intChars_ne_nil n (congrArg String.data he))
    (not_mem_naTokens_of_chars _ (fun c hc => by
      rcases intChars_mem n c hc with h1 | h1
      · exact Or.inl h1
      · exact Or.inr (Or.inl h1)))

theorem isMissingStr_dateStr (d : YMD) : isMissingStr (String.mk (dateChars d)) = false :=
  isMissingStr_eq_false _ (fun he => dateChars_ne_nil d (congrArg String.data he))
    (not_mem_naTokens_of_chars _ (fun c hc => by
      rcases dateChars_mem d c hc with h1 | h1
      · exact Or.inl h1
      · exact Or.inr (Or.inl h1)))

theorem isMissingStr_tsStr (t : TS) : isMissingStr (String.mk (tsChars t)) = false :=
  isMissingStr_eq_false _ (fun he => tsChars_ne_nil t (congrArg String.data he))
    (not_mem_naTokens_of_chars _ (fun c hc => by
      rcases tsChars_mem t c hc with h1 | h1 | h1 | h1
      · exact Or.inl h1
      · exact Or.inr (Or.inl h1)
      · exact Or.inr (Or.inr (Or.inl h1))
      · exact Or.inr (Or.inr (Or.inr (Or.inl h1)))))

theorem parseDecChars_dateStr (d : YMD) : parseDecChars (dateChars d) = none := by
  have hdot : '.' ∉ dateChars d := by
    intro hm
    rcases dateChars_mem d '.' hm with h1 | h1
    · exact absurd h1 (by decide)
    · exact absurd h1 (by decide)
  have hcore : parseDecCore (dateChars d) = none := by
    unfold parseDecCore
    rw [splitOnChar_not_mem '.' (dateChars d) hdot]
    show (if !(dateChars d).isEmpty && (dateChars d).all Char.isDigit then
        some (parseNatChars (dateChars d), 0) else none) = none
    rw [all_false_of_mem Char.isDigit (dateChars d) '-' (dash_mem_dateChars d) (by decide),
      Bool.and_false]
    rfl
  obtain ⟨c, tl, h1, h2⟩ := dateChars_head d
  have hcne : c ≠ '-' := fun he => absurd (he ▸ h2) (by decide)
  rw [h1]
  simp only [parseDecChars]
  rw [if_neg hcne, ← h1, hcore]
  rfl

theorem parseDecChars_tsStr (t : TS) : parseDecChars (tsChars t) = none := by
  have hdot : '.' ∉ tsChars t := by
    intro hm
    rcases tsChars_mem t '.' hm with h1 | h1 | h1 | h1
    · exact absurd h1 (by decide)
    · exact absurd h1 (by decide)
    · exact absurd h1 (by decide)
    · exact absurd h1 (by decide)
  have hcore : parseDecCore (tsChars t) = none := by
    unfold parseDecCore
    rw [splitOnChar_not_mem '.' (tsChars t) hdot]
    show (if !(tsChars t).isEmpty && (tsChars t).all Char.isDigit then
        some (parseNatChars (tsChars t), 0) else none) = none
    rw [all_false_of_mem Char.isDigit (tsChars t) '-' (dash_mem_tsChars t) (by decide),
      Bool.and_false]
    rfl
  obtain ⟨c, tl, h1, h2⟩ := tsChars_head t
  have hcne : c ≠ '-' := fun he => absurd (he ▸ h2) (by decide)
  rw [h1]
  simp only [parseDecChars]
  rw [if_neg hcne, ← h1, hcore]
  rfl

theorem safeFree_components (s : String) (h : safeFreeString s = true) :
    (s == "") = false ∧ s.data.any plainChar = true ∧ (s == "True") = false
      ∧ (s == "False") = false ∧ naTokens.contains s = false := by
  revert h
  unfold safeFreeString
  cases s == "" <;> cases s.data.any plainChar <;> cases s == "True" <;>
    cases s == "False" <;> cases naTokens.contains s <;> decide

theorem isMissingStr_safe (s : String) (h : safeFreeString s = true) :
    isMissingStr s = false := by
  obtain ⟨h1, _, _, _, h5⟩ := safeFree_components s h
  exact isMissingStr_eq_false s (beq_eq_false_iff_ne.mp h1) h5

theorem parseDecChars_safe (s : String) (h : safeFreeString s = true) :
    parseDecChars s.data = none := by
  obtain ⟨_, h2, _, _, _⟩ := safeFree_components s h
  cases hp : parseDecChars s.data with
  | none => rfl
  | some p =>
    exfalso
    rcases List.any_eq_true.mp h2 with ⟨c, hcmem, hcp⟩
    rcases parseDec_chars s.data p hp c hcmem with h1 | h1 | h1
    · unfold plainChar at hcp
      rw [h1] at hcp
      simp at hcp
    · subst h1
      exact absurd hcp (by decide)
    · subst h1
      exact absurd hcp (by decide)

/-! ## CSV column inference on formatted normalized columns -/

theorem inferColumn_nulls (vs : List Value) (h : ∀ v ∈ vs, v = .null) :
    inferColumn (vs.map formatCell) = vs.map csvReadCell := by
  unfold inferColumn
  rw [if_pos (List.all_eq_true.mpr (fun s hs => by
    rcases List.mem_map.mp hs with ⟨v, hv, rfl⟩
    rw [h v hv]
    rfl))]
  rw [List.map_map]
  apply List.map_congr_left
  intro v hv
  rw [h v hv]
  rfl

theorem inferColumn_int (vs : List Value)
    (h : ∀ v ∈ vs, v = .null ∨ ∃ n, v = .int n) :
    inferColumn (vs.map formatCell) = vs.map csvReadCell := by
  by_cases hall : ∀ v ∈ vs, v = Value.null
  · exact inferColumn_nulls vs hall
  · have hex : ∃ v, v ∈ vs ∧ v ≠ Value.null := by
      by_contra hno
      push_neg at hno
      exact hall hno
    obtain ⟨v0, hv0, hv0ne⟩ := hex
    rcases h v0 hv0 with h0 | ⟨n0, h0⟩
    · exact absurd h0 hv0ne
    unfold inferColumn
    split
    · next hc1 =>
        exfalso
        have he := List.all_eq_true.mp hc1 (formatCell v0) (List.mem_map_of_mem _ hv0)
        rw [h0, show formatCell (Value.int n0) = String.mk (intChars n0) from rfl,
          isMissingStr_intStr n0] at he
        cases he
    · next hc1 =>
        split
        · rw [List.map_map]
          apply List.map_congr_left
          intro v hv
          rcases h v hv with rfl | ⟨n, rfl⟩
          · show (if isMissingStr "" = true then Value.null
                else match parseDecChars ("" : String).data with
                  | some p => canonFloat p.1 p.2
                  | none => Value.null) = Value.null
            rw [if_pos (by decide)]
          · show (if isMissingStr (String.mk (intChars n)) = true then Value.null
                else match parseDecChars (String.mk (intChars n)).data with
                  | some p => canonFloat p.1 p.2
                  | none => Value.null) = Value.int n
            rw [if_neg (not_true_of_false (isMissingStr_intStr n))]
            show (match parseDecChars (intChars n) with
              | some p => canonFloat p.1 p.2
              | none => Value.null) = Value.int n
            rw [parseDecChars_intChars n]
            rfl
        · next hc2 =>
            exfalso
            apply hc2
            apply List.all_eq_true.mpr
            intro s hs
            rcases List.mem_filter.mp hs with ⟨hsmem, hsne⟩
            rcases List.mem_map.mp hsmem with ⟨v, hv, rfl⟩
            rcases h v hv with rfl | ⟨n, rfl⟩
            · exact absurd hsne (by decide)
            · show (parseDecChars (formatCell (Value.int n)).data).isSome = true
              rw [show (formatCell (Value.int n)).data = intChars n from rfl,
                parseDecChars_intChars n]
              rfl

theorem inferColumn_date (vs : List Value)
    (h : ∀ v ∈ vs, v = .null ∨ ∃ d, v = .date d) :
    inferColumn (vs.map formatCell) = vs.map csvReadCell := by
  by_cases hall : ∀ v ∈ vs, v = Value.null
  · exact inferColumn_nulls vs hall
  · have hex : ∃ v, v ∈ vs ∧ v ≠ Value.null := by
      by_contra hno
      push_neg at hno
      exact hall hno
    obtain ⟨v0, hv0, hv0ne⟩ := hex
    rcases h v0 hv0 with h0 | ⟨d0, h0⟩
    · exact absurd h0 hv0ne
    unfold inferColumn
    split
    · next hc1 =>
        exfalso
        have he := List.all_eq_true.mp hc1 (formatCell v0) (List.mem_map_of_mem _ hv0)
        rw [h0, show formatCell (Value.date d0) = String.mk (dateChars d0) from rfl,
          isMissingStr_dateStr d0] at he
        cases he
    · next hc1 =>
        split
        · next hc2 =>
            exfalso
            have hmem : formatCell v0
                ∈ (vs.map formatCell).filter (fun s => !isMissingStr s) := by
              apply List.mem_filter.mpr
              refine ⟨List.mem_map_of_mem _ hv0, ?hne⟩
              rw [h0, show formatCell (Value.date d0) = String.mk (dateChars d0) from rfl,
                isMissingStr_dateStr d0]
              rfl
            have := List.all_eq_true.mp hc2 (formatCell v0) hmem
            rw [h0, show (formatCell (Value.date d0)).data = dateChars d0 from rfl,
              parseDecChars_dateStr d0] at this
            cases this
        · next hc2 =>
            split
            · next hc3 =>
                exfalso
                have := List.all_eq_true.mp hc3 (formatCell v0) (List.mem_map_of_mem _ hv0)
                rw [h0] at this
                obtain ⟨c, tl, he1, he2⟩ := dateChars_head d0
                rw [show formatCell (Value.date d0) = String.mk (dateChars d0) from rfl,
                  mk_not_boolTok (dateChars d0) c tl he1 he2] at this
                cases this
            · rw [List.map_map]
              apply List.map_congr_left
              intro v hv
              rcases h v hv with rfl | ⟨d, rfl⟩
              · show (if isMissingStr "" = true then Value.null
                    else Value.str "") = Value.null
                rw [if_pos (by decide)]
              · show (if isMissingStr (String.mk (dateChars d)) = true then Value.null
                    else Value.str (String.mk (dateChars d)))
                  = Value.str (String.mk (dateChars d))
                rw [if_neg (not_true_of_false (isMissingStr_dateStr d))]

theorem inferColumn_ts (vs : List Value)
    (h : ∀ v ∈ vs, v = .null ∨ ∃ t, v = .timestamp t) :
    inferColumn (vs.map formatCell) = vs.map csvReadCell := by
  by_cases hall : ∀ v ∈ vs, v = Value.null
  · exact inferColumn_nulls vs hall
  · have hex : ∃ v, v ∈ vs ∧ v ≠ Value.null := by
      by_contra hno
      push_neg at hno
      exact hall hno
    obtain ⟨v0, hv0, hv0ne⟩ := hex
    rcases h v0 hv0 with h0 | ⟨t0, h0⟩
    · exact absurd h0 hv0ne
    unfold inferColumn
    split
    · next hc1 =>
        exfalso
        have he := List.all_eq_true.mp hc1 (formatCell v0) (List.mem_map_of_mem _ hv0)
        rw [h0, show formatCell (Value.timestamp t0) = String.mk (tsChars t0) from rfl,
          isMissingStr_tsStr t0] at he
        cases he
    · next hc1 =>
        split
        · next hc2 =>
            exfalso
            have hmem : formatCell v0
                ∈ (vs.map formatCell).filter (fun s => !isMissingStr s) := by
              apply List.mem_filter.mpr
              refine ⟨List.mem_map_of_mem _ hv0, ?hne⟩
              rw [h0, show formatCell (Value.timestamp t0) = String.mk (tsChars t0) from rfl,
                isMissingStr_tsStr t0]
              rfl
            have := List.all_eq_true.mp hc2 (formatCell v0) hmem
            rw [h0, show (formatCell (Value.timestamp t0)).data = tsChars t0 from rfl,
              parseDecChars_tsStr t0] at this
            cases this
        · next hc2 =>
            split
            · next hc3 =>
                exfalso
                have := List.all_eq_true.mp hc3 (formatCell v0) (List.mem_map_of_mem _ hv0)
                rw [h0] at this
                obtain ⟨c, tl, he1, he2⟩ := tsChars_head t0
                rw [show formatCell (Value.timestamp t0) = String.mk (tsChars t0) from rfl,
                  mk_not_boolTok (tsChars t0) c tl he1 he2] at this
                cases this
            · rw [List.map_map]
              apply List.map_congr_left
              intro v hv
              rcases h v hv with rfl | ⟨t, rfl⟩
              · show (if isMissingStr "" = true then Value.null
                    else Value.str "") = Value.null
                rw [if_pos (by decide)]
              · show (if isMissingStr (String.mk (tsChars t)) = true then Value.null
                    else Value.str (String.mk (tsChars t)))
                  = Value.str (String.mk (tsChars t))
                rw [if_neg (not_true_of_false (isMissingStr_tsStr t))]

theorem inferColumn_bool (vs : List Value) (hne : vs ≠ [])
    (h : ∀ v ∈ vs, ∃ b, v = .bool b) :
    inferColumn (vs.map formatCell) = vs.map csvReadCell := by
  have hv0 : ∃ v, v ∈ vs := by
    cases vs with
    | nil => exact absurd rfl hne
    | cons a tl => exact ⟨a, List.mem_cons_self a tl⟩
  obtain ⟨v0, hv0⟩ := hv0
  obtain ⟨b0, h0⟩ := h v0 hv0
  unfold inferColumn
  split
  · next hc1 =>
      exfalso
      have he := List.all_eq_true.mp hc1 (formatCell v0) (List.mem_map_of_mem _ hv0)
      rw [h0] at he
      cases b0 <;> exact absurd he (by decide)
  · next hc1 =>
      split
      · next hc2 =>
          exfalso
          have hmem : formatCell v0
              ∈ (vs.map formatCell).filter (fun s => !isMissingStr s) := by
            apply List.mem_filter.mpr
            refine ⟨List.mem_map_of_mem _ hv0, ?hne⟩
            rw [h0]
            cases b0 <;> decide
          have := List.all_eq_true.mp hc2 (formatCell v0) hmem
          rw [h0] at this
          revert this
          cases b0 <;> decide
      · next hc2 =>
          split
          · rw [List.map_map]
            apply List.map_congr_left
            intro v hv
            obtain ⟨b, rfl⟩ := h v hv
            cases b <;> decide
          · next hc3 =>
              exfalso
              apply hc3
              apply List.all_eq_true.mpr
              intro s hs
              rcases List.mem_map.mp hs with ⟨v, hv, rfl⟩
              obtain ⟨b, rfl⟩ := h v hv
              cases b <;> decide

theorem inferColumn_free (vs : List Value)
    (h : ∀ v ∈ vs, v = .null ∨ ∃ s, v = .str s ∧ safeFreeString s = true) :
    inferColumn (vs.map formatCell) = vs.map csvReadCell := by
  by_cases hall : ∀ v ∈ vs, v = Value.null
  · exact inferColumn_nulls vs hall
  · have hex : ∃ v, v ∈ vs ∧ v ≠ Value.null := by
      by_contra hno
      push_neg at hno
      exact hall hno
    obtain ⟨v0, hv0, hv0ne⟩ := hex
    rcases h v0 hv0 with h0 | ⟨s0, h0, hsafe⟩
    · exact absurd h0 hv0ne
    have hmiss : isMissingStr s0 = false := isMissingStr_safe s0 hsafe
    unfold inferColumn
    split
    · next hc1 =>
        exfalso
        have he := List.all_eq_true.mp hc1 (formatCell v0) (List.mem_map_of_mem _ hv0)
        rw [h0, show formatCell (Value.str s0) = s0 from rfl, hmiss] at he
        cases he
    · next hc1 =>
        split
        · next hc2 =>
            exfalso
            have hmem : formatCell v0
                ∈ (vs.map formatCell).filter (fun s => !isMissingStr s) := by
              apply List.mem_filter.mpr
              refine ⟨List.mem_map_of_mem _ hv0, ?hne⟩
              rw [h0, show formatCell (Value.str s0) = s0 from rfl, hmiss]
              rfl
            have := List.all_eq_true.mp hc2 (formatCell v0) hmem
            rw [h0, show (formatCell (Value.str s0)).data = s0.data from rfl,
              parseDecChars_safe s0 hsafe] at this
            cases this
        · next hc2 =>
            split
            · next hc3 =>
                exfalso
                have := List.all_eq_true.mp hc3 (formatCell v0) (List.mem_map_of_mem _ hv0)
                rw [h0] at this
                obtain ⟨_, _, h3, h4, _⟩ := safeFree_components s0 hsafe
                revert this
                show ((s0 == "True") || (s0 == "False")) = true → False
                rw [h3, h4]
                exact fun hh => by cases hh
            · rw [List.map_map]
              apply List.map_congr_left
              intro v hv
              rcases h v hv with rfl | ⟨s, rfl, hsafe2⟩
              · show (if isMissingStr "" = true then Value.null
                    else Value.str "") = Value.null
                rw [if_pos (by decide)]
              · show (if isMissingStr s = true then Value.null else Value.str s) = Value.str s
                rw [if_neg (not_true_of_false (isMissingStr_safe s hsafe2))]

/-! ## Assembly lemmas for the CSV round trip -/

theorem range_getD (n j : Nat) (hj : j < n) (d : Nat) : (List.range n).getD j d = j := by
  rw [List.getD_eq_getElem (List.range n) d (by rw [List.length_range]; exact hj)]
  exact List.getElem_range _ _

theorem range_map_getD {A B : Type} (l : List A) (d : A) (f : A → B) :
    (List.range l.length).map (fun j => f (l.getD j d)) = l.map f := by
  induction l with
  | nil => rfl
  | cons a tl ih =>
    show (List.range (tl.length + 1)).map (fun j => f ((a :: tl).getD j d))
      = f a :: tl.map f
    rw [List.range_succ_eq_map, List.map_cons, List.map_map]
    have h2 : (List.range tl.length).map ((fun j => f ((a :: tl).getD j d)) ∘ Nat.succ)
        = tl.map f := by
      rw [← ih]
      apply List.map_congr_left
      intro j hj
      rfl
    rw [h2]
    rfl

theorem keys_map_pairs (C : List String) (w : String → Value) :
    (C.map (fun c => (c, w c))).map Prod.fst = C := by
  rw [List.map_map]
  have he : ∀ c ∈ C, (Prod.fst ∘ fun c' => (c', w c')) c = id c := fun c _ => rfl
  rw [List.map_congr_left he, List.map_id]

theorem addKeys_eq_append (r : Record) : ∀ acc : List String,
    (acc ++ r.map Prod.fst).Nodup → addKeys acc r = acc ++ r.map Prod.fst := by
  induction r with
  | nil =>
    intro acc _
    show acc = acc ++ []
    rw [List.append_nil]
  | cons kv tl ih =>
    intro acc h
    show addKeys (if kv.1 ∈ acc then acc else acc ++ [kv.1]) tl
      = acc ++ kv.1 :: tl.map Prod.fst
    have hk : kv.1 ∉ acc := by
      intro hmem
      exact (List.nodup_append.mp h).2.2 hmem (List.mem_cons_self _ _)
    have h' : ((acc ++ [kv.1]) ++ tl.map Prod.fst).Nodup := by
      rw [← List.append_cons]
      exact h
    rw [if_neg hk, ih (acc ++ [kv.1]) h', ← List.append_cons]

theorem addKeys_subset_id (r : Record) : ∀ acc : List String,
    (∀ kv ∈ r, kv.1 ∈ acc) → addKeys acc r = acc := by
  induction r with
  | nil => intro acc _; rfl
  | cons kv tl ih =>
    intro acc h
    show addKeys (if kv.1 ∈ acc then acc else acc ++ [kv.1]) tl = acc
    rw [if_pos (h kv (List.mem_cons_self _ _))]
    exact ih acc (fun kv' h' => h kv' (List.mem_cons_of_mem _ h'))

theorem unionKeys_const (C : List String) (hC : C.Nodup) (records : List Record)
    (hk : ∀ r ∈ records, r.map Prod.fst = C) (hne : records ≠ []) :
    unionKeys records = C := by
  cases records with
  | nil => exact absurd rfl hne
  | cons r0 tl =>
    show List.foldl addKeys (addKeys [] r0) tl = C
    have h0 : addKeys [] r0 = C := by
      rw [addKeys_eq_append r0 []
        (by rw [List.nil_append, hk r0 (List.mem_cons_self _ _)]; exact hC)]
      rw [List.nil_append, hk r0 (List.mem_cons_self _ _)]
    rw [h0]
    have hrest : ∀ tl' : List Record, (∀ r ∈ tl', r.map Prod.fst = C) →
        List.foldl addKeys C tl' = C := by
      intro tl'
      induction tl' with
      | nil => intro _; rfl
      | cons a l ihl =>
        intro hmem
        show List.foldl addKeys (addKeys C a) l = C
        rw [addKeys_subset_id a C (fun kv hkv => by
          rw [← hmem a (List.mem_cons_self _ _)]
          exact List.mem_map_of_mem Prod.fst hkv)]
        exact ihl (fun r hr => hmem r (List.mem_cons_of_mem _ hr))
    exact hrest tl (fun r hr => hk r (List.mem_cons_of_mem _ hr))

theorem lookupKey_pairs (C : List String) (w : String → Value) (c : String) (h : c ∈ C) :
    lookupKey (C.map (fun c' => (c', w c'))) c = w c := by
  induction C with
  | nil => cases h
  | cons c0 cs ih =>
    show (if c0 = c then w c0 else lookupKey (cs.map (fun c' => (c', w c'))) c) = w c
    by_cases hc : c0 = c
    · rw [if_pos hc, hc]
    · rw [if_neg hc]
      exact ih (by
        rcases List.mem_cons.mp h with h1 | h1
        · exact absurd h1.symm hc
        · exact h1)

/-- `read_csv().to_dict("records")` on the CSV text of a canonical
frame: every record carries every header key, dates and timestamps come
back as their rendered strings, all other cells verbatim, provided each
column's inference resolves as `csvReadCell` says. -/
theorem readCSV_canonical (C : List String) (recs : List Record) (g : Record → String → Value)
    (hcols : ∀ j, j < C.length →
      inferColumn (recs.map (fun r => formatCell (g r (C.getD j ""))))
        = recs.map (fun r => csvReadCell (g r (C.getD j "")))) :
    readCSVRecords C (recs.map (fun r => C.map (fun c => formatCell (g r c))))
      = recs.map (fun r => C.map (fun c => (c, csvReadCell (g r c)))) := by
  show (List.range (recs.map (fun r => C.map (fun c => formatCell (g r c)))).length).map
      (fun i => (List.range C.length).map (fun j =>
        (C.getD j "",
          (((List.range C.length).map (fun j' => inferColumn
            ((recs.map (fun r => C.map (fun c => formatCell (g r c)))).map
              (fun row => row.getD j' "")))).getD j []).getD i Value.null)))
    = recs.map (fun r => C.map (fun c => (c, csvReadCell (g r c))))
  rw [List.length_map]
  rw [← range_map_getD recs ([] : Record)
    (fun r => C.map (fun c => (c, csvReadCell (g r c))))]
  apply List.map_congr_left
  intro i hi
  have hi' : i < recs.length := List.mem_range.mp hi
  rw [← range_map_getD C ""
    (fun c => (c, csvReadCell (g (recs.getD i []) c)))]
  apply List.map_congr_left
  intro j hj
  have hj' : j < C.length := List.mem_range.mp hj
  have hcolj : ((List.range C.length).map (fun j' => inferColumn
        ((recs.map (fun r => C.map (fun c => formatCell (g r c)))).map
          (fun row => row.getD j' "")))).getD j []
      = recs.map (fun r => csvReadCell (g r (C.getD j ""))) := by
    rw [getD_map_lt (List.range C.length) _ j (by rw [List.length_range]; exact hj') [] 0,
      range_getD C.length j hj' 0]
    have hrows : (recs.map (fun r => C.map (fun c => formatCell (g r c)))).map
          (fun row => row.getD j "")
        = recs.map (fun r => formatCell (g r (C.getD j ""))) := by
      rw [List.map_map]
      apply List.map_congr_left
      intro r hr
      show (C.map (fun c => formatCell (g r c))).getD j "" = formatCell (g r (C.getD j ""))
      rw [getD_map_lt C _ j hj' "" ""]
    rw [hrows]
    exact hcols j hj'
  rw [hcolj, getD_map_lt recs _ i hi' Value.null ([] : Record)]

theorem toDatetimeCell_shape (v : Value) :
    toDatetimeCell v = .null
      ∨ ∃ t, toDatetimeCell v = .timestamp t ∧ validTS t = true := by
  cases v with
  | null => exact Or.inl rfl
  | int n => exact Or.inl rfl
  | bool b => exact Or.inl rfl
  | float num exp => exact Or.inl rfl
  | str s =>
    simp only [toDatetimeCell]
    cases hp : parseTSChars s.data with
    | none => exact Or.inl rfl
    | some t => exact Or.inr ⟨t, rfl, parseTSChars_valid _ _ hp⟩
  | date d =>
    simp only [toDatetimeCell]
    by_cases hv : validYMD d = true
    · refine Or.inr ⟨⟨d, 0, 0, 0⟩, by rw [if_pos hv], ?hv⟩
      unfold validTS
      simp [hv]
    · rw [if_neg hv]
      exact Or.inl rfl
  | timestamp t =>
    simp only [toDatetimeCell]
    by_cases hv : validTS t = true
    · exact Or.inr ⟨t, by rw [if_pos hv], hv⟩
    · rw [if_neg hv]
      exact Or.inl rfl

theorem toDatetimeCell_tsStr (ts : TS) (h : validTS ts = true) :
    toDatetimeCell (.str (String.mk (tsChars ts))) = .timestamp ts := by
  show (match parseTSChars (tsChars ts) with
    | some t => Value.timestamp t
    | none => Value.null) = Value.timestamp ts
  rw [parseTSChars_tsChars ts h]

theorem toDateCell_dateStr (d : YMD) (h : validYMD d = true) :
    toDateCell (.str (String.mk (dateChars d))) = .date d := by
  unfold toDateCell
  have hdt : toDatetimeCell (.str (String.mk (dateChars d)))
      = .timestamp ⟨d, 0, 0, 0⟩ := by
    show (match parseTSChars (dateChars d) with
      | some t => Value.timestamp t
      | none => Value.null) = Value.timestamp ⟨d, 0, 0, 0⟩
    rw [parseTSChars_dateChars d h]
  rw [hdt]

theorem toIntCellD_idem (v : Value) : toIntCellD (toIntCellD v) = toIntCellD v := by
  rcases toIntCellD_shape v with h | ⟨n, h⟩
  · rw [h]
    rfl
  · rw [h]
    rfl

theorem safeFreeCell_spec (v : Value) (h : safeFreeCell v = true) :
    v = Value.null ∨ ∃ s, v = Value.str s ∧ safeFreeString s = true := by
  cases v with
  | null => exact Or.inl rfl
  | str s => exact Or.inr ⟨s, rfl, h⟩
  | int n => cases h
  | bool b => cases h
  | float num exp => cases h
  | date d => cases h
  | timestamp t => cases h

theorem map_comp_eq {A B C2 : Type} (l : List A) (f : A → B) (g : B → C2) :
    l.map (fun x => g (f x)) = (l.map f).map g := by
  rw [List.map_map]
  rfl

theorem inferColumn_int' {A : Type} (l : List A) (f : A → Value)
    (h : ∀ x ∈ l, f x = Value.null ∨ ∃ n, f x = Value.int n) :
    inferColumn (l.map (fun x => formatCell (f x))) = l.map (fun x => csvReadCell (f x)) := by
  have h1 : l.map (fun x => formatCell (f x)) = (l.map f).map formatCell :=
    map_comp_eq l f formatCell
  have h2 : l.map (fun x => csvReadCell (f x)) = (l.map f).map csvReadCell :=
    map_comp_eq l f csvReadCell
  rw [h1, h2]
  apply inferColumn_int
  intro v hv
  rcases List.mem_map.mp hv with ⟨x, hx, rfl⟩
  exact h x hx

theorem inferColumn_date' {A : Type} (l : List A) (f : A → Value)
    (h : ∀ x ∈ l, f x = Value.null ∨ ∃ d, f x = Value.date d) :
    inferColumn (l.map (fun x => formatCell (f x))) = l.map (fun x => csvReadCell (f x)) := by
  have h1 : l.map (fun x => formatCell (f x)) = (l.map f).map formatCell :=
    map_comp_eq l f formatCell
  have h2 : l.map (fun x => csvReadCell (f x)) = (l.map f).map csvReadCell :=
    map_comp_eq l f csvReadCell
  rw [h1, h2]
  apply inferColumn_date
  intro v hv
  rcases List.mem_map.mp hv with ⟨x, hx, rfl⟩
  exact h x hx

theorem inferColumn_ts' {A : Type} (l : List A) (f : A → Value)
    (h : ∀ x ∈ l, f x = Value.null ∨ ∃ t, f x = Value.timestamp t) :
    inferColumn (l.map (fun x => formatCell (f x))) = l.map (fun x => csvReadCell (f x)) := by
  have h1 : l.map (fun x => formatCell (f x)) = (l.map f).map formatCell :=
    map_comp_eq l f formatCell
  have h2 : l.map (fun x => csvReadCell (f x)) = (l.map f).map csvReadCell :=
    map_comp_eq l f csvReadCell
  rw [h1, h2]
  apply inferColumn_ts
  intro v hv
  rcases List.mem_map.mp hv with ⟨x, hx, rfl⟩
  exact h x hx

theorem inferColumn_bool' {A : Type} (l : List A) (f : A → Value) (hne : l ≠ [])
    (h : ∀ x ∈ l, ∃ b, f x = Value.bool b) :
    inferColumn (l.map (fun x => formatCell (f x))) = l.map (fun x => csvReadCell (f x)) := by
  have h1 : l.map (fun x => formatCell (f x)) = (l.map f).map formatCell :=
    map_comp_eq l f formatCell
  have h2 : l.map (fun x => csvReadCell (f x)) = (l.map f).map csvReadCell :=
    map_comp_eq l f csvReadCell
  rw [h1, h2]
  apply inferColumn_bool
  · exact fun hmnil => hne (List.map_eq_nil_iff.mp hmnil)
  · intro v hv
    rcases List.mem_map.mp hv with ⟨x, hx, rfl⟩
    exact h x hx

theorem inferColumn_free' {A : Type} (l : List A) (f : A → Value)
    (h : ∀ x ∈ l, safeFreeCell (f x) = true) :
    inferColumn (l.map (fun x => formatCell (f x))) = l.map (fun x => csvReadCell (f x)) := by
  have h1 : l.map (fun x => formatCell (f x)) = (l.map f).map formatCell :=
    map_comp_eq l f formatCell
  have h2 : l.map (fun x => csvReadCell (f x)) = (l.map f).map csvReadCell :=
    map_comp_eq l f csvReadCell
  rw [h1, h2]
  apply inferColumn_free
  intro v hv
  rcases List.mem_map.mp hv with ⟨x, hx, rfl⟩
  exact safeFreeCell_spec (f x) (h x hx)

/-! ## Unfolding the pipeline cell functions at each schema column -/

theorem g7w_start (r : Record) : g7w r "start_date" = toDateCell (lookupKey r "start_date") :=
  rfl

theorem g7w_due (r : Record) : g7w r "due_date" = toDateCell (lookupKey r "due_date") := rfl

theorem g7w_created (r : Record) :
    g7w r "created_at" = toDatetimeCell (lookupKey r "created_at") := rfl

theorem g7w_updated (r : Record) :
    g7w r "updated_at" = toDatetimeCell (lookupKey r "updated_at") := rfl

theorem g7w_wpid (r : Record) : g7w r "wp_id" = toIntCellD (lookupKey r "wp_id") := rfl

theorem g7w_projid (r : Record) :
    g7w r "project_id" = toIntCellD (lookupKey r "project_id") := rfl

theorem g7w_done (r : Record) :
    g7w r "done_ratio" = toIntCellD (lookupKey r "done_ratio") := rfl

theorem g7w_free (r : Record) (c : String) (hc : c ∈ freeColumnsOf "work_packages") :
    g7w r c = lookupKey r c := by
  fin_cases hc <;> rfl

theorem gp_updated (r : Record) :
    gp r "updated_at" = toDatetimeCell (lookupKey r "updated_at") := rfl

theorem gp_free (r : Record) (c : String) (hc : c ∈ freeColumnsOf "projects") :
    gp r c = lookupKey r c := by
  fin_cases hc <;> rfl

theorem wpCellFn_ne (K : List String) (t : YMD) (r : Record) (c : String)
    (h : c ≠ "is_late") :
    wpCellFn K t r c = if c ∈ K then g7w r c else Value.null := by
  unfold wpCellFn
  rw [if_neg (fun hand => h hand.1)]

theorem wpCellFn_islate (K : List String) (t : YMD) (r : Record)
    (hdue : "due_date" ∈ K) :
    wpCellFn K t r "is_late" = Value.bool (lateFlag t r) := by
  unfold wpCellFn
  rw [if_pos ⟨rfl, hdue⟩]

/-! ## Recovery of coerced cells after the CSV round trip -/

theorem toDateCell_roundtrip (v : Value) :
    toDateCell (csvReadCell (toDateCell v)) = toDateCell v := by
  rcases toDateCell_shape v with h | ⟨d, h, hval⟩
  · rw [h]
    rfl
  · rw [h]
    exact toDateCell_dateStr d hval

theorem toDatetimeCell_roundtrip (v : Value) :
    toDatetimeCell (csvReadCell (toDatetimeCell v)) = toDatetimeCell v := by
  rcases toDatetimeCell_shape v with h | ⟨t, h, hval⟩
  · rw [h]
    rfl
  · rw [h]
    exact toDatetimeCell_tsStr t hval

theorem toIntCellD_roundtrip (v : Value) :
    toIntCellD (csvReadCell (toIntCellD v)) = toIntCellD v := by
  rcases toIntCellD_shape v with h | ⟨n, h⟩
  · rw [h]
    rfl
  · rw [h]
    rfl

theorem intCoercible_csvRead_toInt (v : Value) :
    intCoercible (csvReadCell (toIntCellD v)) = true := by
  rcases toIntCellD_shape v with h | ⟨n, h⟩
  · rw [h]
    rfl
  · rw [h]
    rfl

theorem writeCSVRows_canonical (C : List String) (recs : List Record)
    (g : Record → String → Value) :
    writeCSVRows ⟨C, recs.map (fun r => C.map (g r))⟩
      = recs.map (fun r => C.map (fun c => formatCell (g r c))) := by
  show (recs.map (fun r => C.map (g r))).map (fun row => row.map formatCell) = _
  rw [List.map_map]
  apply List.map_congr_left
  intro r hr
  show (C.map (g r)).map formatCell = C.map (fun c => formatCell (g r c))
  rw [List.map_map]
  rfl

theorem doneOpenFlag_roundtrip (K : List String) (t : YMD) (r : Record)
    (hdone : "done_ratio" ∈ K) :
    doneOpenFlag (workPackagesColumns.map (fun c => (c, csvReadCell (wpCellFn K t r c))))
      = doneOpenFlag r := by
  unfold doneOpenFlag
  rw [lookupKey_pairs workPackagesColumns (fun c => csvReadCell (wpCellFn K t r c))
      "done_ratio" (by decide),
    wpCellFn_ne K t r "done_ratio" (by decide), if_pos hdone, g7w_done,
    toIntCellD_roundtrip]

theorem lateFlag_roundtrip (K : List String) (t : YMD) (r : Record)
    (hdue : "due_date" ∈ K) (hdone : "done_ratio" ∈ K) :
    lateFlag t (workPackagesColumns.map (fun c => (c, csvReadCell (wpCellFn K t r c))))
      = lateFlag t r := by
  unfold lateFlag
  rw [lookupKey_pairs workPackagesColumns (fun c => csvReadCell (wpCellFn K t r c))
      "due_date" (by decide),
    wpCellFn_ne K t r "due_date" (by decide), if_pos hdue, g7w_due,
    toDateCell_roundtrip,
    doneOpenFlag_roundtrip K t r hdone]

theorem wpCell_roundtrip (K : List String) (t : YMD) (r : Record)
    (hdue : "due_date" ∈ K) (hdone : "done_ratio" ∈ K)
    (hfree : ∀ c ∈ freeColumnsOf "work_packages", safeFreeCell (lookupKey r c) = true) :
    ∀ c ∈ workPackagesColumns,
      wpCellFn workPackagesColumns t
        (workPackagesColumns.map (fun c' => (c', csvReadCell (wpCellFn K t r c')))) c
      = wpCellFn K t r c := by
  have hfreeCase : ∀ c, c ∈ freeColumnsOf "work_packages" → c ∈ workPackagesColumns →
      wpCellFn workPackagesColumns t
        (workPackagesColumns.map (fun c' => (c', csvReadCell (wpCellFn K t r c')))) c
      = wpCellFn K t r c := by
    intro c hcf hcw
    have hcne : c ≠ "is_late" := by
      fin_cases hcf <;> decide
    rw [wpCellFn_ne workPackagesColumns t _ c hcne, if_pos hcw,
      g7w_free _ c hcf,
      lookupKey_pairs workPackagesColumns (fun c' => csvReadCell (wpCellFn K t r c')) c hcw,
      wpCellFn_ne K t r c hcne]
    by_cases hm : c ∈ K
    · rw [if_pos hm, g7w_free r c hcf]
      rcases safeFreeCell_spec _ (hfree c hcf) with hn | ⟨s, hn, _⟩
      · rw [hn]
        rfl
      · rw [hn]
        rfl
    · rw [if_neg hm]
      rfl
  intro c hc
  fin_cases hc
  · -- wp_id
    rw [wpCellFn_ne workPackagesColumns t _ "wp_id" (by decide), if_pos (by decide),
      g7w_wpid,
      lookupKey_pairs workPackagesColumns (fun c' => csvReadCell (wpCellFn K t r c'))
        "wp_id" (by decide),
      wpCellFn_ne K t r "wp_id" (by decide)]
    by_cases hm : ("wp_id" : String) ∈ K
    · rw [if_pos hm, g7w_wpid, toIntCellD_roundtrip]
    · rw [if_neg hm]
      rfl
  · exact hfreeCase "wp_subject" (by decide) (by decide)
  · exact hfreeCase "wp_type" (by decide) (by decide)
  · exact hfreeCase "wp_status" (by decide) (by decide)
  · exact hfreeCase "wp_priority" (by decide) (by decide)
  · -- project_id
    rw [wpCellFn_ne workPackagesColumns t _ "project_id" (by decide), if_pos (by decide),
      g7w_projid,
      lookupKey_pairs workPackagesColumns (fun c' => csvReadCell (wpCellFn K t r c'))
        "project_id" (by decide),
      wpCellFn_ne K t r "project_id" (by decide)]
    by_cases hm : ("project_id" : String) ∈ K
    · rw [if_pos hm, g7w_projid, toIntCellD_roundtrip]
    · rw [if_neg hm]
      rfl
  · exact hfreeCase "project_name" (by decide) (by decide)
  · exact hfreeCase "assignee" (by decide) (by decide)
  · exact hfreeCase "author" (by decide) (by decide)
  · -- start_date
    rw [wpCellFn_ne workPackagesColumns t _ "start_date" (by decide), if_pos (by decide),
      g7w_start,
      lookupKey_pairs workPackagesColumns (fun c' => csvReadCell (wpCellFn K t r c'))
        "start_date" (by decide),
      wpCellFn_ne K t r "start_date" (by decide)]
    by_cases hm : ("start_date" : String) ∈ K
    · rw [if_pos hm, g7w_start, toDateCell_roundtrip]
    · rw [if_neg hm]
      rfl
  · -- due_date
    rw [wpCellFn_ne workPackagesColumns t _ "due_date" (by decide), if_pos (by decide),
      g7w_due,
      lookupKey_pairs workPackagesColumns (fun c' => csvReadCell (wpCellFn K t r c'))
        "due_date" (by decide),
      wpCellFn_ne K t r "due_date" (by decide), if_pos hdue, g7w_due,
      toDateCell_roundtrip]
  · -- done_ratio
    rw [wpCellFn_ne workPackagesColumns t _ "done_ratio" (by decide), if_pos (by decide),
      g7w_done,
      lookupKey_pairs workPackagesColumns (fun c' => csvReadCell (wpCellFn K t r c'))
        "done_ratio" (by decide),
      wpCellFn_ne K t r "done_ratio" (by decide), if_pos hdone, g7w_done,
      toIntCellD_roundtrip]
  · -- created_at
    rw [wpCellFn_ne workPackagesColumns t _ "created_at" (by decide), if_pos (by decide),
      g7w_created,
      lookupKey_pairs workPackagesColumns (fun c' => csvReadCell (wpCellFn K t r c'))
        "created_at" (by decide),
      wpCellFn_ne K t r "created_at" (by decide)]
    by_cases hm : ("created_at" : String) ∈ K
    · rw [if_pos hm, g7w_created, toDatetimeCell_roundtrip]
    · rw [if_neg hm]
      rfl
  · -- updated_at
    rw [wpCellFn_ne workPackagesColumns t _ "updated_at" (by decide), if_pos (by decide),
      g7w_updated,
      lookupKey_pairs workPackagesColumns (fun c' => csvReadCell (wpCellFn K t r c'))
        "updated_at" (by decide),
      wpCellFn_ne K t r "updated_at" (by decide)]
    by_cases hm : ("updated_at" : String) ∈ K
    · rw [if_pos hm, g7w_updated, toDatetimeCell_roundtrip]
    · rw [if_neg hm]
      rfl
  · -- is_late
    rw [wpCellFn_islate workPackagesColumns t _ (by decide),
      wpCellFn_islate K t r hdue,
      lateFlag_roundtrip K t r hdue hdone]

theorem projCellFn_eq (K : List String) (r : Record) (c : String) :
    projCellFn K r c = if c ∈ K then gp r c else Value.null := rfl

theorem projCell_roundtrip (K : List String) (r : Record)
    (hfree : ∀ c ∈ freeColumnsOf "projects", safeFreeCell (lookupKey r c) = true) :
    ∀ c ∈ projectsColumns,
      projCellFn projectsColumns
        (projectsColumns.map (fun c' => (c', csvReadCell (projCellFn K r c')))) c
      = projCellFn K r c := by
  have hfreeCase : ∀ c, c ∈ freeColumnsOf "projects" → c ∈ projectsColumns →
      projCellFn projectsColumns
        (projectsColumns.map (fun c' => (c', csvReadCell (projCellFn K r c')))) c
      = projCellFn K r c := by
    intro c hcf hcw
    rw [projCellFn_eq projectsColumns _ c, if_pos hcw, gp_free _ c hcf,
      lookupKey_pairs projectsColumns (fun c' => csvReadCell (projCellFn K r c')) c hcw,
      projCellFn_eq K r c]
    by_cases hm : c ∈ K
    · rw [if_pos hm, gp_free r c hcf]
      rcases safeFreeCell_spec _ (hfree c hcf) with hn | ⟨s, hn, _⟩
      · rw [hn]
        rfl
      · rw [hn]
        rfl
    · rw [if_neg hm]
      rfl
  intro c hc
  fin_cases hc
  · exact hfreeCase "project_id" (by decide) (by decide)
  · exact hfreeCase "project_name" (by decide) (by decide)
  · exact hfreeCase "project_status" (by decide) (by decide)
  · exact hfreeCase "project_href" (by decide) (by decide)
  · rw [projCellFn_eq projectsColumns _ "updated_at", if_pos (by decide), gp_updated,
      lookupKey_pairs projectsColumns (fun c' => csvReadCell (projCellFn K r c'))
        "updated_at" (by decide),
      projCellFn_eq K r "updated_at"]
    by_cases hm : ("updated_at" : String) ∈ K
    · rw [if_pos hm, gp_updated, toDatetimeCell_roundtrip]
    · rw [if_neg hm]
      rfl

theorem roundtrip_empty (cols : List String) (sn : String) (t : YMD)
    (hs : SCHEMAS.lookup sn = some cols) :
    roundTripNormalize ⟨cols, []⟩ (some sn) t = .ok ⟨cols, []⟩ := by
  show normalize_records (readCSVRecords cols []) (some sn) t = _
  show normalize_records [] (some sn) t = _
  exact normalize_empty_registered [] sn cols t hs rfl

theorem wp_roundtrip (records : List Record) (t : YMD) (df : DataFrame)
    (hne : unionKeys records ≠ [])
    (hnorm : normalize_records records (some "work_packages") t = .ok df)
    (hdue : "due_date" ∈ unionKeys records)
    (hfree : ∀ r ∈ records, ∀ c ∈ freeColumnsOf "work_packages",
      safeFreeCell (lookupKey r c) = true) :
    roundTripNormalize df (some "work_packages") t = .ok df := by
  have hdone : "done_ratio" ∈ unionKeys records := wp_ok_done_mem records t df hne hnorm hdue
  have hrecne : records ≠ [] := records_ne_nil_of_unionKeys records hne
  have hshape := wp_ok_shape records t df hne hnorm
  subst hshape
  show normalize_records
    (readCSVRecords workPackagesColumns
      (writeCSVRows ⟨workPackagesColumns,
        records.map (fun r => workPackagesColumns.map (wpCellFn (unionKeys records) t r))⟩))
    (some "work_packages") t = _
  rw [writeCSVRows_canonical workPackagesColumns records (wpCellFn (unionKeys records) t)]
  have hinferC : ∀ c ∈ workPackagesColumns,
      inferColumn (records.map (fun r => formatCell (wpCellFn (unionKeys records) t r c)))
        = records.map (fun r => csvReadCell (wpCellFn (unionKeys records) t r c)) := by
    intro c hc
    fin_cases hc
    · apply inferColumn_int' records (fun r => wpCellFn (unionKeys records) t r "wp_id")
      intro r hr
      rw [wpCellFn_ne (unionKeys records) t r "wp_id" (by decide)]
      by_cases hm : ("wp_id" : String) ∈ unionKeys records
      · rw [if_pos hm, g7w_wpid]
        exact toIntCellD_shape _
      · rw [if_neg hm]
        exact Or.inl rfl
    · apply inferColumn_free' records (fun r => wpCellFn (unionKeys records) t r "wp_subject")
      intro r hr
      rw [wpCellFn_ne (unionKeys records) t r "wp_subject" (by decide)]
      by_cases hm : ("wp_subject" : String) ∈ unionKeys records
      · rw [if_pos hm, g7w_free r "wp_subject" (by decide)]
        exact hfree r hr "wp_subject" (by decide)
      · rw [if_neg hm]
        rfl
    · apply inferColumn_free' records (fun r => wpCellFn (unionKeys records) t r "wp_type")
      intro r hr
      rw [wpCellFn_ne (unionKeys records) t r "wp_type" (by decide)]
      by_cases hm : ("wp_type" : String) ∈ unionKeys records
      · rw [if_pos hm, g7w_free r "wp_type" (by decide)]
        exact hfree r hr "wp_type" (by decide)
      · rw [if_neg hm]
        rfl
    · apply inferColumn_free' records (fun r => wpCellFn (unionKeys records) t r "wp_status")
      intro r hr
      rw [wpCellFn_ne (unionKeys records) t r "wp_status" (by decide)]
      by_cases hm : ("wp_status" : String) ∈ unionKeys records
      · rw [if_pos hm, g7w_free r "wp_status" (by decide)]
        exact hfree r hr "wp_status" (by decide)
      · rw [if_neg hm]
        rfl
    · apply inferColumn_free' records (fun r => wpCellFn (unionKeys records) t r "wp_priority")
      intro r hr
      rw [wpCellFn_ne (unionKeys records) t r "wp_priority" (by decide)]
      by_cases hm : ("wp_priority" : String) ∈ unionKeys records
      · rw [if_pos hm, g7w_free r "wp_priority" (by decide)]
        exact hfree r hr "wp_priority" (by decide)
      · rw [if_neg hm]
        rfl
    · apply inferColumn_int' records (fun r => wpCellFn (unionKeys records) t r "project_id")
      intro r hr
      rw [wpCellFn_ne (unionKeys records) t r "project_id" (by decide)]
      by_cases hm : ("project_id" : String) ∈ unionKeys records
      · rw [if_pos hm, g7w_projid]
        exact toIntCellD_shape _
      · rw [if_neg hm]
        exact Or.inl rfl
    · apply inferColumn_free' records (fun r => wpCellFn (unionKeys records) t r "project_name")
      intro r hr
      rw [wpCellFn_ne (unionKeys records) t r "project_name" (by decide)]
      by_cases hm : ("project_name" : String) ∈ unionKeys records
      · rw [if_pos hm, g7w_free r "project_name" (by decide)]
        exact hfree r hr "project_name" (by decide)
      · rw [if_neg hm]
        rfl
    · apply inferColumn_free' records (fun r => wpCellFn (unionKeys records) t r "assignee")
      intro r hr
      rw [wpCellFn_ne (unionKeys records) t r "assignee" (by decide)]
      by_cases hm : ("assignee" : String) ∈ unionKeys records
      · rw [if_pos hm, g7w_free r "assignee" (by decide)]
        exact hfree r hr "assignee" (by decide)
      · rw [if_neg hm]
        rfl
    · apply inferColumn_free' records (fun r => wpCellFn (unionKeys records) t r "author")
      intro r hr
      rw [wpCellFn_ne (unionKeys records) t r "author" (by decide)]
      by_cases hm : ("author" : String) ∈ unionKeys records
      · rw [if_pos hm, g7w_free r "author" (by decide)]
        exact hfree r hr "author" (by decide)
      · rw [if_neg hm]
        rfl
    · apply inferColumn_date' records (fun r => wpCellFn (unionKeys records) t r "start_date")
      intro r hr
      rw [wpCellFn_ne (unionKeys records) t r "start_date" (by decide)]
      by_cases hm : ("start_date" : String) ∈ unionKeys records
      · rw [if_pos hm, g7w_start]
        rcases toDateCell_shape (lookupKey r "start_date") with h | ⟨d, h, _⟩
        · exact Or.inl h
        · exact Or.inr ⟨d, h⟩
      · rw [if_neg hm]
        exact Or.inl rfl
    · apply inferColumn_date' records (fun r => wpCellFn (unionKeys records) t r "due_date")
      intro r hr
      rw [wpCellFn_ne (unionKeys records) t r "due_date" (by decide), if_pos hdue, g7w_due]
      rcases toDateCell_shape (lookupKey r "due_date") with h | ⟨d, h, _⟩
      · exact Or.inl h
      · exact Or.inr ⟨d, h⟩
    · apply inferColumn_int' records (fun r => wpCellFn (unionKeys records) t r "done_ratio")
      intro r hr
      rw [wpCellFn_ne (unionKeys records) t r "done_ratio" (by decide), if_pos hdone, g7w_done]
      exact toIntCellD_shape _
    · apply inferColumn_ts' records (fun r => wpCellFn (unionKeys records) t r "created_at")
      intro r hr
      rw [wpCellFn_ne (unionKeys records) t r "created_at" (by decide)]
      by_cases hm : ("created_at" : String) ∈ unionKeys records
      · rw [if_pos hm, g7w_created]
        rcases toDatetimeCell_shape (lookupKey r "created_at") with h | ⟨ts, h, _⟩
        · exact Or.inl h
        · exact Or.inr ⟨ts, h⟩
      · rw [if_neg hm]
        exact Or.inl rfl
    · apply inferColumn_ts' records (fun r => wpCellFn (unionKeys records) t r "updated_at")
      intro r hr
      rw [wpCellFn_ne (unionKeys records) t r "updated_at" (by decide)]
      by_cases hm : ("updated_at" : String) ∈ unionKeys records
      · rw [if_pos hm, g7w_updated]
        rcases toDatetimeCell_shape (lookupKey r "updated_at") with h | ⟨ts, h, _⟩
        · exact Or.inl h
        · exact Or.inr ⟨ts, h⟩
      · rw [if_neg hm]
        exact Or.inl rfl
    · apply inferColumn_bool' records (fun r => wpCellFn (unionKeys records) t r "is_late")
        hrecne
      intro r hr
      exact ⟨lateFlag t r, wpCellFn_islate (unionKeys records) t r hdue⟩
  rw [readCSV_canonical workPackagesColumns records (wpCellFn (unionKeys records) t)
    (fun j hj => hinferC _ (by
      rw [List.getD_eq_getElem workPackagesColumns "" hj]
      exact List.getElem_mem hj))]
  have hK2 : unionKeys (records.map (fun r => workPackagesColumns.map
        (fun c => (c, csvReadCell (wpCellFn (unionKeys records) t r c)))))
      = workPackagesColumns := by
    apply unionKeys_const workPackagesColumns (by decide)
    · intro r2 hr2
      rcases List.mem_map.mp hr2 with ⟨r, hr, rfl⟩
      exact keys_map_pairs workPackagesColumns _
    · exact fun hnil => hrecne (List.map_eq_nil_iff.mp hnil)
  have hne2 : unionKeys (records.map (fun r => workPackagesColumns.map
        (fun c => (c, csvReadCell (wpCellFn (unionKeys records) t r c))))) ≠ [] := by
    rw [hK2]
    exact List.cons_ne_nil _ _
  have hco2 : ∀ r2 ∈ records.map (fun r => workPackagesColumns.map
        (fun c => (c, csvReadCell (wpCellFn (unionKeys records) t r c)))),
      ∀ c ∈ (["wp_id", "project_id", "done_ratio"] : List String),
        intCoercible (lookupKey r2 c) = true := by
    intro r2 hr2 c hc
    rcases List.mem_map.mp hr2 with ⟨r, hr, rfl⟩
    fin_cases hc
    · rw [lookupKey_pairs workPackagesColumns
          (fun c' => csvReadCell (wpCellFn (unionKeys records) t r c')) "wp_id" (by decide),
        wpCellFn_ne (unionKeys records) t r "wp_id" (by decide)]
      by_cases hm : ("wp_id" : String) ∈ unionKeys records
      · rw [if_pos hm, g7w_wpid]
        exact intCoercible_csvRead_toInt _
      · rw [if_neg hm]
        rfl
    · rw [lookupKey_pairs workPackagesColumns
          (fun c' => csvReadCell (wpCellFn (unionKeys records) t r c')) "project_id" (by decide),
        wpCellFn_ne (unionKeys records) t r "project_id" (by decide)]
      by_cases hm : ("project_id" : String) ∈ unionKeys records
      · rw [if_pos hm, g7w_projid]
        exact intCoercible_csvRead_toInt _
      · rw [if_neg hm]
        rfl
    · rw [lookupKey_pairs workPackagesColumns
          (fun c' => csvReadCell (wpCellFn (unionKeys records) t r c')) "done_ratio" (by decide),
        wpCellFn_ne (unionKeys records) t r "done_ratio" (by decide), if_pos hdone, g7w_done]
      exact intCoercible_csvRead_toInt _
  have hdd2 : "due_date" ∈ unionKeys (records.map (fun r => workPackagesColumns.map
        (fun c => (c, csvReadCell (wpCellFn (unionKeys records) t r c))))) →
      "done_ratio" ∈ unionKeys (records.map (fun r => workPackagesColumns.map
        (fun c => (c, csvReadCell (wpCellFn (unionKeys records) t r c))))) := by
    intro _
    rw [hK2]
    decide
  rw [wp_normalize_ok _ t hne2 hco2 hdd2, hK2]
  have hrows : (records.map (fun r => workPackagesColumns.map
        (fun c => (c, csvReadCell (wpCellFn (unionKeys records) t r c))))).map
        (fun r2 => workPackagesColumns.map (wpCellFn workPackagesColumns t r2))
      = records.map (fun r => workPackagesColumns.map (wpCellFn (unionKeys records) t r)) := by
    rw [List.map_map]
    apply List.map_congr_left
    intro r hr
    show workPackagesColumns.map (wpCellFn workPackagesColumns t
        (workPackagesColumns.map (fun c => (c, csvReadCell (wpCellFn (unionKeys records) t r c)))))
      = workPackagesColumns.map (wpCellFn (unionKeys records) t r)
    apply List.map_congr_left
    exact wpCell_roundtrip (unionKeys records) t r hdue hdone (hfree r hr)
  rw [hrows]

theorem proj_roundtrip (records : List Record) (t : YMD) (df : DataFrame)
    (hne : unionKeys records ≠ [])
    (hnorm : normalize_records records (some "projects") t = .ok df)
    (hfree : ∀ r ∈ records, ∀ c ∈ freeColumnsOf "projects",
      safeFreeCell (lookupKey r c) = true) :
    roundTripNormalize df (some "projects") t = .ok df := by
  have hrecne : records ≠ [] := records_ne_nil_of_unionKeys records hne
  have hshape := proj_ok_shape records t df hne hnorm
  subst hshape
  show normalize_records
    (readCSVRecords projectsColumns
      (writeCSVRows ⟨projectsColumns,
        records.map (fun r => projectsColumns.map (projCellFn (unionKeys records) r))⟩))
    (some "projects") t = _
  rw [writeCSVRows_canonical projectsColumns records (projCellFn (unionKeys records))]
  have hinferC : ∀ c ∈ projectsColumns,
      inferColumn (records.map (fun r => formatCell (projCellFn (unionKeys records) r c)))
        = records.map (fun r => csvReadCell (projCellFn (unionKeys records) r c)) := by
    have hfreeCase : ∀ c, c ∈ freeColumnsOf "projects" →
        inferColumn (records.map (fun r => formatCell (projCellFn (unionKeys records) r c)))
          = records.map (fun r => csvReadCell (projCellFn (unionKeys records) r c)) := by
      intro c hcf
      apply inferColumn_free' records (fun r => projCellFn (unionKeys records) r c)
      intro r hr
      rw [projCellFn_eq (unionKeys records) r c]
      by_cases hm : c ∈ unionKeys records
      · rw [if_pos hm, gp_free r c hcf]
        exact hfree r hr c hcf
      · rw [if_neg hm]
        rfl
    intro c hc
    fin_cases hc
    · exact hfreeCase "project_id" (by decide)
    · exact hfreeCase "project_name" (by decide)
    · exact hfreeCase "project_status" (by decide)
    · exact hfreeCase "project_href" (by decide)
    · apply inferColumn_ts' records (fun r => projCellFn (unionKeys records) r "updated_at")
      intro r hr
      rw [projCellFn_eq (unionKeys records) r "updated_at"]
      by_cases hm : ("updated_at" : String) ∈ unionKeys records
      · rw [if_pos hm, gp_updated]
        rcases toDatetimeCell_shape (lookupKey r "updated_at") with h | ⟨ts, h, _⟩
        · exact Or.inl h
        · exact Or.inr ⟨ts, h⟩
      · rw [if_neg hm]
        exact Or.inl rfl
  rw [readCSV_canonical projectsColumns records (projCellFn (unionKeys records))
    (fun j hj => hinferC _ (by
      rw [List.getD_eq_getElem projectsColumns "" hj]
      exact List.getElem_mem hj))]
  have hK2 : unionKeys (records.map (fun r => projectsColumns.map
        (fun c => (c, csvReadCell (projCellFn (unionKeys records) r c)))))
      = projectsColumns := by
    apply unionKeys_const projectsColumns (by decide)
    · intro r2 hr2
      rcases List.mem_map.mp hr2 with ⟨r, hr, rfl⟩
      exact keys_map_pairs projectsColumns _
    · exact fun hnil => hrecne (List.map_eq_nil_iff.mp hnil)
  have hne2 : unionKeys (records.map (fun r => projectsColumns.map
        (fun c => (c, csvReadCell (projCellFn (unionKeys records) r c))))) ≠ [] := by
    rw [hK2]
    exact List.cons_ne_nil _ _
  rw [proj_normalize_ok _ t hne2, hK2]
  have hrows : (records.map (fun r => projectsColumns.map
        (fun c => (c, csvReadCell (projCellFn (unionKeys records) r c))))).map
        (fun r2 => projectsColumns.map (projCellFn projectsColumns r2))
      = records.map (fun r => projectsColumns.map (projCellFn (unionKeys records) r)) := by
    rw [List.map_map]
    apply List.map_congr_left
    intro r hr
    show projectsColumns.map (projCellFn projectsColumns
        (projectsColumns.map (fun c => (c, csvReadCell (projCellFn (unionKeys records) r c)))))
      = projectsColumns.map (projCellFn (unionKeys records) r)
    apply List.map_congr_left
    exact projCell_roundtrip (unionKeys records) r (hfree r hr)
  rw [hrows]

/-- C4 counterexample: the round trip is not value-preserving in
general.  A numeric-looking free-text cell comes back from the CSV as a
number (`wp_subject = "7"` as the integer 7, `wp_subject = "1.5"` as the
float 1.5), an NA token (`wp_subject = "NA"`) comes back missing, and
the all-null `is_late` column of a dataset normalized without any
`due_date` key comes back recomputed as `false` — all beyond
date/timestamp string formatting. -/
theorem C4_counterexample :
    (normalize_records [[("wp_subject", Value.str "7")]] (some "work_packages") ⟨2024, 1, 1⟩
      = .ok ⟨workPackagesColumns,
          [[Value.null, Value.str "7", Value.null, Value.null, Value.null, Value.null,
            Value.null, Value.null, Value.null, Value.null, Value.null, Value.null,
            Value.null, Value.null, Value.null]]⟩
    ∧ roundTripNormalize
        ⟨workPackagesColumns,
          [[Value.null, Value.str "7", Value.null, Value.null, Value.null, Value.null,
            Value.null, Value.null, Value.null, Value.null, Value.null, Value.null,
            Value.null, Value.null, Value.null]]⟩
        (some "work_packages") ⟨2024, 1, 1⟩
      = .ok ⟨workPackagesColumns,
          [[Value.null, Value.int 7, Value.null, Value.null, Value.null, Value.null,
            Value.null, Value.null, Value.null, Value.null, Value.null, Value.null,
            Value.null, Value.null, Value.bool false]]⟩
    ∧ (⟨workPackagesColumns,
          [[Value.null, Value.int 7, Value.null, Value.null, Value.null, Value.null,
            Value.null, Value.null, Value.null, Value.null, Value.null, Value.null,
            Value.null, Value.null, Value.bool false]]⟩ : DataFrame)
      ≠ ⟨workPackagesColumns,
          [[Value.null, Value.str "7", Value.null, Value.null, Value.null, Value.null,
            Value.null, Value.null, Value.null, Value.null, Value.null, Value.null,
            Value.null, Value.null, Value.null]]⟩)
    ∧ (normalize_records [[("wp_subject", Value.str "1.5")]]
          (some "work_packages") ⟨2024, 1, 1⟩).map
        (fun df => roundTripNormalize df (some "work_packages") ⟨2024, 1, 1⟩)
      = .ok (.ok ⟨workPackagesColumns,
          [[Value.null, Value.float 15 1, Value.null, Value.null, Value.null, Value.null,
            Value.null, Value.null, Value.null, Value.null, Value.null, Value.null,
            Value.null, Value.null, Value.bool false]]⟩)
    ∧ (normalize_records [[("wp_subject", Value.str "NA")]]
          (some "work_packages") ⟨2024, 1, 1⟩).map
        (fun df => roundTripNormalize df (some "work_packages") ⟨2024, 1, 1⟩)
      = .ok (.ok ⟨workPackagesColumns,
          [[Value.null, Value.null, Value.null, Value.null, Value.null, Value.null,
            Value.null, Value.null, Value.null, Value.null, Value.null, Value.null,
            Value.null, Value.null, Value.bool false]]⟩) := by
  refine ⟨⟨by decide, by decide, by decide⟩, by decide, by decide⟩

/-- C4 (corrected): exporting a dataset normalized against a registered
schema name to CSV and re-ingesting the CSV rows through
`normalize_records` with the same schema name on the same day returns
the dataset unchanged, provided every free-text cell of the input
records is null or a safe string (non-empty, containing a character
outside the numeric alphabet — so no integer or float literal — and
neither a boolean token nor an NA token) and, for `work_packages` with
non-empty observed keys, some record carries a `due_date` key.  Without
these provisos the round trip changes values, so the claim as stated is
corrected by `C4_counterexample`. -/
theorem C4_roundtrip (records : List Record) (sn : String) (cols : List String) (t : YMD)
    (df : DataFrame)
    (hs : SCHEMAS.lookup sn = some cols)
    (hnorm : normalize_records records (some sn) t = .ok df)
    (hfree : ∀ r ∈ records, ∀ c ∈ freeColumnsOf sn, safeFreeCell (lookupKey r c) = true)
    (hdue : sn = "work_packages" → unionKeys records ≠ [] → "due_date" ∈ unionKeys records) :
    roundTripNormalize df (some sn) t = .ok df := by
  by_cases hK : unionKeys records = []
  · have hdf : df = ⟨cols, []⟩ := by
      rw [normalize_empty_registered records sn cols t hs hK] at hnorm
      exact (Except.ok.inj hnorm).symm
    subst hdf
    exact roundtrip_empty cols sn t hs
  · rcases schemas_lookup_cases sn cols hs with ⟨h1, h2⟩ | ⟨h1, h2⟩
    · subst h1
      exact proj_roundtrip records t df hK hnorm hfree
    · subst h1
      exact wp_roundtrip records t df hK hnorm (hdue rfl hK) hfree

/-- Witness for C4: a record with safe free text, a due date and a done
ratio normalizes to a concrete dataset, and the CSV round trip returns
that dataset unchanged. -/
theorem C4_roundtrip_witness :
    normalize_records
        [[("wp_subject", Value.str "Fix the crash"), ("due_date", Value.str "2020-01-05"),
          ("done_ratio", Value.str "40")]]
        (some "work_packages") ⟨2024, 1, 1⟩
      = .ok ⟨workPackagesColumns,
          [[Value.null, Value.str "Fix the crash", Value.null, Value.null, Value.null,
            Value.null, Value.null, Value.null, Value.null, Value.null,
            Value.date ⟨2020, 1, 5⟩, Value.int 40, Value.null, Value.null, Value.bool true]]⟩
    ∧ roundTripNormalize
        ⟨workPackagesColumns,
          [[Value.null, Value.str "Fix the crash", Value.null, Value.null, Value.null,
            Value.null, Value.null, Value.null, Value.null, Value.null,
            Value.date ⟨2020, 1, 5⟩, Value.int 40, Value.null, Value.null, Value.bool true]]⟩
        (some "work_packages") ⟨2024, 1, 1⟩
      = .ok ⟨workPackagesColumns,
          [[Value.null, Value.str "Fix the crash", Value.null, Value.null, Value.null,
            Value.null, Value.null, Value.null, Value.null, Value.null,
            Value.date ⟨2020, 1, 5⟩, Value.int 40, Value.null, Value.null, Value.bool true]]⟩ :=
  ⟨by decide,
   C4_roundtrip
     [[("wp_subject", Value.str "Fix the crash"), ("due_date", Value.str "2020-01-05"),
       ("done_ratio", Value.str "40")]]
     "work_packages" workPackagesColumns ⟨2024, 1, 1⟩
     ⟨workPackagesColumns,
       [[Value.null, Value.str "Fix the crash", Value.null, Value.null, Value.null,
         Value.null, Value.null, Value.null, Value.null, Value.null,
         Value.date ⟨2020, 1, 5⟩, Value.int 40, Value.null, Value.null, Value.bool true]]⟩
     (by decide) (by decide) (by decide) (by decide)⟩


